import Mathlib

/-!
# shimmerdata-go: batching consumer, transmitter, spool drain and event facade

A shallow embedding of `shimmerdata/consumer_batch.go`, `shimmerdata/upload_file.go`,
`shimmerdata/list.go`, `shimmerdata/printer.go`, `shimmerdata/consumer_log.go`,
`shimmerdata/utils.go` and `shimmerdata/shimmerdata.go`, with the properties of
the queue, the flush path, the report transmitter, the chunked upload, the spool
scan, the log-file consumer and the event facade.

Conventions.
* A Go `error` is `Option GoError` (`none` is `nil`); `(T, error)` is `Except GoError T`;
  a call that can panic gives an `Outcome`.
* Go `int`/`int64` values are `Int`.  Counters only ever count events and byte
  offsets never exceed the size of a file, so no arithmetic here can wrap; the one
  place where wrapping is possible (a duration in nanoseconds) wraps explicitly.
* Library behaviour (`encoding/json`, `compress/gzip`, `net/http`, `os`,
  `path/filepath`, `time`) enters as function arguments: the theorems hold for
  every such behaviour unless a hypothesis says otherwise.  The two patterns the
  code hands to `regexp` are run by matchers written out here.
* Goroutines are not modelled: every function below is one sequential call.
-/

namespace Shimmerdata

/-- A Go error value, identified with its message. -/
abbrev GoError := String

/-- A Go byte slice. -/
abbrev Bytes := List UInt8

deriving instance DecidableEq for Except

/-- What a call comes to: it returns a value, or it panics. -/
inductive Outcome (α : Type) where
  | returned (a : α)
  | panicked (msg : String)

/-- An open `*os.File`, by its name. -/
structure osFile where
  name : String
deriving Repr, DecidableEq

/-! ## list.go -/

/-- SafeList of list.go: a `container/list` behind a mutex, modelled as its
contents from front to back. -/
structure SafeList (α : Type) where
  list : List α
deriving Repr, DecidableEq

/-- NewSafeList of list.go. -/
def NewSafeList {α : Type} : SafeList α := ⟨[]⟩

/-- PushBack of list.go. -/
def SafeList.PushBack {α : Type} (sl : SafeList α) (value : α) : SafeList α :=
  ⟨sl.list ++ [value]⟩

/-- PushFront of list.go. -/
def SafeList.PushFront {α : Type} (sl : SafeList α) (value : α) : SafeList α :=
  ⟨value :: sl.list⟩

/-- PopFront of list.go: `(none, sl)` stands for `(nil, false)`, `(some v, rest)` for
`(v, true)`. -/
def SafeList.PopFront {α : Type} (sl : SafeList α) : Option α × SafeList α :=
  match sl.list with
  | [] => (none, sl)
  | front :: rest => (some front, ⟨rest⟩)

/-- PopBack of list.go. -/
def SafeList.PopBack {α : Type} (sl : SafeList α) : Option α × SafeList α :=
  match sl.list.getLast? with
  | none => (none, sl)
  | some back => (some back, ⟨sl.list.dropLast⟩)

/-- Len of list.go. -/
def SafeList.Len {α : Type} (sl : SafeList α) : Int := sl.list.length

/-! ## printer.go -/

/-- The printerConf struct of printer.go. -/
structure printerConf where
  app : String
  folder : String
  maxSize : Int
  maxAge : Int
  maxBackups : Int
  compress : Bool
  filename : String
deriving Repr, DecidableEq

/-- The printer struct of printer.go.  The embedded lumberjack logger is
represented by what it was asked to write: `written` lists the argument of
every `Write` call, oldest first. -/
structure printer where
  conf : printerConf
  written : List Bytes
deriving Repr, DecidableEq

/-- newPrinter of printer.go: the file name is `<folder>/<app>-logback.log`. -/
def newPrinter (conf : printerConf) : printer :=
  let filename := conf.folder ++ "/" ++ conf.app ++ "-logback.log"
  { conf := { conf with filename := filename }, written := [] }

/-- Write on the printer (the lumberjack `Write` it inherits): the bytes are
handed to the rotating log. -/
def printer.Write (p : printer) (data : Bytes) : printer :=
  { p with written := p.written ++ [data] }

/-! ## consumer_batch.go: configuration and state -/

/-- SDBatchConfig of consumer_batch.go; `Timeout` is a duration in nanoseconds. -/
structure SDBatchConfig where
  TempDir : String
  ServerUrl : String
  AppId : String
  AppToken : String
  BatchSize : Int
  Timeout : Int
  Compress : Bool
  Interval : Int
deriving Repr, DecidableEq

def DefaultTimeOut : Int := 30000
def DefaultBatchSize : Int := 20
def MaxBatchSize : Int := 200
def DefaultInterval : Int := 30

/-- The `time.Millisecond` constant, in nanoseconds. -/
def Millisecond : Int := 1000000

/-- The `time.Second` constant, in nanoseconds. -/
def Second : Int := 1000000000

/-- Two's-complement wrap of an integer to int64, the arithmetic of `time.Duration`. -/
def wrapInt64 (x : Int) : Int := (x + 2 ^ 63) % 2 ^ 64 - 2 ^ 63

/-- SDBatchConsumer of consumer_batch.go.  The channels are omitted (`listenerCap`
keeps the capacity the listener channel was made with, `ticker` the duration the
main ticker was made with, `dirTicker` the duration the directory watcher passes
to its own ticker, when a watcher was started).

`sends` is not a field of the Go struct: it records every call of `c.send`
(its data and size arguments), oldest first. -/
structure SDBatchConsumer (D : Type) where
  conf : SDBatchConfig
  logPrinter : Option printer
  count : Int
  countSend : Int
  ticker : Int
  dirTicker : Option Int
  buffer : SafeList D
  listenerCap : Int
  watchFlushForce : Int
  watchFlush : Int
  sends : List (Bytes × Int)

/-- The behaviour of `c.send` as seen by the flush path: given the calls made
so far and the arguments of this call, the error it returns.  A call of send
that panics ends the flush with it and is not a value of this type. -/
abbrev Transmitter := List (Bytes × Int) → Bytes → Int → Option GoError

/-! ## consumer_batch.go: pack, writeFile, innerFlush -/

/-- The loop of pack: `b` is the buffer so far, `size` the number of items
written, the list is the staging queue.  Matching on the queue is
`c.buffer.PopFront()`; `jsonMarshal` is `json.Marshal` on a queued event.
Returns what pack returns together with the queue it leaves. -/
def packLoop {D : Type} (jsonMarshal : D → Except GoError Bytes) (batchSize : Int)
    (b : Bytes) (size : Int) (queue : List D) :
    Except GoError (Bytes × Int) × List D :=
  if size < batchSize then
    match queue with
    | [] => (.ok (b, size), [])
    | data :: rest =>
      match jsonMarshal data with
      | .error err => (.error err, rest)
      | .ok bs => packLoop jsonMarshal batchSize (b ++ bs ++ [10]) (size + 1) rest
  else
    (.ok (b, size), queue)

/-- The pack method of consumer_batch.go. -/
def pack {D : Type} (jsonMarshal : D → Except GoError Bytes) (c : SDBatchConsumer D) :
    Except GoError (Bytes × Int) × SDBatchConsumer D :=
  let r := packLoop jsonMarshal c.conf.BatchSize [] 0 c.buffer.list
  (r.1, { c with buffer := ⟨r.2⟩ })

/-- The writeFile method of consumer_batch.go: nothing without a printer,
otherwise the data goes to the printer (an error of that write is only logged). -/
def writeFile {D : Type} (c : SDBatchConsumer D) (data : Bytes) : SDBatchConsumer D :=
  match c.logPrinter with
  | none => c
  | some p => { c with logPrinter := some (p.Write data) }

/-- One call of `c.send` from the flush path: the transmitter decides the
error, the call is recorded. -/
def callSend {D : Type} (tx : Transmitter) (c : SDBatchConsumer D) (data : Bytes)
    (size : Int) : Option GoError × SDBatchConsumer D :=
  (tx c.sends data size, { c with sends := c.sends ++ [(data, size)] })

/-- The retry loop of innerFlush, `for i := 0; i < 3; i++`, over the values of
`i` still to run.  `some err` is a `return err` from inside the loop, `none`
means the loop ran to its end without returning. -/
def sendLoop {D : Type} (tx : Transmitter) (params : Bytes) (size : Int) :
    List Nat → SDBatchConsumer D → Option (Option GoError) × SDBatchConsumer D
  | [], c => (none, c)
  | i :: is, c =>
    match callSend tx c params size with
    | (some err, c1) =>
      if i = 2 then (some (some err), writeFile c1 params)
      else sendLoop tx params size is c1
    | (none, c1) => (some none, c1)

/-- The innerFlush method of consumer_batch.go.  The first argument bounds the
depth of the trailing `return c.innerFlush(force)`; the result is `none` only
when that bound is used up.  `parseTime` is the function of utils.go, which
rewrites the buffer through `regexp`. -/
def innerFlush {D : Type} (jsonMarshal : D → Except GoError Bytes)
    (parseTime : Bytes → Bytes) (tx : Transmitter) (force : Bool) :
    Nat → SDBatchConsumer D → Option (Option GoError × SDBatchConsumer D)
  | 0, _ => none
  | fuel + 1, c =>
    if c.buffer.Len = 0 then some (none, c)
    else if c.buffer.Len < c.conf.BatchSize && !force then some (none, c)
    else
      match pack jsonMarshal c with
      | (.error err, c1) => some (some err, c1)
      | (.ok (b, size), c1) =>
        let c2 := { c1 with countSend := c1.countSend + size }
        let params := parseTime b
        match sendLoop tx params size (List.range 3) c2 with
        | (some ret, c3) => some (ret, c3)
        | (none, c3) => innerFlush jsonMarshal parseTime tx force fuel c3

/-! ## consumer_batch.go: NewBatchConsumer and the flush loop -/

/-- What a call of NewBatchConsumer comes to: the consumer, the returned error,
or a panic (`time.NewTicker` panics on a non-positive duration). -/
inductive Constructed (α : Type) where
  | ok (c : α)
  | error (err : GoError)
  | panic (msg : String)

/-- NewBatchConsumer of consumer_batch.go.  `checkAndMakeFolder` is the function of
utils.go (it touches the file system).  The goroutines it starts are represented
by the durations of their tickers; the ticker of watchDir is made inside its
goroutine from `c.conf.Interval`. -/
def NewBatchConsumer {D : Type} (checkAndMakeFolder : String → Except GoError String)
    (config : SDBatchConfig) : Constructed (SDBatchConsumer D) :=
  if config.ServerUrl = "" then .error "ServerUrl can not be empty"
  else
    let batchSize : Int :=
      if config.BatchSize > MaxBatchSize then MaxBatchSize
      else if config.BatchSize ≤ 0 then DefaultBatchSize
      else config.BatchSize
    let config : SDBatchConfig :=
      if config.Timeout ≤ 0 then { config with Timeout := wrapInt64 (DefaultTimeOut * Millisecond) }
      else config
    let interval : Int := if config.Interval = 0 then DefaultInterval else config.Interval
    let d := wrapInt64 (interval * Second)
    if d ≤ 0 then .panic "non-positive interval for NewTicker"
    else
      let c : SDBatchConsumer D :=
        { conf := config
          logPrinter := none
          count := 0
          countSend := 0
          ticker := d
          dirTicker := none
          buffer := NewSafeList
          listenerCap := batchSize * 2
          watchFlushForce := 0
          watchFlush := 0
          sends := [] }
      if config.TempDir ≠ "" then
        match checkAndMakeFolder config.TempDir with
        | .error err => .error err
        | .ok abs =>
          let config := { config with TempDir := abs }
          let p := newPrinter
            { app := config.AppId, folder := config.TempDir, maxSize := 100, maxAge := 0,
              maxBackups := 0, compress := true, filename := "" }
          let c := { c with logPrinter := some p, conf := { c.conf with TempDir := config.TempDir } }
          .ok { c with dirTicker := some (wrapInt64 (c.conf.Interval * Second)) }
      else .ok c

/-- The step of the listen goroutine for one event received from the channel:
count it, push it, and raise the soft signal when the queue has reached
`c.conf.BatchSize`. -/
def listenStep {D : Type} (c : SDBatchConsumer D) (d : D) : SDBatchConsumer D :=
  let c1 := { c with count := c.count + 1, buffer := c.buffer.PushBack d }
  if c1.buffer.Len ≥ c1.conf.BatchSize then { c1 with watchFlush := c1.watchFlush + 1 }
  else c1

/-- The Flush method of consumer_batch.go. -/
def Flush {D : Type} (c : SDBatchConsumer D) : Option GoError × SDBatchConsumer D :=
  (none, { c with watchFlushForce := c.watchFlushForce + 1 })

/-- Which case of the `select` of the flush loop is taken. -/
inductive Select where
  | watchStop
  | tick
  | default
deriving Repr, DecidableEq

/-- What one iteration of the flush loop did. -/
inductive LoopAction where
  | forcedFlush
  | softFlush
  | idle
deriving Repr, DecidableEq

/-- The outcome of one iteration of the flush loop: whether the goroutine
returned, what the iteration did, and the consumer afterwards. -/
structure LoopStep (D : Type) where
  returned : Bool
  action : LoopAction
  c : SDBatchConsumer D

/-- One iteration of the `for { select { ... } }` of the goroutine started by
NewBatchConsumer.  `none` only when innerFlush used up its recursion bound. -/
def flushLoopIter {D : Type} (jsonMarshal : D → Except GoError Bytes)
    (parseTime : Bytes → Bytes) (tx : Transmitter) (fuel : Nat) (sel : Select)
    (c : SDBatchConsumer D) : Option (LoopStep D) :=
  match sel with
  | .watchStop =>
    match innerFlush jsonMarshal parseTime tx true fuel c with
    | none => none
    | some (_, c1) =>
      some ⟨true, .forcedFlush, { c1 with watchFlushForce := 0, watchFlush := 0 }⟩
  | .tick =>
    let c0 := { c with watchFlushForce := 0, watchFlush := 0 }
    match innerFlush jsonMarshal parseTime tx true fuel c0 with
    | none => none
    | some (_, c1) => some ⟨false, .forcedFlush, c1⟩
  | .default =>
    let force := c.watchFlushForce
    let notForce := c.watchFlush
    let c0 := { c with watchFlushForce := 0, watchFlush := 0 }
    if force > 0 then
      match innerFlush jsonMarshal parseTime tx true fuel c0 with
      | none => none
      | some (_, c1) => some ⟨false, .forcedFlush, c1⟩
    else if notForce > 0 then
      match innerFlush jsonMarshal parseTime tx false fuel c0 with
      | none => none
      | some (_, c1) => some ⟨false, .softFlush, c1⟩
    else some ⟨false, .idle, c0⟩

/-! ## consumer_batch.go: send -/

/-- The request struct of consumer_batch.go. -/
structure request where
  App : String
  Token : String
  SDK : String
  Version : String
  Compress : Bool
  Size : Int
  Log : Bytes
deriving Repr, DecidableEq

/-- What `client.Do` hands back when it returns no error: the status code and
the bytes `io.ReadAll` gets from the body. -/
structure httpResponse where
  StatusCode : Int
  Body : Bytes
deriving Repr, DecidableEq

/-- The anonymous `result` struct that send and uploadFile decode a body into. -/
structure reportResult where
  Code : Int
  Msg : String
deriving Repr, DecidableEq

/-- The library calls of send.  `gzipWrite` is writing through a `gzip.Writer`
and closing it, `jsonMarshal` is `json.Marshal` on the request, `newRequest` is
the error of `http.NewRequest` (method, URL, body; `none` when it makes a
request), `clientDo` is `client.Do` on the request made (URL, timeout, body),
`jsonUnmarshal` is `json.Unmarshal` into a zero-valued result. -/
structure SendLib where
  gzipWrite : Bytes → Except GoError Bytes
  jsonMarshal : request → Except GoError Bytes
  newRequest : String → String → Bytes → Option GoError
  clientDo : String → Int → Bytes → Except GoError httpResponse
  jsonUnmarshal : Bytes → Except GoError reportResult

/-- encodeData of consumer_batch.go. -/
def encodeData (gzipWrite : Bytes → Except GoError Bytes) (data : Bytes) :
    Except GoError Bytes :=
  gzipWrite data

/-- The error text of `fmt.Errorf("httpStatus:%d, Code:%d Msg:%s", ...)`. -/
def statusErrorText (status code : Int) (msg : String) : GoError :=
  "httpStatus:" ++ toString status ++ ", Code:" ++ toString code ++ " Msg:" ++ msg

/-- The message of the run-time panic on a nil pointer. -/
def nilDereference : String :=
  "runtime error: invalid memory address or nil pointer dereference"

/-- The encoding step of send: `encodeData` when compression is on, the data
itself otherwise. -/
def sendEncoded (lib : SendLib) (conf : SDBatchConfig) (data : Bytes) : Except GoError Bytes :=
  if conf.Compress then encodeData lib.gzipWrite data else .ok data

/-- The request that send builds; `version` is `shimmerdata_go.Version`, a
constant of the root package. -/
def sendRequest (version : String) (conf : SDBatchConfig) (encodedData : Bytes)
    (size : Int) : request :=
  { App := conf.AppId, Token := conf.AppToken, SDK := "go-sdk", Version := version,
    Compress := conf.Compress, Size := size, Log := encodedData }

/-- The send method of consumer_batch.go.  The error of `http.NewRequest` is
discarded (`req, _ :=`): when there is one, `req` is nil and `client.Do(req)`
panics on it. -/
def send (lib : SendLib) (version : String) (conf : SDBatchConfig) (data : Bytes)
    (size : Int) : Outcome (Option GoError) :=
  match sendEncoded lib conf data with
  | .error err => .returned (some err)
  | .ok encodedData =>
    match lib.jsonMarshal (sendRequest version conf encodedData size) with
    | .error err => .returned (some err)
    | .ok reqData =>
      match lib.newRequest "POST" (conf.ServerUrl ++ "/LogServer/log/report") reqData with
      | some _ => .panicked nilDereference
      | none =>
        match lib.clientDo (conf.ServerUrl ++ "/LogServer/log/report") conf.Timeout reqData with
        | .error err => .returned (some err)
        | .ok resp =>
          let body := resp.Body
          let decoded : Except GoError reportResult :=
            if body.length > 0 then lib.jsonUnmarshal body else .ok ⟨0, ""⟩
          match decoded with
          | .error err => .returned (some err)
          | .ok result =>
            if resp.StatusCode = 200 then
              if result.Code ≠ 0 then
                .returned (some (statusErrorText resp.StatusCode result.Code result.Msg))
              else .returned none
            else .returned (some (statusErrorText resp.StatusCode result.Code result.Msg))

/-! ## upload_file.go -/

/-- LogFileUploadReq of upload_file.go. -/
structure LogFileUploadReq where
  App : String
  Token : String
  Sdk : String
  Version : String
  Compress : Bool
  Md5 : String
  Filename : String
  Start : Int
  End : Int
  Total : Int
  Content : Bytes
deriving Repr, DecidableEq

/-- The chunk size of upload_file.go, 1 MiB. -/
def chunkSize : Int := 1024 * 1024

/-- A non-nil error of `ReadAt`: `io.EOF` or any other error. -/
inductive ReadError where
  | eof
  | other (msg : GoError)
deriving Repr, DecidableEq

/-- The library calls of uploadFile.  `osOpen` is `os.Open`; `fileStat` is
`file.Stat` followed by `Size`; `ioCopy` is the `io.Copy` of fileMD5 from the
file into the hash and gives the bytes copied; `md5Hex` is the hex MD5 of the
bytes the hash was given; `fileReadAt` is `file.ReadAt` for a buffer of the
given length at the given offset and gives the bytes read and the error;
`jsonMarshal` is `json.Marshal` on the request; `newRequest` is the error of
`http.NewRequest` (method, URL, body); `clientDo` is `client.Do` on the request
made: it is given the requests sent before this one, the URL and the body, and
gives an error or the response. -/
structure UploadLib where
  osOpen : String → Except GoError osFile
  fileStat : osFile → Except GoError Int
  ioCopy : osFile → Except GoError Bytes
  md5Hex : Bytes → String
  filepathBase : String → String
  filepathExt : String → String
  fileReadAt : osFile → Int → Int → Bytes × Option ReadError
  jsonMarshal : LogFileUploadReq → Except GoError Bytes
  newRequest : String → String → Bytes → Option GoError
  clientDo : List LogFileUploadReq → String → Bytes → Except GoError httpResponse
  jsonUnmarshal : Bytes → Except GoError reportResult

/-- What a call of uploadFile comes to: the returned error and the requests it
handed to `client.Do`, oldest first. -/
structure UploadResult where
  err : Option GoError
  posted : List LogFileUploadReq
deriving Repr, DecidableEq

/-- fileMD5 of upload_file.go. -/
def fileMD5 (lib : UploadLib) (file : osFile) : Except GoError String :=
  match lib.ioCopy file with
  | .error err => .error err
  | .ok hashed => .ok (lib.md5Hex hashed)

/-- The buffer of `make([]byte, size)` after a `ReadAt` that read `data` into
it: the bytes not read stay zero. -/
def readBuffer (size : Int) (data : Bytes) : Bytes :=
  data.take size.toNat ++ List.replicate (size.toNat - data.length) 0

/-- The test `err != nil && err != io.EOF` on the error of `ReadAt`: the
message of the error when it holds. -/
def readFailed : Option ReadError → Option GoError
  | some (.other msg) => some msg
  | _ => none

/-- The loop `for uploadedBytes < fileSize` of uploadFile, for a chunk size `cs`.
The first argument bounds the number of iterations; the result is `none` only
when that bound is used up. -/
def uploadLoop (lib : UploadLib) (url : String) (cs : Int) (file : osFile)
    (fileSize : Int) (req : LogFileUploadReq) :
    Nat → Int → List LogFileUploadReq → Option UploadResult
  | 0, _, _ => none
  | fuel + 1, uploadedBytes, posted =>
    if uploadedBytes < fileSize then
      let remaining := fileSize - uploadedBytes
      let currentChunkSize := if remaining < cs then remaining else cs
      let read := lib.fileReadAt file currentChunkSize uploadedBytes
      let buffer := readBuffer currentChunkSize read.1
      match readFailed read.2 with
      | some err => some ⟨some ("uploadFile read file error: " ++ err), posted⟩
      | none =>
        let req1 := { req with Start := uploadedBytes, End := uploadedBytes + currentChunkSize,
                               Content := buffer }
        match lib.jsonMarshal req1 with
        | .error err => some ⟨some err, posted⟩
        | .ok inDate =>
          match lib.newRequest "POST" url inDate with
          | some err =>
            some ⟨some ("uploadFile create POST request error: " ++ err), posted⟩
          | none =>
            match lib.clientDo posted url inDate with
            | .error err => some ⟨some ("uploadFile POST error: " ++ err), posted ++ [req1]⟩
            | .ok resp =>
              if resp.StatusCode ≠ 200 ∧ resp.StatusCode ≠ 206 then
                let decoded : Except GoError reportResult :=
                  if resp.Body.length > 0 then lib.jsonUnmarshal resp.Body else .ok ⟨0, ""⟩
                match decoded with
                | .error err => some ⟨some err, posted ++ [req1]⟩
                | .ok result =>
                  let errStr :=
                    if result.Code ≠ 0 then
                      statusErrorText resp.StatusCode result.Code result.Msg
                    else ""
                  some ⟨some ("uploadFile failed:" ++ errStr), posted ++ [req1]⟩
              else
                uploadLoop lib url cs file fileSize req1 fuel (uploadedBytes + currentChunkSize)
                  (posted ++ [req1])
    else some ⟨none, posted⟩

/-- The uploadFile method of upload_file.go; `version` is `shimmerdata_go.Version`.
The loop is given one iteration per byte of the file and one more, which it
never uses up. -/
def uploadFile (lib : UploadLib) (version : String) (conf : SDBatchConfig)
    (fileDir : String) : Option UploadResult :=
  match lib.osOpen fileDir with
  | .error err => some ⟨some ("uploadFile open file error: " ++ err), []⟩
  | .ok file =>
    match lib.fileStat file with
    | .error err => some ⟨some ("无法获取文件信息: " ++ err), []⟩
    | .ok fileSize =>
      match fileMD5 lib file with
      | .error err => some ⟨some err, []⟩
      | .ok md5Str =>
        let filename := lib.filepathBase fileDir
        let compress := if lib.filepathExt fileDir = ".gz" then true else false
        let req : LogFileUploadReq :=
          { App := conf.AppId, Token := conf.AppToken, Sdk := "go-sdk", Version := version,
            Compress := compress, Md5 := md5Str, Filename := filename,
            Start := 0, End := 0, Total := fileSize, Content := [] }
        uploadLoop lib (conf.ServerUrl ++ "/LogServer/log/upload") chunkSize file fileSize req
          (fileSize.toNat + 1) 0 []

/-! ## consumer_batch.go: processPath -/

/-- A directory entry as `os.ReadDir` lists it. -/
structure DirEntry where
  Name : String
  IsDir : Bool
deriving Repr, DecidableEq

/-- A file-system effect of processPath, with the error it came back with. -/
inductive FsAction where
  | upload (path : String) (err : Option GoError)
  | remove (path : String) (err : Option GoError)
deriving Repr, DecidableEq

/-- The calls processPath makes: `stat` is `os.Stat` followed by `IsDir`,
`readDir` is `os.ReadDir`, `base` and `join` are `filepath.Base` and
`filepath.Join`, `upload` is `c.uploadFile` and `remove` is `os.Remove`, each
given the effects that came before. -/
structure ScanLib where
  stat : String → Except GoError Bool
  readDir : String → Except GoError (List DirEntry)
  base : String → String
  join : String → String → String
  upload : List FsAction → String → Option GoError
  remove : List FsAction → String → Option GoError

/-- The state of a scan: the effects so far, the entries passed over that are
still in the directory, and whether the scan ended in a nil dereference of
`c.logPrinter`. -/
structure ScanState where
  actions : List FsAction
  dir : List DirEntry
  panicked : Bool
deriving Repr, DecidableEq

/-- The loop `for _, file := range files` of processPath.  On a `return` the
entries not yet visited stay in the directory. -/
def scanLoop (lib : ScanLib) (fileDir : String) (logPrinter : Option printer) :
    List DirEntry → ScanState → ScanState
  | [], st => st
  | file :: files, st =>
    match logPrinter with
    | none => { st with dir := st.dir ++ file :: files, panicked := true }
    | some p =>
      if file.Name = lib.base p.conf.filename then
        scanLoop lib fileDir logPrinter files { st with dir := st.dir ++ [file] }
      else
        let filePath := lib.join fileDir file.Name
        if !file.IsDir then
          match lib.upload st.actions filePath with
          | some err =>
            { st with actions := st.actions ++ [.upload filePath (some err)],
                      dir := st.dir ++ file :: files }
          | none =>
            let acts := st.actions ++ [.upload filePath none]
            match lib.remove acts filePath with
            | some err =>
              { st with actions := acts ++ [.remove filePath (some err)],
                        dir := st.dir ++ file :: files }
            | none =>
              scanLoop lib fileDir logPrinter files
                { st with actions := acts ++ [.remove filePath none] }
        else
          scanLoop lib fileDir logPrinter files { st with dir := st.dir ++ [file] }

/-- The processPath method of consumer_batch.go, on a directory that lists as
`readDir` says.  The result holds the effects in order and the entries left. -/
def processPath {D : Type} (lib : ScanLib) (c : SDBatchConsumer D) : ScanState :=
  let fileDir := c.conf.TempDir
  match lib.stat fileDir with
  | .error _ => ⟨[], [], false⟩
  | .ok isDir =>
    if isDir then
      match lib.readDir fileDir with
      | .error _ => ⟨[], [], false⟩
      | .ok files => scanLoop lib fileDir c.logPrinter files ⟨[], [], false⟩
    else ⟨[], [], false⟩

/-! ## shimmerdata.go: events -/

/-- A property value, by the cases the SDK tells apart: the Go types `int`,
`bool`, `float64`, `string`, `time.Time` (carried as its rendering in
DATE_FORMAT, in its own zone and in UTC), `[]string`, the other number types
(`int8` ... `uint64`, `float32`), and everything else. -/
inductive Value where
  | int (v : Int)
  | bool (v : Bool)
  | float64 (text : String)
  | string (v : String)
  | time (own : String) (utc : String)
  | strings (v : List String)
  | number (kind : String) (text : String)
  | other (text : String)
deriving Repr, DecidableEq

/-- A Go `map[string]interface{}` that is not nil, as its bindings; a key is
bound at most once. -/
abbrev Properties := List (String × Value)

/-- Reading `p[k]` with the comma-ok form. -/
def Properties.get (p : Properties) (k : String) : Option Value :=
  match p with
  | [] => none
  | (k1, v) :: rest => if k1 = k then some v else Properties.get rest k

/-- The assignment `p[k] = v`. -/
def Properties.set (p : Properties) (k : String) (v : Value) : Properties :=
  match p with
  | [] => [(k, v)]
  | (k1, v1) :: rest => if k1 = k then (k, v) :: rest else (k1, v1) :: Properties.set rest k v

/-- The call `delete(p, k)`. -/
def Properties.delete (p : Properties) (k : String) : Properties :=
  p.filter (fun kv => kv.1 ≠ k)

/-- The Data struct of shimmerdata.go; the field `Type` is written `Type'`. -/
structure Data where
  IsComplex : Bool
  AccountId : String
  DistinctId : String
  Type' : String
  Time : String
  EventName : String
  EventId : String
  FirstCheckId : String
  Ip : String
  UUID : String
  AppId : String
  Properties : Properties
deriving Repr, DecidableEq

def Track : String := "track"
def TrackUpdate : String := "track_update"
def TrackOverwrite : String := "track_overwrite"
def UserSet : String := "user_set"
def UserUnset : String := "user_unset"
def UserSetOnce : String := "user_setOnce"
def UserAdd : String := "user_add"
def UserAppend : String := "user_append"
def UserUniqAppend : String := "user_uniq_append"
def UserDel : String := "user_del"
def SdkVersion : String := "v1.0.0"
def LibName : String := "Golang"

/-! ## consumer_log.go -/

/-- SDLogConsumer of consumer_log.go.  The channel `ch` is the records sent and
not yet received, with `chClosed` telling whether it has been closed; the wait
group and the mutex are omitted. -/
structure SDLogConsumer where
  directory : String
  dateFormat : String
  fileSize : Int
  fileNamePrefix : String
  currentFile : Option osFile
  ch : List Bytes
  chClosed : Bool
  sdkClose : Bool
deriving Repr, DecidableEq

/-- The library and goroutine behaviour the methods of SDLogConsumer meet:
`fileSync` and `fileClose` are `Sync` and `Close` on the current file;
`writer` is the goroutine started by `init`, given the records still in the
channel and the current file when the channel is closed, and gives the current
file it leaves when it returns. -/
structure LogFileLib where
  fileSync : osFile → Option GoError
  fileClose : osFile → Option GoError
  writer : List Bytes → Option osFile → Option osFile

/-- The Add method of SDLogConsumer. -/
def SDLogConsumer.Add (jsonMarshal : Data → Except GoError Bytes) (c : SDLogConsumer)
    (d : Data) : Outcome (Option GoError × SDLogConsumer) :=
  if c.sdkClose then
    .returned (some "add event failed, SDK has been closed", c)
  else
    match jsonMarshal d with
    | .error jsonErr => .returned (some jsonErr, c)
    | .ok jsonBytes =>
      if c.chClosed then .panicked "send on closed channel"
      else .returned (none, { c with ch := c.ch ++ [jsonBytes] })

/-- The Flush method of SDLogConsumer. -/
def SDLogConsumer.Flush (lib : LogFileLib) (c : SDLogConsumer) :
    Outcome (Option GoError × SDLogConsumer) :=
  match c.currentFile with
  | some file => .returned (lib.fileSync file, c)
  | none => .returned (none, c)

/-- The Close method of SDLogConsumer: `close(c.ch)` and `c.wg.Wait()` let the
writer goroutine take what is left in the channel and return. -/
def SDLogConsumer.Close (lib : LogFileLib) (c : SDLogConsumer) :
    Outcome (Option GoError × SDLogConsumer) :=
  if c.sdkClose then
    .returned (some "[ShimmerData][error]: SDK has been closed", { c with sdkClose := true })
  else if c.chClosed then .panicked "close of closed channel"
  else
    let c1 := { c with ch := [], chClosed := true, currentFile := lib.writer c.ch c.currentFile }
    match c1.currentFile with
    | some file =>
      .returned (lib.fileClose file, { c1 with currentFile := none, sdkClose := true })
    | none => .returned (none, { c1 with sdkClose := true })

/-! ## utils.go and shimmerdata.go: the event facade -/

/-- The class `[a-zA-Z#]` of KEY_PATTERN. -/
def isKeyStart (b : UInt8) : Bool :=
  (97 ≤ b && b ≤ 122) || (65 ≤ b && b ≤ 90) || b == 35

/-- The class `[A-Za-z0-9_]` of KEY_PATTERN. -/
def isKeyRest (b : UInt8) : Bool :=
  (65 ≤ b && b ≤ 90) || (97 ≤ b && b ≤ 122) || (48 ≤ b && b ≤ 57) || b == 95

/-- A greedy bounded repetition `[class]{0,n}`: what is left of the input once
up to `n` leading bytes of the class have been taken. -/
def matchUpTo (cls : UInt8 → Bool) : Nat → Bytes → Bytes
  | 0, s => s
  | _ + 1, [] => []
  | n + 1, b :: s => if cls b then matchUpTo cls n s else b :: s

/-- checkPattern of utils.go: `keyPattern.Match(name)` for KEY_PATTERN
`^[a-zA-Z#][A-Za-z0-9_]{0,49}$`, run as the pattern reads: at the start of the
text one byte of the first class, then greedily up to 49 bytes of the second,
then the end of the text.  The classes are ASCII, so matching bytes is matching
runes: every byte of a longer or invalid UTF-8 sequence is outside both. -/
def checkPattern (name : Bytes) : Bool :=
  match name with
  | [] => false
  | b :: rest => isKeyStart b && (matchUpTo isKeyRest 49 rest).isEmpty

/-- The bytes of a Go string, `[]byte(s)`: the UTF-8 encoding of its characters. -/
def stringBytes (s : String) : Bytes := s.data.flatMap String.utf8EncodeChar

/-- mergeProperties of utils.go. -/
def mergeProperties (target source : Properties) : Properties :=
  source.foldl (fun t kv => t.set kv.1 kv.2) target

/-- isNotNumber of utils.go. -/
def isNotNumber : Value → Bool
  | .int _ => false
  | .number _ _ => false
  | .float64 _ => false
  | _ => true

/-- The library calls of the facade: `now` is `time.Now().UTC()` rendered in
DATE_FORMAT, `parseDate` is `time.Parse(DATE_FORMAT, v)` followed by that
rendering (`none` when the string does not parse), `newUUID` is what
generateUUID returns. -/
structure FacadeLib where
  now : String
  parseDate : String → Option String
  newUUID : String

/-- extractTime of utils.go: the time and the map with `#time` deleted. -/
def extractTime (lib : FacadeLib) (p : Properties) : Except GoError String × Properties :=
  match p.get "#time" with
  | some t =>
    let p1 := p.delete "#time"
    match t with
    | .string v =>
      match lib.parseDate v with
      | none => (.error "#time format should be 2006-01-02 15:04:05.000", p1)
      | some parsed => (.ok parsed, p1)
    | .time _ utc => (.ok utc, p1)
    | _ => (.ok lib.now, p1)
  | none => (.ok lib.now, p)

/-- extractStringProperty of utils.go: the string and the map with the key
deleted. -/
def extractStringProperty (p : Properties) (key : String) : String × Properties :=
  match p.get key with
  | some t =>
    (match t with
     | .string v => v
     | _ => "", p.delete key)
  | none => ("", p)

/-- The loop `for k, v := range d.Properties` of formatProperties, over the
bindings in the order the list has them; `stringent` is
`ta.consumer.IsStringent()`. -/
def formatLoop (stringent : Bool) : List (String × Value) → Data → Option GoError × Data
  | [], d => (none, d)
  | (k, v) :: rest, d =>
    if stringent && !checkPattern (stringBytes k) then
      (some ("invalid property key: " ++ k), d)
    else if d.Type' = UserAdd && isNotNumber v then
      (some "invalid property value: only numbers is supported by UserAdd", d)
    else
      match v with
      | .int _ => formatLoop stringent rest d
      | .bool _ => formatLoop stringent rest d
      | .float64 _ => formatLoop stringent rest d
      | .string _ => formatLoop stringent rest d
      | .time own _ =>
        formatLoop stringent rest { d with Properties := d.Properties.set k (.string own) }
      | .strings _ => formatLoop stringent rest { d with IsComplex := true }
      | _ => formatLoop stringent rest { d with IsComplex := true }

/-- formatProperties of utils.go: the error and the event as it leaves it. -/
def formatProperties (stringent : Bool) (d : Data) : Option GoError × Data :=
  if d.EventName ≠ "" && !checkPattern (stringBytes d.EventName) then
    (some ("invalid event name: " ++ d.EventName), d)
  else
    formatLoop stringent d.Properties d

/-- SDAnalytics of shimmerdata.go.  The consumer is what the facade uses of it:
`stringent` is `IsStringent()` and `consumerAdd` is the error `Add` returns;
`dynamicSuperProperties` is `none` for a nil function and otherwise the map
the function returns. -/
structure SDAnalytics where
  stringent : Bool
  consumerAdd : Data → Option GoError
  superProperties : Properties
  dynamicSuperProperties : Option Properties

/-- What a call of the facade comes to: the error it returns and the event it
handed to `consumer.Add`, if it got that far. -/
structure TrackResult where
  err : Option GoError
  handed : Option Data

/-- GetSuperProperties of shimmerdata.go. -/
def SDAnalytics.GetSuperProperties (ta : SDAnalytics) : Properties :=
  mergeProperties [] ta.superProperties

/-- GetDynamicSuperProperties of shimmerdata.go. -/
def SDAnalytics.GetDynamicSuperProperties (ta : SDAnalytics) : Properties :=
  match ta.dynamicSuperProperties with
  | some dynamic => mergeProperties [] dynamic
  | none => []

/-- The add method of shimmerdata.go. -/
def SDAnalytics.add (lib : FacadeLib) (ta : SDAnalytics)
    (accountId distinctId dataType eventName eventId : String) (properties : Properties) :
    TrackResult :=
  if accountId = "" && distinctId = "" then
    ⟨some "invalid parameters: account_id and distinct_id cannot be empty at the same time",
      none⟩
  else
    let (ip, p1) := extractStringProperty properties "#ip"
    let (appId, p2) := extractStringProperty p1 "#app_id"
    match extractTime lib p2 with
    | (.error err, _) => ⟨some err, none⟩
    | (.ok eventTime, p3) =>
      let (firstCheckId, p4) := extractStringProperty p3 "#first_check_id"
      let (uuid0, p5) := extractStringProperty p4 "#uuid"
      let uuid := if uuid0 = "" then lib.newUUID else uuid0
      let data : Data :=
        { IsComplex := false, AccountId := accountId, DistinctId := distinctId,
          Type' := dataType, Time := eventTime, EventName := eventName, EventId := eventId,
          FirstCheckId := firstCheckId, Ip := ip, UUID := uuid, AppId := "",
          Properties := p5 }
      let data := if appId ≠ "" then { data with AppId := appId } else data
      match formatProperties ta.stringent data with
      | (some err, _) => ⟨some err, none⟩
      | (none, data1) => ⟨ta.consumerAdd data1, some data1⟩

/-- The track method of shimmerdata.go; a nil `properties` is the empty map. -/
def SDAnalytics.track (lib : FacadeLib) (ta : SDAnalytics)
    (accountId distinctId dataType eventName eventId : String) (properties : Properties) :
    TrackResult :=
  if eventName = "" then ⟨some "the event name must be provided", none⟩
  else if eventId = "" && dataType ≠ Track then ⟨some "the event id must be provided", none⟩
  else
    let p := ta.GetSuperProperties
    let dynamicSuperProperties := ta.GetDynamicSuperProperties
    let p := mergeProperties p dynamicSuperProperties
    let p := p.set "#lib" (.string LibName)
    let p := p.set "#lib_version" (.string SdkVersion)
    let p := mergeProperties p properties
    ta.add lib accountId distinctId dataType eventName eventId p

/-- The Track method of shimmerdata.go. -/
def SDAnalytics.Track (lib : FacadeLib) (ta : SDAnalytics)
    (accountId distinctId eventName : String) (properties : Properties) : TrackResult :=
  ta.track lib accountId distinctId Shimmerdata.Track eventName "" properties

/-! ## utils.go: parseTime -/

/-- The class `\d` of the regexp package: an ASCII digit. -/
def isDigit (b : UInt8) : Bool := 48 ≤ b && b ≤ 57

/-- The pieces the pattern of parseTime is made of: a literal byte, `\d`, `\d*`
and `[\+-]`. -/
inductive Tok where
  | lit (c : UInt8)
  | digit
  | digits
  | sign
deriving Repr, DecidableEq

/-- The number of leading digits of the input: what a greedy `\d*` takes. -/
def countDigits : Bytes → Nat
  | [] => 0
  | b :: s => if isDigit b then countDigits s + 1 else 0

/-- Matching a sequence of pieces at the start of the input: the number of
bytes the match takes, if there is one.  `\d*` takes every leading digit; in
the pattern of parseTime it is followed by `Z`, `+` or `-`, so no shorter
choice could match. -/
def matchToks : List Tok → Bytes → Option Nat
  | [], _ => some 0
  | .digits :: ts, s => (matchToks ts (s.drop (countDigits s))).map (· + countDigits s)
  | .lit _ :: _, [] => none
  | .lit c :: ts, b :: s => if b = c then (matchToks ts s).map (· + 1) else none
  | .digit :: _, [] => none
  | .digit :: ts, b :: s => if isDigit b then (matchToks ts s).map (· + 1) else none
  | .sign :: _, [] => none
  | .sign :: ts, b :: s => if b = 43 ∨ b = 45 then (matchToks ts s).map (· + 1) else none

/-- The pattern of parseTime up to the time zone:
`"((\d{4}-\d{2}-\d{2})T(\d{2}:\d{2}:\d{2})(?:\.(\d{3}))\d*)`. -/
def timePrefix : List Tok :=
  [.lit 34, .digit, .digit, .digit, .digit, .lit 45, .digit, .digit, .lit 45, .digit, .digit,
   .lit 84, .digit, .digit, .lit 58, .digit, .digit, .lit 58, .digit, .digit,
   .lit 46, .digit, .digit, .digit, .digits]

/-- The first alternative of the time zone and the closing quote: `Z"`. -/
def zoneZ : List Tok := [.lit 90, .lit 34]

/-- The second alternative of the time zone and the closing quote:
`[\+-]\d{2}:\d{2}"`. -/
def zoneOffset : List Tok := [.sign, .digit, .digit, .lit 58, .digit, .digit, .lit 34]

/-- A match of the pattern of parseTime at the start of the input: its length. -/
def timeMatchLen (s : Bytes) : Option Nat :=
  match matchToks (timePrefix ++ zoneZ) s with
  | some n => some n
  | none => matchToks (timePrefix ++ zoneOffset) s

/-- The substitution `"$2 $3.$4"` for a match at the start of `s`: group 2 is
the 10 bytes of the date after the quote, group 3 the 8 bytes of the time
after the `T`, group 4 the 3 digits after the point. -/
def timeReplacement (s : Bytes) : Bytes :=
  [34] ++ (s.drop 1).take 10 ++ [32] ++ (s.drop 12).take 8 ++ [46] ++ (s.drop 21).take 3 ++ [34]

/-- The `re.ReplaceAll(input, substitution)` of parseTime: from left to right,
a match is replaced and the search goes on behind it, any other byte is kept.
The first argument counts the bytes of a match still to be passed over. -/
def replaceAllTime : Nat → Bytes → Bytes
  | _, [] => []
  | skip + 1, _ :: s => replaceAllTime skip s
  | 0, b :: s =>
    match timeMatchLen (b :: s) with
    | some n => timeReplacement (b :: s) ++ replaceAllTime (n - 1) s
    | none => b :: replaceAllTime 0 s

/-- The `re.Match(input)` of parseTime: whether the pattern matches anywhere. -/
def hasTimeMatch : Bytes → Bool
  | [] => false
  | b :: s => (timeMatchLen (b :: s)).isSome || hasTimeMatch s

/-- The loop `for re.Match(input) { input = re.ReplaceAll(...) }` of parseTime,
for at most the given number of rounds. -/
def parseTimeLoop : Nat → Bytes → Bytes
  | 0, input => input
  | rounds + 1, input =>
    if hasTimeMatch input then parseTimeLoop rounds (replaceAllTime 0 input) else input

/-- parseTime of utils.go.  Every round that finds a match makes the input
shorter, so the loop needs at most as many rounds as the input has bytes. -/
def parseTime (input : Bytes) : Bytes := parseTimeLoop input.length input

/-! ## Sample inputs

Concrete events, codecs and transmitters on which the definitions above are
evaluated.  Events are natural numbers; `sampleMarshal` encodes an event as one
byte, so the bytes of a batch show which events it holds. -/

/-- A `json.Marshal` that succeeds on every event. -/
def sampleMarshal (n : Nat) : Except GoError Bytes := .ok [n.toUInt8]

/-- A `json.Marshal` that rejects every event, as encoding/json does for a
property value such as NaN. -/
def rejectingMarshal (_ : Nat) : Except GoError Bytes :=
  .error "json: unsupported value: NaN"

/-- A transmitter whose every send succeeds. -/
def succeedingTransmitter : Transmitter := fun _ _ _ => none

/-- A transmitter whose every send fails. -/
def failingTransmitter : Transmitter := fun _ _ _ => some "connection refused"

/-- A configuration with the given batch size, spooling to `/tmp/spool` or not
at all. -/
def sampleConfig (batchSize : Int) (spool : Bool) : SDBatchConfig :=
  { TempDir := if spool then "/tmp/spool" else "", ServerUrl := "http://localhost:20005",
    AppId := "app1", AppToken := "token1", BatchSize := batchSize,
    Timeout := 10 * Second, Compress := false, Interval := 1 }

/-- The printer NewBatchConsumer makes for `sampleConfig _ true`. -/
def samplePrinter : printer :=
  newPrinter { app := "app1", folder := "/tmp/spool", maxSize := 100, maxAge := 0,
               maxBackups := 0, compress := true, filename := "" }

/-- A running consumer with the given staging queue and batch size. -/
def sampleConsumer (queue : List Nat) (batchSize : Int) (spool : Bool) :
    SDBatchConsumer Nat :=
  { conf := sampleConfig batchSize spool
    logPrinter := if spool then some samplePrinter else none
    count := queue.length
    countSend := 0
    ticker := Second
    dirTicker := if spool then some Second else none
    buffer := ⟨queue⟩
    listenerCap := 2 * batchSize
    watchFlushForce := 0
    watchFlush := 0
    sends := [] }

/-- Library behaviour for send in which `http.NewRequest` makes its request,
the server answers every report with status 200 and an empty body, and in
which, as in encoding/json, decoding an empty input is an error. -/
def emptyBodyLib : SendLib :=
  { gzipWrite := fun data => .ok data
    jsonMarshal := fun r => .ok r.Log
    newRequest := fun _ _ _ => none
    clientDo := fun _ _ _ => .ok ⟨200, []⟩
    jsonUnmarshal := fun body =>
      if body = [] then .error "unexpected end of JSON input" else .ok ⟨1, "rejected"⟩ }

/-- Library behaviour for send in which `http.NewRequest` rejects the URL, and
which is otherwise as `emptyBodyLib`. -/
def rejectedUrlLib : SendLib :=
  { emptyBodyLib with
    newRequest := fun _ _ _ => some "parse \"http://local host\": invalid character in host name" }

/-- The bytes of a spool file of three chunks: 2 MiB of the byte 97 and then
the bytes 98 and 99. -/
def sampleFile : Bytes := List.replicate 2097152 97 ++ [98, 99]

/-- The path of a rotated spool file. -/
def samplePath : String := "/tmp/spool/app1-logback-2024.log.gz"

/-- The statuses of a server that rejects the second request it is sent. -/
def secondRejected (k : Nat) : Int := if k = 1 then 500 else 200

/-- Library behaviour for uploadFile on a file with the given bytes, 2097154 of
them: every path opens, `Stat` gives 2097154, `io.Copy` and `ReadAt` read the
bytes as they are, every request is marshalled and made, and the server
answers the chunk sent after `k` others with status `status k` and an empty
body. -/
def sampleUploadLib (content : Bytes) (status : Nat → Int) : UploadLib :=
  { osOpen := fun name => .ok ⟨name⟩
    fileStat := fun _ => .ok 2097154
    ioCopy := fun _ => .ok content
    md5Hex := fun _ => "5289df737df57326fcdd22597afb1fac"
    filepathBase := fun _ => "app1-logback-2024.log.gz"
    filepathExt := fun _ => ".gz"
    fileReadAt := fun _ len off => ((content.drop off.toNat).take len.toNat, none)
    jsonMarshal := fun r => .ok r.Content
    newRequest := fun _ _ _ => none
    clientDo := fun posted _ _ => .ok ⟨status posted.length, []⟩
    jsonUnmarshal := fun _ => .error "unexpected end of JSON input" }

/-- Library behaviour for uploadFile as `sampleUploadLib` with every chunk
answered with status 200, but in which `ReadAt` fails behind the first chunk. -/
def unreadableLib : UploadLib :=
  { sampleUploadLib sampleFile (fun _ => 200) with
    fileReadAt := fun _ len off =>
      if off = 0 then ((sampleFile.drop off.toNat).take len.toNat, none)
      else ([], some (.other "input/output error")) }

/-- Library behaviour for processPath on a spool directory that holds the
active log, one rotated log and a sub-directory; `filepath.Base` and
`filepath.Join` act as they do on these paths, and every upload and remove
succeeds. -/
def sampleScanLib : ScanLib :=
  { stat := fun _ => .ok true
    readDir := fun _ => .ok
      [⟨"app1-logback-2024.log.gz", false⟩, ⟨"app1-logback.log", false⟩, ⟨"old", true⟩]
    base := fun path => if path = "/tmp/spool/app1-logback.log" then "app1-logback.log" else path
    join := fun dir name => dir ++ "/" ++ name
    upload := fun _ _ => none
    remove := fun _ _ => none }

/-- Library behaviour for processPath on a spool directory that holds three
rotated logs, in which the upload of the second one fails and everything else
succeeds. -/
def failingScanLib : ScanLib :=
  { stat := fun _ => .ok true
    readDir := fun _ => .ok
      [⟨"app1-logback-1.log.gz", false⟩, ⟨"app1-logback-2.log.gz", false⟩,
       ⟨"app1-logback-3.log.gz", false⟩]
    base := fun path => if path = "/tmp/spool/app1-logback.log" then "app1-logback.log" else path
    join := fun dir name => dir ++ "/" ++ name
    upload := fun _ path =>
      if path = "/tmp/spool/app1-logback-2.log.gz" then some "uploadFile failed:" else none
    remove := fun _ _ => none }

/-- A running log consumer with one record still in its channel. -/
def sampleLogConsumer : SDLogConsumer :=
  { directory := "../logs", dateFormat := "2006-01-02-15", fileSize := 100 * 1024 * 1024,
    fileNamePrefix := "test", currentFile := some ⟨"../logs/test.log.2024-01-02-03_0"⟩,
    ch := [[123, 125]], chClosed := false, sdkClose := false }

/-- File behaviour in which `Sync` and `Close` succeed and the writer goroutine
keeps the file it has. -/
def sampleLogFileLib : LogFileLib :=
  { fileSync := fun _ => none, fileClose := fun _ => none, writer := fun _ file => file }

/-- An event as `add` builds it for `Track("acc1", "dist1", "login", nil)`. -/
def sampleData : Data :=
  { IsComplex := false, AccountId := "acc1", DistinctId := "dist1", Type' := Track,
    Time := "2024-01-02 03:04:05.678", EventName := "login", EventId := "",
    FirstCheckId := "", Ip := "", UUID := "0b5e1c1e-a937-11ee-8f3c-0242ac120002",
    AppId := "", Properties := [("#lib", .string "Golang"), ("#lib_version", .string "v1.0.0")] }

/-- A facade over a consumer that takes every event, with no super properties. -/
def sampleAnalytics : SDAnalytics :=
  { stringent := false, consumerAdd := fun _ => none, superProperties := [],
    dynamicSuperProperties := none }

/-- Clock and UUID source for the facade. -/
def sampleFacadeLib : FacadeLib :=
  { now := "2024-01-02 03:04:05.678", parseDate := fun v => some v,
    newUUID := "0b5e1c1e-a937-11ee-8f3c-0242ac120002" }

/-- A `json.Marshal` that rejects the event 200 and encodes every other event
as one byte. -/
def pickyMarshal (n : Nat) : Except GoError Bytes :=
  if n = 200 then .error "json: unsupported value: NaN" else .ok [n.toUInt8]

/-- The bytes pack writes for a run of events: every encoding followed by one
newline byte. -/
def packedBytes {D : Type} (enc : D → Bytes) (items : List D) : Bytes :=
  items.flatMap (fun d => enc d ++ [10])

/-- The encodings of a run of events joined with newline separators: a newline
between consecutive encodings and none after the last. -/
def newlineJoined {D : Type} (enc : D → Bytes) (items : List D) : Bytes :=
  List.intercalate [10] (items.map enc)

/-- Whether uploadFile goes on after this answer to a chunk: a response with
status 200 or 206. -/
def chunkAccepted (answer : Except GoError httpResponse) : Bool :=
  match answer with
  | .ok resp => decide (resp.StatusCode = 200 ∨ resp.StatusCode = 206)
  | .error _ => false

/-- The request uploadFile builds for the chunk that starts at `uploadedBytes`
of a file of `fileSize` bytes. -/
def chunkRequestAt (lib : UploadLib) (file : osFile) (fileSize : Int)
    (req : LogFileUploadReq) (cs : Int) (uploadedBytes : Int) : LogFileUploadReq :=
  let remaining := fileSize - uploadedBytes
  let currentChunkSize := if remaining < cs then remaining else cs
  { req with Start := uploadedBytes, End := uploadedBytes + currentChunkSize,
             Content := readBuffer currentChunkSize
               (lib.fileReadAt file currentChunkSize uploadedBytes).1 }

/-- What comes of the chunk that starts at `uploadedBytes` when the requests
`posted` were sent before it: the answer of the server, or the error of the
read, of `json.Marshal`, of `http.NewRequest` or of `client.Do`. -/
def chunkOutcomeAt (lib : UploadLib) (url : String) (file : osFile) (fileSize : Int)
    (req : LogFileUploadReq) (cs : Int) (posted : List LogFileUploadReq)
    (uploadedBytes : Int) : Except GoError httpResponse :=
  let remaining := fileSize - uploadedBytes
  let currentChunkSize := if remaining < cs then remaining else cs
  match readFailed (lib.fileReadAt file currentChunkSize uploadedBytes).2 with
  | some err => .error err
  | none =>
    match lib.jsonMarshal (chunkRequestAt lib file fileSize req cs uploadedBytes) with
    | .error err => .error err
    | .ok inDate =>
      match lib.newRequest "POST" url inDate with
      | some err => .error err
      | none => lib.clientDo posted url inDate

/-- Whether the chunk that starts at `uploadedBytes` is sent, that is, read,
marshalled and made into a request that is handed to `client.Do`. -/
def chunkSentAt (lib : UploadLib) (url : String) (file : osFile) (fileSize : Int)
    (req : LogFileUploadReq) (cs : Int) (uploadedBytes : Int) : Bool :=
  let remaining := fileSize - uploadedBytes
  let currentChunkSize := if remaining < cs then remaining else cs
  match readFailed (lib.fileReadAt file currentChunkSize uploadedBytes).2 with
  | some _ => false
  | none =>
    match lib.jsonMarshal (chunkRequestAt lib file fileSize req cs uploadedBytes) with
    | .error _ => false
    | .ok inDate =>
      match lib.newRequest "POST" url inDate with
      | some _ => false
      | none => true

/-- The request for chunk number `i` (from 0) of a file cut into chunks of `cs`
bytes. -/
def chunkRequest (lib : UploadLib) (file : osFile) (fileSize : Int) (req : LogFileUploadReq)
    (cs : Nat) (i : Nat) : LogFileUploadReq :=
  chunkRequestAt lib file fileSize req cs ((i * cs : Nat) : Int)

/-- What comes of chunk `j + i` when `posted` and then the chunks
`j, ..., j + i - 1` have been sent before it. -/
def chunkAnswerFrom (lib : UploadLib) (url : String) (file : osFile) (fileSize : Int)
    (req : LogFileUploadReq) (cs : Nat) (posted : List LogFileUploadReq) (j i : Nat) :
    Except GoError httpResponse :=
  chunkOutcomeAt lib url file fileSize req cs
    (posted ++ (List.range' j i).map (chunkRequest lib file fileSize req cs))
    (((j + i) * cs : Nat) : Int)

/-- The number of chunks of a file of `n` bytes: n / 1048576 rounded up. -/
def chunkCount (n : Nat) : Nat := (n + 1048575) / 1048576

/-- The request uploadFile starts from for a file of the given size and MD5. -/
def uploadBaseRequest (lib : UploadLib) (version : String) (conf : SDBatchConfig)
    (fileDir : String) (fileSize : Int) (md5Str : String) : LogFileUploadReq :=
  { App := conf.AppId, Token := conf.AppToken, Sdk := "go-sdk", Version := version,
    Compress := if lib.filepathExt fileDir = ".gz" then true else false,
    Md5 := md5Str, Filename := lib.filepathBase fileDir,
    Start := 0, End := 0, Total := fileSize, Content := [] }

/-- What comes of chunk `i` of the file at `fileDir` when the chunks before it
have been sent in order. -/
def chunkAnswer (lib : UploadLib) (version : String) (conf : SDBatchConfig)
    (fileDir : String) (file : osFile) (fileSize : Int) (md5Str : String) (i : Nat) :
    Except GoError httpResponse :=
  chunkAnswerFrom lib (conf.ServerUrl ++ "/LogServer/log/upload") file fileSize
    (uploadBaseRequest lib version conf fileDir fileSize md5Str) 1048576 [] 0 i

/-- Whether chunk `i` of the file at `fileDir` is sent once its turn comes. -/
def chunkSent (lib : UploadLib) (version : String) (conf : SDBatchConfig)
    (fileDir : String) (file : osFile) (fileSize : Int) (md5Str : String) (i : Nat) : Bool :=
  chunkSentAt lib (conf.ServerUrl ++ "/LogServer/log/upload") file fileSize
    (uploadBaseRequest lib version conf fileDir fileSize md5Str) (1048576 : Nat)
    ((i * 1048576 : Nat) : Int)

/-- The requests for the first `m` chunks of the file at `fileDir`, in order. -/
def chunkRequests (lib : UploadLib) (version : String) (conf : SDBatchConfig)
    (fileDir : String) (file : osFile) (fileSize : Int) (md5Str : String) (m : Nat) :
    List LogFileUploadReq :=
  (List.range m).map
    (chunkRequest lib file fileSize (uploadBaseRequest lib version conf fileDir fileSize md5Str)
      1048576)

/-- The results of `n` successive calls of PopFront, oldest first, and the
list they leave. -/
def popFrontN {α : Type} : Nat → SafeList α → List (Option α) × SafeList α
  | 0, sl => ([], sl)
  | n + 1, sl => ((sl.PopFront).1 :: (popFrontN n (sl.PopFront).2).1,
                  (popFrontN n (sl.PopFront).2).2)

/-- Whether an effect of processPath came back with an error. -/
def FsAction.failed : FsAction → Bool
  | .upload _ err => err.isSome
  | .remove _ err => err.isSome

/-- The shape of the effects of one scan: pairs of a successful upload and a
successful remove of the same path, ended, if the scan stopped early, by a
failed upload or by a successful upload and a failed remove of the same path. -/
inductive ScanTrace : List FsAction → Prop where
  | done : ScanTrace []
  | uploadFailed (path : String) (err : GoError) : ScanTrace [.upload path (some err)]
  | removeFailed (path : String) (err : GoError) :
      ScanTrace [.upload path none, .remove path (some err)]
  | step (path : String) (rest : List FsAction) :
      ScanTrace rest → ScanTrace (.upload path none :: .remove path none :: rest)

/-- The number of bytes a match of a sequence of pieces takes at least: one
for every piece but `\d*`. -/
def minMatchLen : List Tok → Nat
  | [] => 0
  | .digits :: ts => minMatchLen ts
  | _ :: ts => minMatchLen ts + 1

/-- The loop of pack written with PopFront: matching on the queue in `packLoop`
is popping the front of the SafeList. -/
theorem packLoop_popFront {D : Type} (jsonMarshal : D → Except GoError Bytes)
    (batchSize : Int) (b : Bytes) (size : Int) (queue : List D) :
    packLoop jsonMarshal batchSize b size queue =
      if size < batchSize then
        match (SafeList.PopFront ⟨queue⟩ : Option D × SafeList D) with
        | (none, _) => (.ok (b, size), [])
        | (some data, rest) =>
          match jsonMarshal data with
          | .error err => (.error err, rest.list)
          | .ok bs => packLoop jsonMarshal batchSize (b ++ bs ++ [10]) (size + 1) rest.list
      else (.ok (b, size), queue) := by
  cases queue with
  | nil =>
    unfold packLoop
    rfl
  | cons data rest =>
    conv => lhs; unfold packLoop
    rfl

theorem packLoop_ok {D : Type} (jsonMarshal : D → Except GoError Bytes) (enc : D → Bytes)
    (batchSize : Int) :
    ∀ (queue : List D) (b : Bytes) (size : Int),
      (∀ d ∈ queue.take (batchSize - size).toNat, jsonMarshal d = .ok (enc d)) →
      packLoop jsonMarshal batchSize b size queue =
        (.ok (b ++ packedBytes enc (queue.take (batchSize - size).toNat),
              size + (queue.take (batchSize - size).toNat).length),
         queue.drop (batchSize - size).toNat) := by
  intro queue
  induction queue with
  | nil =>
    intro b size _
    unfold packLoop
    simp [packedBytes]
  | cons d rest ih =>
    intro b size h
    unfold packLoop
    by_cases hlt : size < batchSize
    · obtain ⟨k, hk⟩ : ∃ k : Nat, (batchSize - size).toNat = k + 1 :=
        ⟨(batchSize - size).toNat - 1, by omega⟩
      have hk' : (batchSize - (size + 1)).toNat = k := by omega
      rw [hk] at h
      have hd : jsonMarshal d = .ok (enc d) := h d (by simp)
      have hrest : ∀ x ∈ rest.take (batchSize - (size + 1)).toNat,
          jsonMarshal x = .ok (enc x) := by
        intro x hx
        rw [hk'] at hx
        exact h x (by simp [hx])
      simp only [hlt, if_true, hd]
      rw [ih _ _ hrest, hk, hk']
      simp [packedBytes, List.append_assoc]
      omega
    · have hz : (batchSize - size).toNat = 0 := by omega
      simp [hlt, hz, packedBytes]

theorem pack_ok {D : Type} (jsonMarshal : D → Except GoError Bytes) (enc : D → Bytes)
    (c : SDBatchConsumer D)
    (h : ∀ d ∈ c.buffer.list.take c.conf.BatchSize.toNat, jsonMarshal d = .ok (enc d)) :
    pack jsonMarshal c =
      (.ok (packedBytes enc (c.buffer.list.take c.conf.BatchSize.toNat),
            ((c.buffer.list.take c.conf.BatchSize.toNat).length : Int)),
       { c with buffer := ⟨c.buffer.list.drop c.conf.BatchSize.toNat⟩ }) := by
  have h0 : ∀ d ∈ c.buffer.list.take (c.conf.BatchSize - 0).toNat,
      jsonMarshal d = .ok (enc d) := by simpa using h
  have := packLoop_ok jsonMarshal enc c.conf.BatchSize c.buffer.list [] 0 h0
  simp only [pack, this]
  simp

/-- The retry loop under a transmitter that fails on every call: three sends
of the same bytes, then writeFile, and the error of the third send. -/
theorem sendLoop_all_fail {D : Type} (tx : Transmitter) (params : Bytes) (size : Int)
    (c : SDBatchConsumer D) (hfail : ∀ hist data n, tx hist data n ≠ none) :
    ∃ err, tx (c.sends ++ [(params, size), (params, size)]) params size = some err ∧
      sendLoop tx params size (List.range 3) c =
        (some (some err),
         writeFile { c with sends := c.sends ++ [(params, size), (params, size), (params, size)] }
           params) := by
  obtain ⟨e1, h1⟩ := Option.ne_none_iff_exists'.mp (hfail c.sends params size)
  obtain ⟨e2, h2⟩ := Option.ne_none_iff_exists'.mp
    (hfail (c.sends ++ [(params, size)]) params size)
  obtain ⟨e3, h3⟩ := Option.ne_none_iff_exists'.mp
    (hfail (c.sends ++ [(params, size), (params, size)]) params size)
  refine ⟨e3, h3, ?_⟩
  have hr : List.range 3 = [0, 1, 2] := by decide
  simp [hr, sendLoop, callSend, h1, h2, h3, List.append_assoc]

/-- C5: innerFlush on an empty queue, forced or not, returns no error and
leaves the consumer as it was: no send is recorded, the printer has been
handed nothing, and the queue is still empty. -/
theorem innerFlush_empty_queue_noop {D : Type} (jsonMarshal : D → Except GoError Bytes)
    (parseTime : Bytes → Bytes) (tx : Transmitter) (force : Bool) (fuel : Nat)
    (c : SDBatchConsumer D) (hempty : c.buffer.list = []) :
    ∃ c1, innerFlush jsonMarshal parseTime tx force (fuel + 1) c = some (none, c1) ∧
      c1.sends = c.sends ∧ c1.logPrinter = c.logPrinter ∧ c1.buffer.list = [] ∧ c1 = c := by
  refine ⟨c, ?_, rfl, rfl, hempty, rfl⟩
  simp [innerFlush, SafeList.Len, hempty]

theorem innerFlush_empty_queue_noop_witness :
    (sampleConsumer [] 3 true).buffer.list = [] ∧
    ∃ c1, innerFlush sampleMarshal id failingTransmitter true 1 (sampleConsumer [] 3 true)
        = some (none, c1) ∧
      c1.sends = (sampleConsumer [] 3 true).sends ∧
      c1.logPrinter = (sampleConsumer [] 3 true).logPrinter ∧ c1.buffer.list = [] ∧
      c1 = sampleConsumer [] 3 true :=
  ⟨rfl, innerFlush_empty_queue_noop sampleMarshal id failingTransmitter true 0
    (sampleConsumer [] 3 true) rfl⟩

/-- C6: when the queue is shorter than the configured batch size, a non-forced
innerFlush returns no error and leaves the consumer as it was: no send is
recorded and the queue holds the same items in the same order. -/
theorem innerFlush_soft_below_batch_noop {D : Type}
    (jsonMarshal : D → Except GoError Bytes) (parseTime : Bytes → Bytes)
    (tx : Transmitter) (fuel : Nat) (c : SDBatchConsumer D)
    (hlen : (c.buffer.list.length : Int) < c.conf.BatchSize) :
    ∃ c1, innerFlush jsonMarshal parseTime tx false (fuel + 1) c = some (none, c1) ∧
      c1.sends = c.sends ∧ c1.buffer.list = c.buffer.list ∧ c1 = c := by
  refine ⟨c, ?_, rfl, rfl, rfl⟩
  simp [innerFlush, SafeList.Len, hlen]

theorem innerFlush_soft_below_batch_noop_witness :
    (((sampleConsumer [1, 2] 3 false).buffer.list.length : Int)
        < (sampleConsumer [1, 2] 3 false).conf.BatchSize) ∧
    ∃ c1, innerFlush sampleMarshal id failingTransmitter false 1 (sampleConsumer [1, 2] 3 false)
        = some (none, c1) ∧
      c1.sends = (sampleConsumer [1, 2] 3 false).sends ∧
      c1.buffer.list = (sampleConsumer [1, 2] 3 false).buffer.list ∧
      c1 = sampleConsumer [1, 2] 3 false :=
  ⟨by decide, innerFlush_soft_below_batch_noop sampleMarshal id failingTransmitter 0
    (sampleConsumer [1, 2] 3 false) (by decide)⟩

/-- C7, as the code has it: for a queue whose items all serialize and a batch
size b >= 1, pack removes exactly the first min(|q|, b) items, returns that
count as the size, leaves the remaining items in their order, and returns a
buffer in which the encoding of every removed item, in queue order, is
followed by one newline byte. -/
theorem pack_removes_first_batch {D : Type} (jsonMarshal : D → Except GoError Bytes)
    (enc : D → Bytes) (c : SDBatchConsumer D) (hb : 1 ≤ c.conf.BatchSize)
    (hser : ∀ d ∈ c.buffer.list, jsonMarshal d = .ok (enc d)) :
    pack jsonMarshal c =
      (.ok (packedBytes enc
              (c.buffer.list.take (min (c.buffer.list.length : Int) c.conf.BatchSize).toNat),
            min (c.buffer.list.length : Int) c.conf.BatchSize),
       { c with buffer :=
          ⟨c.buffer.list.drop (min (c.buffer.list.length : Int) c.conf.BatchSize).toNat⟩ }) := by
  have h := pack_ok jsonMarshal enc c (fun d hd => hser d (List.mem_of_mem_take hd))
  rw [h]
  rcases le_total (c.buffer.list.length : Int) c.conf.BatchSize with hle | hle
  · have hn : c.buffer.list.length ≤ c.conf.BatchSize.toNat := by omega
    rw [min_eq_left hle, Int.toNat_ofNat, List.take_of_length_le hn,
      List.take_of_length_le (le_refl _), List.drop_of_length_le hn,
      List.drop_of_length_le (le_refl _)]
  · have hn : c.conf.BatchSize.toNat ≤ c.buffer.list.length := by omega
    rw [min_eq_right hle, List.length_take, Nat.min_eq_left hn]
    congr 3
    omega

theorem pack_removes_first_batch_witness :
    (1 ≤ (sampleConsumer [1, 2, 3, 4, 5] 3 false).conf.BatchSize) ∧
    (∀ d ∈ (sampleConsumer [1, 2, 3, 4, 5] 3 false).buffer.list,
      sampleMarshal d = .ok [d.toUInt8]) ∧
    pack sampleMarshal (sampleConsumer [1, 2, 3, 4, 5] 3 false) =
      (.ok ([1, 10, 2, 10, 3, 10], 3),
       { sampleConsumer [1, 2, 3, 4, 5] 3 false with buffer := ⟨[4, 5]⟩ }) :=
  ⟨by decide, fun _ _ => rfl,
    pack_removes_first_batch sampleMarshal (fun d => [d.toUInt8])
      (sampleConsumer [1, 2, 3, 4, 5] 3 false) (by decide) (fun _ _ => rfl)⟩

/-- C7 as stated fails: with the one event 7 queued and batch size 1, pack
returns the encoding followed by a newline, which is not the encodings joined
with newline separators. -/
theorem pack_buffer_not_newline_joined :
    (pack sampleMarshal (sampleConsumer [7] 1 false)).1 = .ok ([7, 10], 1) ∧
    newlineJoined (fun d : Nat => [d.toUInt8]) [7] = [7] ∧
    (pack sampleMarshal (sampleConsumer [7] 1 false)).1
      ≠ .ok (newlineJoined (fun d : Nat => [d.toUInt8]) [7], 1) := by
  refine ⟨rfl, rfl, ?_⟩
  decide

/-- C3, as the code has it: for a non-empty queue from which pack succeeds and a
transmitter that fails on every attempt, one forced innerFlush makes exactly
three send attempts, all with the bytes `parseTime` made of the packed buffer,
then calls writeFile once with those same bytes, so that the printer, when
there is one, is handed them exactly once, and returns the error of the third
attempt. -/
theorem innerFlush_retries_then_spools {D : Type} (jsonMarshal : D → Except GoError Bytes)
    (parseTime : Bytes → Bytes) (tx : Transmitter) (fuel : Nat) (c : SDBatchConsumer D)
    (b : Bytes) (size : Int)
    (hne : c.buffer.list ≠ [])
    (hpack : (pack jsonMarshal c).1 = .ok (b, size))
    (hfail : ∀ hist data n, tx hist data n ≠ none) :
    ∃ err c1, innerFlush jsonMarshal parseTime tx true (fuel + 1) c = some (some err, c1) ∧
      c1.sends = c.sends ++ [(parseTime b, size), (parseTime b, size), (parseTime b, size)] ∧
      c1.logPrinter = c.logPrinter.map (fun p => { p with written := p.written ++ [parseTime b] }) ∧
      tx (c.sends ++ [(parseTime b, size), (parseTime b, size)]) (parseTime b) size = some err ∧
      c1.buffer = (pack jsonMarshal c).2.buffer := by
  have hlen : ¬ ((c.buffer.list.length : Int) = 0) := by
    have : c.buffer.list.length ≠ 0 := fun h => hne (List.length_eq_zero.mp h)
    omega
  obtain ⟨err, herr, hloop⟩ := sendLoop_all_fail tx (parseTime b) size
    { (pack jsonMarshal c).2 with countSend := (pack jsonMarshal c).2.countSend + size } hfail
  have hsends : (pack jsonMarshal c).2.sends = c.sends := rfl
  have hprinter : (pack jsonMarshal c).2.logPrinter = c.logPrinter := rfl
  simp only [hsends] at herr hloop
  refine ⟨err, writeFile { (pack jsonMarshal c).2 with
      countSend := (pack jsonMarshal c).2.countSend + size,
      sends := c.sends ++ [(parseTime b, size), (parseTime b, size), (parseTime b, size)] }
      (parseTime b), ?_, ?_, ?_, herr, ?_⟩
  · unfold innerFlush
    simp only [SafeList.Len, hlen, if_false, Bool.not_true, Bool.and_false, Bool.false_eq_true]
    have hsplit : pack jsonMarshal c = (.ok (b, size), (pack jsonMarshal c).2) := by
      rw [← hpack]
    rw [hsplit]
    simp only [hsends, hloop]
  · cases hp : c.logPrinter <;> simp [writeFile, hprinter, hp]
  · cases hp : c.logPrinter <;> simp [writeFile, hprinter, hp, printer.Write]
  · cases hp : c.logPrinter <;> simp [writeFile, hprinter, hp]

theorem innerFlush_retries_then_spools_witness :
    (sampleConsumer [1, 2, 3] 3 true).buffer.list ≠ [] ∧
    (pack sampleMarshal (sampleConsumer [1, 2, 3] 3 true)).1 = .ok ([1, 10, 2, 10, 3, 10], 3) ∧
    (∀ hist data n, failingTransmitter hist data n ≠ none) ∧
    ∃ err c1, innerFlush sampleMarshal id failingTransmitter true 1
        (sampleConsumer [1, 2, 3] 3 true) = some (some err, c1) ∧
      c1.sends = (sampleConsumer [1, 2, 3] 3 true).sends ++
        [(id [1, 10, 2, 10, 3, 10], 3), (id [1, 10, 2, 10, 3, 10], 3),
         (id [1, 10, 2, 10, 3, 10], 3)] ∧
      c1.logPrinter = (sampleConsumer [1, 2, 3] 3 true).logPrinter.map
        (fun p => { p with written := p.written ++ [id [1, 10, 2, 10, 3, 10]] }) ∧
      failingTransmitter ((sampleConsumer [1, 2, 3] 3 true).sends ++
        [(id [1, 10, 2, 10, 3, 10], 3), (id [1, 10, 2, 10, 3, 10], 3)])
        (id [1, 10, 2, 10, 3, 10]) 3 = some err ∧
      c1.buffer = (pack sampleMarshal (sampleConsumer [1, 2, 3] 3 true)).2.buffer :=
  ⟨by decide, rfl, fun _ _ _ => by simp [failingTransmitter],
    innerFlush_retries_then_spools sampleMarshal id failingTransmitter 0
      (sampleConsumer [1, 2, 3] 3 true) [1, 10, 2, 10, 3, 10] 3 (by decide) rfl
      (fun _ _ _ => by simp [failingTransmitter])⟩

/-- C3 as stated fails: with one queued event that does not serialize, a forced
innerFlush under an always-failing transmitter returns the serialization
error having made no send attempt and handed nothing to the printer. -/
theorem innerFlush_unserializable_makes_no_attempt :
    (sampleConsumer [1] 3 true).buffer.list ≠ [] ∧
    (∀ hist data n, failingTransmitter hist data n ≠ none) ∧
    (innerFlush rejectingMarshal id failingTransmitter true 1 (sampleConsumer [1] 3 true)).map
        (fun r => (r.1, r.2.sends, r.2.logPrinter.map (fun p => p.written)))
      = some (some "json: unsupported value: NaN", [], some []) := by
  refine ⟨by decide, fun _ _ _ => by simp [failingTransmitter], ?_⟩
  rfl

/-! ## The shutdown flush and the constructor -/

/-- C1 at a failing input: with five events queued, batch size 3 and a
transmitter that always succeeds, the shutdown iteration of the flush loop
(its `innerFlush(true)`) returns with the events 4 and 5 still in the queue,
having handed the transmitter one batch of three events. -/
theorem shutdown_flush_sends_one_batch_only (fuel : Nat) :
    (flushLoopIter sampleMarshal id succeedingTransmitter (fuel + 1) .watchStop
        (sampleConsumer [1, 2, 3, 4, 5] 3 false)).map
      (fun r => (r.returned, r.c.buffer.list, r.c.sends))
      = some (true, [4, 5], [([1, 10, 2, 10, 3, 10], 3)]) := by
  rfl

/-- C2 at a failing input: constructed with batch size 0, the consumer keeps 0
as `conf.BatchSize` (the normalised 20 only sizes the listener channel, 40),
so the first event already raises the soft signal and pack removes nothing
from the queue; constructed with 500 it keeps 500. -/
theorem NewBatchConsumer_keeps_configured_batch_size :
    ∃ c c5 : SDBatchConsumer Nat,
      NewBatchConsumer (fun dir => .ok dir) (sampleConfig 0 false) = .ok c ∧
      c.conf.BatchSize = 0 ∧ c.listenerCap = 40 ∧
      (listenStep c 7).watchFlush = 1 ∧
      (pack sampleMarshal (listenStep c 7)).1 = .ok ([], 0) ∧
      (pack sampleMarshal (listenStep c 7)).2.buffer.list = [7] ∧
      NewBatchConsumer (fun dir => .ok dir) (sampleConfig 500 false) = .ok c5 ∧
      c5.conf.BatchSize = 500 ∧ c5.listenerCap = 400 := by
  refine ⟨_, _, rfl, ?_, ?_, ?_, ?_, ?_, rfl, ?_, ?_⟩ <;> rfl

/-! ## send -/

/-- C4, as the code has it: once the request has been encoded and marshalled,
and when `http.NewRequest` makes a request of it, send returns success if and
only if `client.Do` returned a response of status 200 whose body is empty or
decodes to application code 0, and in every other case (a network error,
another status, a non-zero code, a non-empty body that does not decode) it
returns an error; when `http.NewRequest` returns an error, send does not
return: it panics in `client.Do` on the nil request. -/
theorem send_success_iff (lib : SendLib) (version : String) (conf : SDBatchConfig)
    (data : Bytes) (size : Int) (encodedData reqData : Bytes)
    (henc : sendEncoded lib conf data = .ok encodedData)
    (hreq : lib.jsonMarshal (sendRequest version conf encodedData size) = .ok reqData) :
    (lib.newRequest "POST" (conf.ServerUrl ++ "/LogServer/log/report") reqData ≠ none →
      send lib version conf data size = .panicked nilDereference) ∧
    (lib.newRequest "POST" (conf.ServerUrl ++ "/LogServer/log/report") reqData = none →
      (send lib version conf data size = .returned none ↔
        ∃ resp, lib.clientDo (conf.ServerUrl ++ "/LogServer/log/report") conf.Timeout reqData
            = .ok resp ∧ resp.StatusCode = 200 ∧
          (resp.Body = [] ∨
            ∃ result, lib.jsonUnmarshal resp.Body = .ok result ∧ result.Code = 0)) ∧
      (send lib version conf data size ≠ .returned none →
        ∃ err, send lib version conf data size = .returned (some err))) := by
  refine ⟨?_, ?_⟩
  · intro hnew
    cases hn : lib.newRequest "POST" (conf.ServerUrl ++ "/LogServer/log/report") reqData with
    | none => exact absurd hn hnew
    | some e =>
      unfold send
      simp only [henc, hreq, hn]
  · intro hnew
    unfold send
    simp only [henc, hreq, hnew]
    cases hdo : lib.clientDo (conf.ServerUrl ++ "/LogServer/log/report") conf.Timeout reqData with
    | error err => simp
    | ok resp =>
      by_cases hbody : resp.Body = []
      · by_cases hst : resp.StatusCode = 200 <;> simp [hbody, hst]
      · have hpos : resp.Body.length > 0 := List.length_pos.mpr hbody
        simp only [hpos, if_true]
        cases hdec : lib.jsonUnmarshal resp.Body with
        | error err => simp [hbody, hdec]
        | ok result =>
          by_cases hst : resp.StatusCode = 200 <;> by_cases hcode : result.Code = 0 <;>
            simp [hbody, hst, hcode, hdec]

theorem send_success_iff_witness :
    sendEncoded emptyBodyLib (sampleConfig 3 false) [1, 10] = .ok [1, 10] ∧
    emptyBodyLib.jsonMarshal (sendRequest "v1" (sampleConfig 3 false) [1, 10] 1) = .ok [1, 10] ∧
    emptyBodyLib.newRequest "POST" ((sampleConfig 3 false).ServerUrl ++ "/LogServer/log/report")
      [1, 10] = none ∧
    (emptyBodyLib.newRequest "POST"
        ((sampleConfig 3 false).ServerUrl ++ "/LogServer/log/report") [1, 10] ≠ none →
      send emptyBodyLib "v1" (sampleConfig 3 false) [1, 10] 1 = .panicked nilDereference) ∧
    (emptyBodyLib.newRequest "POST"
        ((sampleConfig 3 false).ServerUrl ++ "/LogServer/log/report") [1, 10] = none →
      (send emptyBodyLib "v1" (sampleConfig 3 false) [1, 10] 1 = .returned none ↔
        ∃ resp, emptyBodyLib.clientDo ((sampleConfig 3 false).ServerUrl ++ "/LogServer/log/report")
            (sampleConfig 3 false).Timeout [1, 10] = .ok resp ∧ resp.StatusCode = 200 ∧
          (resp.Body = [] ∨
            ∃ result, emptyBodyLib.jsonUnmarshal resp.Body = .ok result ∧ result.Code = 0)) ∧
      (send emptyBodyLib "v1" (sampleConfig 3 false) [1, 10] 1 ≠ .returned none →
        ∃ err, send emptyBodyLib "v1" (sampleConfig 3 false) [1, 10] 1 = .returned (some err))) :=
  ⟨rfl, rfl, rfl,
    send_success_iff emptyBodyLib "v1" (sampleConfig 3 false) [1, 10] 1 [1, 10] [1, 10]
      rfl rfl⟩

/-- C4 as stated fails: a response of status 200 with an empty body makes send
return success, although the body does not decode and so carries no
application code 0. -/
theorem send_accepts_empty_body :
    emptyBodyLib.clientDo ((sampleConfig 3 false).ServerUrl ++ "/LogServer/log/report")
      (sampleConfig 3 false).Timeout [1, 10] = .ok ⟨200, []⟩ ∧
    send emptyBodyLib "v1" (sampleConfig 3 false) [1, 10] 1 = .returned none ∧
    ¬ ∃ result, emptyBodyLib.jsonUnmarshal [] = .ok result ∧ result.Code = 0 := by
  refine ⟨rfl, rfl, ?_⟩
  rintro ⟨result, h, _⟩
  simp [emptyBodyLib] at h

/-- A report to a server URL that `http.NewRequest` rejects: send neither
succeeds nor returns an error, it panics. -/
theorem send_panics_on_rejected_url :
    send rejectedUrlLib "v1" (sampleConfig 3 false) [1, 10] 1 = .panicked nilDereference := by
  rfl

/-! ## uploadFile -/

theorem uploadLoop_exit (lib : UploadLib) (url : String) (cs : Int) (file : osFile)
    (fileSize : Int) (req : LogFileUploadReq) (fuel : Nat) (uploadedBytes : Int)
    (posted : List LogFileUploadReq) (h : ¬ uploadedBytes < fileSize) :
    uploadLoop lib url cs file fileSize req (fuel + 1) uploadedBytes posted
      = some ⟨none, posted⟩ := by
  simp [uploadLoop, h]

/-- One turn of the loop on a chunk that is not accepted: uploadFile returns an
error, and the chunk is the last one sent if it was sent at all. -/
theorem uploadLoop_rejected (lib : UploadLib) (url : String) (cs : Int) (file : osFile)
    (fileSize : Int) (req : LogFileUploadReq) (fuel : Nat) (uploadedBytes : Int)
    (posted : List LogFileUploadReq) (h : uploadedBytes < fileSize)
    (hrej : chunkAccepted (chunkOutcomeAt lib url file fileSize req cs posted uploadedBytes)
      = false) :
    ∃ err, uploadLoop lib url cs file fileSize req (fuel + 1) uploadedBytes posted
      = some ⟨some err,
          if chunkSentAt lib url file fileSize req cs uploadedBytes = true
          then posted ++ [chunkRequestAt lib file fileSize req cs uploadedBytes]
          else posted⟩ := by
  unfold uploadLoop
  simp only [h, if_true]
  unfold chunkOutcomeAt at hrej
  unfold chunkSentAt
  obtain ⟨req1, hreq1⟩ : ∃ req1, req1 = chunkRequestAt lib file fileSize req cs uploadedBytes :=
    ⟨_, rfl⟩
  rw [← hreq1] at hrej ⊢
  simp only [chunkRequestAt] at hreq1
  simp only [← hreq1]
  obtain ⟨len, hlen⟩ : ∃ len : Int,
      len = (if fileSize - uploadedBytes < cs then fileSize - uploadedBytes else cs) := ⟨_, rfl⟩
  simp only [← hlen] at hrej ⊢
  cases hread : readFailed (lib.fileReadAt file len uploadedBytes).2 with
  | some e =>
    simp only [hread]
    exact ⟨"uploadFile read file error: " ++ e, by simp⟩
  | none =>
    simp only [hread] at hrej ⊢
    cases hm : lib.jsonMarshal req1 with
    | error e =>
      simp only [hm]
      exact ⟨e, by simp⟩
    | ok inDate =>
      simp only [hm] at hrej ⊢
      have hcases : lib.newRequest "POST" url inDate = none ∨
          ∃ e, lib.newRequest "POST" url inDate = some e := by
        cases lib.newRequest "POST" url inDate with
        | none => exact Or.inl rfl
        | some e => exact Or.inr ⟨e, rfl⟩
      rcases hcases with hn | ⟨e, hn⟩
      · simp only [hn, if_true] at hrej ⊢
        have hdo : (∃ e, lib.clientDo posted url inDate = .error e) ∨
            ∃ resp, lib.clientDo posted url inDate = .ok resp := by
          cases lib.clientDo posted url inDate with
          | error e => exact Or.inl ⟨e, rfl⟩
          | ok resp => exact Or.inr ⟨resp, rfl⟩
        rcases hdo with ⟨e, hpost⟩ | ⟨resp, hpost⟩
        · simp only [hpost]
          exact ⟨_, rfl⟩
        · rw [hpost] at hrej
          have hbad : resp.StatusCode ≠ 200 ∧ resp.StatusCode ≠ 206 := by
            simpa [chunkAccepted, not_or] using hrej
          simp only [hpost, hbad.1, hbad.2, ne_eq, not_false_eq_true, and_self, if_true]
          split <;> exact ⟨_, rfl⟩
      · simp only [hn]
        exact ⟨"uploadFile create POST request error: " ++ e, by simp⟩

/-- One turn of the loop on a chunk that is accepted: the chunk has been sent
and the loop goes on behind it. -/
theorem uploadLoop_accepted (lib : UploadLib) (url : String) (cs : Int) (file : osFile)
    (fileSize : Int) (req : LogFileUploadReq) (fuel : Nat) (uploadedBytes : Int)
    (posted : List LogFileUploadReq) (h : uploadedBytes < fileSize)
    (hacc : chunkAccepted (chunkOutcomeAt lib url file fileSize req cs posted uploadedBytes)
      = true) :
    uploadLoop lib url cs file fileSize req (fuel + 1) uploadedBytes posted
      = uploadLoop lib url cs file fileSize
          (chunkRequestAt lib file fileSize req cs uploadedBytes) fuel
          ((chunkRequestAt lib file fileSize req cs uploadedBytes).End)
          (posted ++ [chunkRequestAt lib file fileSize req cs uploadedBytes]) := by
  conv => lhs; unfold uploadLoop
  simp only [h, if_true]
  unfold chunkOutcomeAt at hacc
  obtain ⟨req1, hreq1⟩ : ∃ req1, req1 = chunkRequestAt lib file fileSize req cs uploadedBytes :=
    ⟨_, rfl⟩
  have hend : req1.End = uploadedBytes +
      (if fileSize - uploadedBytes < cs then fileSize - uploadedBytes else cs) := by
    rw [hreq1]
    rfl
  rw [← hreq1] at hacc ⊢
  simp only [chunkRequestAt] at hreq1
  simp only [← hreq1]
  rw [hend]
  obtain ⟨len, hlen⟩ : ∃ len : Int,
      len = (if fileSize - uploadedBytes < cs then fileSize - uploadedBytes else cs) := ⟨_, rfl⟩
  simp only [← hlen] at hacc ⊢
  cases hread : readFailed (lib.fileReadAt file len uploadedBytes).2 with
  | some e => simp [hread, chunkAccepted] at hacc
  | none =>
    simp only [hread] at hacc ⊢
    cases hm : lib.jsonMarshal req1 with
    | error e => simp [hm, chunkAccepted] at hacc
    | ok inDate =>
      simp only [hm] at hacc ⊢
      have hcases : lib.newRequest "POST" url inDate = none ∨
          ∃ e, lib.newRequest "POST" url inDate = some e := by
        cases lib.newRequest "POST" url inDate with
        | none => exact Or.inl rfl
        | some e => exact Or.inr ⟨e, rfl⟩
      rcases hcases with hn | ⟨e, hn⟩
      · simp only [hn] at hacc ⊢
        have hdo : (∃ e, lib.clientDo posted url inDate = .error e) ∨
            ∃ resp, lib.clientDo posted url inDate = .ok resp := by
          cases lib.clientDo posted url inDate with
          | error e => exact Or.inl ⟨e, rfl⟩
          | ok resp => exact Or.inr ⟨resp, rfl⟩
        rcases hdo with ⟨e, hpost⟩ | ⟨resp, hpost⟩
        · simp [hpost, chunkAccepted] at hacc
        · rw [hpost] at hacc
          have hgood : ¬ (resp.StatusCode ≠ 200 ∧ resp.StatusCode ≠ 206) := by
            simp only [chunkAccepted, decide_eq_true_eq] at hacc
            omega
          simp only [hpost, hgood, if_false]
      · simp [hn, chunkAccepted] at hacc

theorem chunkRequest_of_chunkRequestAt (lib : UploadLib) (file : osFile) (fileSize : Int)
    (req : LogFileUploadReq) (cs : Nat) (u : Int) :
    chunkRequest lib file fileSize (chunkRequestAt lib file fileSize req cs u) cs
      = chunkRequest lib file fileSize req cs :=
  rfl

theorem chunkOutcomeAt_of_chunkRequestAt (lib : UploadLib) (url : String) (file : osFile)
    (fileSize : Int) (req : LogFileUploadReq) (cs : Nat) (u : Int)
    (posted : List LogFileUploadReq) (v : Int) :
    chunkOutcomeAt lib url file fileSize (chunkRequestAt lib file fileSize req cs u) cs posted v
      = chunkOutcomeAt lib url file fileSize req cs posted v :=
  rfl

theorem chunkSentAt_of_chunkRequestAt (lib : UploadLib) (url : String) (file : osFile)
    (fileSize : Int) (req : LogFileUploadReq) (cs : Nat) (u : Int) (v : Int) :
    chunkSentAt lib url file fileSize (chunkRequestAt lib file fileSize req cs u) cs v
      = chunkSentAt lib url file fileSize req cs v :=
  rfl

theorem chunkAnswerFrom_shift (lib : UploadLib) (url : String) (file : osFile) (fileSize : Int)
    (req : LogFileUploadReq) (cs : Nat) (posted : List LogFileUploadReq) (j i : Nat) :
    chunkAnswerFrom lib url file fileSize (chunkRequest lib file fileSize req cs j) cs
        (posted ++ [chunkRequest lib file fileSize req cs j]) (j + 1) i
      = chunkAnswerFrom lib url file fileSize req cs posted j (i + 1) := by
  have hreq : chunkRequest lib file fileSize (chunkRequest lib file fileSize req cs j) cs
      = chunkRequest lib file fileSize req cs := rfl
  have hidx : j + 1 + i = j + (i + 1) := by omega
  unfold chunkAnswerFrom
  rw [hreq, hidx, List.range'_succ, List.map_cons, List.append_assoc, List.singleton_append]
  rfl

/-- The loop of uploadFile from chunk `j` on, with `k` chunks still to go:
it returns; when every chunk is accepted it sends the `k` chunks and succeeds;
at the first chunk that is not accepted it stops with an error, having sent
the chunks before it and, if it got as far as `client.Do`, that chunk. -/
theorem uploadLoop_spec (lib : UploadLib) (url : String) (cs : Nat) (file : osFile) (n : Nat) :
    ∀ (k j fuel : Nat) (req : LogFileUploadReq) (posted : List LogFileUploadReq),
      n ≤ (j + k) * cs →
      (0 < k → (j + k - 1) * cs < n) →
      k < fuel →
      ∃ res, uploadLoop lib url cs file n req fuel ((min (j * cs) n : Nat) : Int) posted
          = some res ∧
        ((∀ i < k, chunkAccepted (chunkAnswerFrom lib url file n req cs posted j i) = true) →
          res = ⟨none, posted ++ (List.range' j k).map (chunkRequest lib file n req cs)⟩) ∧
        (∀ i < k,
          (∀ i' < i, chunkAccepted (chunkAnswerFrom lib url file n req cs posted j i') = true) →
          chunkAccepted (chunkAnswerFrom lib url file n req cs posted j i) = false →
          res.err ≠ none ∧
            res.posted = posted ++ (List.range' j i).map (chunkRequest lib file n req cs) ++
              (if chunkSentAt lib url file n req cs (((j + i) * cs : Nat) : Int) = true
               then [chunkRequest lib file n req cs (j + i)] else [])) := by
  intro k
  induction k with
  | zero =>
    intro j fuel req posted h1 _ hf
    obtain ⟨f, rfl⟩ : ∃ f, fuel = f + 1 := ⟨fuel - 1, by omega⟩
    have hmin : min (j * cs) n = n := by
      simp only [Nat.add_zero] at h1
      omega
    refine ⟨⟨none, posted⟩, ?_, ?_, ?_⟩
    · rw [hmin]
      exact uploadLoop_exit lib url cs file n req f _ posted (by omega)
    · intro _
      simp
    · intro i hi
      omega
  | succ k ih =>
    intro j fuel req posted h1 h2 hf
    obtain ⟨f, rfl⟩ : ∃ f, fuel = f + 1 := ⟨fuel - 1, by omega⟩
    have hjk : (j + k) * cs < n := by
      have := h2 (by omega)
      simpa using this
    have hj : j * cs < n :=
      lt_of_le_of_lt (Nat.mul_le_mul_right cs (Nat.le_add_right j k)) hjk
    have hmin : min (j * cs) n = j * cs := by omega
    rw [hmin]
    have hlt : ((j * cs : Nat) : Int) < (n : Int) := by exact_mod_cast hj
    have hans0 : chunkAnswerFrom lib url file n req cs posted j 0
        = chunkOutcomeAt lib url file n req cs posted ((j * cs : Nat) : Int) := by
      simp [chunkAnswerFrom]
    cases hacc : chunkAccepted
        (chunkOutcomeAt lib url file n req cs posted ((j * cs : Nat) : Int)) with
    | false =>
      obtain ⟨err, herr⟩ := uploadLoop_rejected lib url cs file n req f _ posted hlt hacc
      refine ⟨_, herr, ?_, ?_⟩
      · intro hall
        have h0 := hall 0 (by omega)
        rw [hans0, hacc] at h0
        cases h0
      · intro i _ hprev _
        rcases Nat.eq_zero_or_pos i with rfl | hpos
        · refine ⟨by simp, ?_⟩
          simp only [Nat.add_zero, List.range'_zero, List.map_nil, List.append_nil]
          by_cases hs : chunkSentAt lib url file n req cs ((j * cs : Nat) : Int) = true
          · simp only [hs, if_true]
            rfl
          · simp only [hs, if_false, List.append_nil]
            simp
        · have h0 := hprev 0 hpos
          rw [hans0, hacc] at h0
          cases h0
    | true =>
      have hstep := uploadLoop_accepted lib url cs file n req f _ posted hlt hacc
      have hend : (chunkRequestAt lib file n req cs ((j * cs : Nat) : Int)).End
          = ((min ((j + 1) * cs) n : Nat) : Int) := by
        simp only [chunkRequestAt]
        rw [Nat.succ_mul]
        split_ifs <;> omega
      rw [hend] at hstep
      have h1' : n ≤ (j + 1 + k) * cs := by
        have : j + 1 + k = j + (k + 1) := by omega
        rw [this]
        exact h1
      have h2' : 0 < k → (j + 1 + k - 1) * cs < n := by
        intro _
        have : j + 1 + k - 1 = j + k := by omega
        rw [this]
        exact hjk
      obtain ⟨res, hres, hall, hfirst⟩ := ih (j + 1) f (chunkRequest lib file n req cs j)
        (posted ++ [chunkRequest lib file n req cs j]) h1' h2' (by omega)
      have hreq : chunkRequest lib file n (chunkRequest lib file n req cs j) cs
          = chunkRequest lib file n req cs := rfl
      have hsent : ∀ v, chunkSentAt lib url file n (chunkRequest lib file n req cs j) cs v
          = chunkSentAt lib url file n req cs v := fun _ => rfl
      rw [hreq] at hall hfirst
      refine ⟨res, ?_, ?_, ?_⟩
      · rw [← hres]
        exact hstep
      · intro hall'
        have := hall (fun i hi => by
          rw [chunkAnswerFrom_shift]
          exact hall' (i + 1) (by omega))
        rw [this]
        simp [List.range'_succ]
      · intro i hi hprev hrej
        rcases Nat.eq_zero_or_pos i with rfl | hpos
        · rw [hans0, hacc] at hrej
          cases hrej
        · obtain ⟨i0, rfl⟩ : ∃ i0, i = i0 + 1 := ⟨i - 1, by omega⟩
          have := hfirst i0 (by omega)
            (fun i' hi' => by
              rw [chunkAnswerFrom_shift]
              exact hprev (i' + 1) (by omega))
            (by rw [chunkAnswerFrom_shift]; exact hrej)
          refine ⟨this.1, ?_⟩
          have hidx : j + 1 + i0 = j + (i0 + 1) := by omega
          rw [this.2, hsent, hidx]
          simp [List.range'_succ]

/-- The fields of the request for chunk `i` when the chunk starts inside the
file. -/
theorem chunkRequest_fields (lib : UploadLib) (file : osFile) (n : Nat)
    (req : LogFileUploadReq) (cs : Nat) (i : Nat) (hi : i * cs < n) :
    (chunkRequest lib file n req cs i).Start = ((i * cs : Nat) : Int) ∧
    (chunkRequest lib file n req cs i).End = ((min ((i + 1) * cs) n : Nat) : Int) ∧
    (chunkRequest lib file n req cs i).Total = req.Total ∧
    (chunkRequest lib file n req cs i).Md5 = req.Md5 ∧
    (chunkRequest lib file n req cs i).Content
      = readBuffer ((min ((i + 1) * cs) n - i * cs : Nat) : Int)
          (lib.fileReadAt file ((min ((i + 1) * cs) n - i * cs : Nat) : Int)
            ((i * cs : Nat) : Int)).1 := by
  have hlen : (if (n : Int) - ((i * cs : Nat) : Int) < (cs : Int)
      then (n : Int) - ((i * cs : Nat) : Int) else (cs : Int))
      = ((min ((i + 1) * cs) n - i * cs : Nat) : Int) := by
    rw [Nat.succ_mul]
    split_ifs <;> omega
  refine ⟨rfl, ?_, rfl, rfl, ?_⟩
  · simp only [chunkRequest, chunkRequestAt]
    rw [Nat.succ_mul]
    split_ifs <;> omega
  · simp only [chunkRequest, chunkRequestAt]
    rw [hlen]

theorem readBuffer_of_length (data : Bytes) (len : Nat) (h : data.length = len) :
    readBuffer (len : Int) data = data := by
  subst h
  simp [readBuffer]

/-- The content of the request for chunk `i` of a file whose bytes `ReadAt`
reads as they are. -/
theorem chunkRequest_content (lib : UploadLib) (file : osFile) (content : Bytes)
    (req : LogFileUploadReq) (cs : Nat) (i : Nat) (hcs : 0 < cs)
    (hi : i * cs < content.length)
    (hread : ∀ off len : Nat, 0 < len → off + len ≤ content.length →
      (lib.fileReadAt file (len : Int) (off : Int)).1 = (content.drop off).take len) :
    (chunkRequest lib file content.length req cs i).Content
      = (content.drop (i * cs)).take (min ((i + 1) * cs) content.length - i * cs) := by
  rw [(chunkRequest_fields lib file content.length req cs i hi).2.2.2.2]
  have hpos : 0 < min ((i + 1) * cs) content.length - i * cs := by
    rw [Nat.succ_mul]
    omega
  have hle : i * cs + (min ((i + 1) * cs) content.length - i * cs) ≤ content.length := by
    rw [Nat.succ_mul]
    omega
  rw [hread _ _ hpos hle]
  have hlen : ((content.drop (i * cs)).take
      (min ((i + 1) * cs) content.length - i * cs)).length
      = min ((i + 1) * cs) content.length - i * cs := by
    rw [List.length_take, List.length_drop]
    omega
  exact readBuffer_of_length _ _ hlen

theorem chunk_contents_flatten (cs : Nat) (content : Bytes) :
    ∀ (k j : Nat), content.length ≤ (j + k) * cs →
      ((List.range' j k).map (fun i =>
          (content.drop (i * cs)).take (min ((i + 1) * cs) content.length - i * cs))).flatten
        = content.drop (j * cs) := by
  intro k
  induction k with
  | zero =>
    intro j h
    simp only [Nat.add_zero] at h
    simp [List.drop_of_length_le h]
  | succ k ih =>
    intro j h
    have h' : content.length ≤ (j + 1 + k) * cs := by
      have : j + 1 + k = j + (k + 1) := by omega
      rw [this]
      exact h
    rw [List.range'_succ, List.map_cons, List.flatten_cons, ih (j + 1) h']
    rw [Nat.succ_mul]
    by_cases hlt : content.length ≤ j * cs + cs
    · have hlen : (content.drop (j * cs)).length
          ≤ min (j * cs + cs) content.length - j * cs := by
        rw [List.length_drop]
        omega
      rw [List.take_of_length_le hlen, List.drop_of_length_le hlt, List.append_nil]
    · have hm : min (j * cs + cs) content.length - j * cs = cs := by omega
      rw [hm, ← List.drop_drop, List.take_append_drop]

theorem chunkCount_bounds (n : Nat) :
    n ≤ (0 + chunkCount n) * 1048576 ∧
    (0 < chunkCount n → (0 + chunkCount n - 1) * 1048576 < n) ∧
    chunkCount n < n + 1 := by
  unfold chunkCount
  refine ⟨by omega, fun _ => by omega, by omega⟩

/-- The uploadFile method on a file that opens and whose size and MD5 it gets:
it returns; when every chunk is accepted it has sent all chunks and succeeds;
at the first chunk that is not accepted it stops with an error, having sent
the chunks before it and, if it got as far as `client.Do`, that chunk. -/
theorem uploadFile_spec (lib : UploadLib) (version : String) (conf : SDBatchConfig)
    (fileDir : String) (file : osFile) (size : Int) (md5Str : String)
    (hopen : lib.osOpen fileDir = .ok file) (hstat : lib.fileStat file = .ok size)
    (hmd5 : fileMD5 lib file = .ok md5Str) :
    ∃ res, uploadFile lib version conf fileDir = some res ∧
      ((∀ i < chunkCount size.toNat,
          chunkAccepted (chunkAnswer lib version conf fileDir file size md5Str i) = true) →
        res = ⟨none, chunkRequests lib version conf fileDir file size md5Str
          (chunkCount size.toNat)⟩) ∧
      (∀ i < chunkCount size.toNat,
        (∀ i' < i,
          chunkAccepted (chunkAnswer lib version conf fileDir file size md5Str i') = true) →
        chunkAccepted (chunkAnswer lib version conf fileDir file size md5Str i) = false →
        res.err ≠ none ∧
          res.posted = chunkRequests lib version conf fileDir file size md5Str
            (if chunkSent lib version conf fileDir file size md5Str i = true
             then i + 1 else i)) := by
  by_cases hneg : size < 0
  · have hz : size.toNat = 0 := by omega
    have hc : chunkCount size.toNat = 0 := by
      rw [hz]
      rfl
    refine ⟨⟨none, []⟩, ?_, ?_, ?_⟩
    · simp only [uploadFile, hopen, hstat, hmd5]
      exact uploadLoop_exit _ _ _ _ _ _ _ _ _ (by omega)
    · intro _
      rw [hc]
      rfl
    · intro i hi
      omega
  · obtain ⟨n, rfl⟩ : ∃ n : Nat, size = (n : Int) := ⟨size.toNat, by omega⟩
    have hn : (n : Int).toNat = n := Int.toNat_ofNat n
    rw [hn]
    obtain ⟨h1, h2, h3⟩ := chunkCount_bounds n
    obtain ⟨res, hres, hall, hfirst⟩ := uploadLoop_spec lib
      (conf.ServerUrl ++ "/LogServer/log/upload") 1048576 file n (chunkCount n) 0
      (n + 1) (uploadBaseRequest lib version conf fileDir n md5Str) [] h1 h2 h3
    have hcs : chunkSize = ((1048576 : Nat) : Int) := by norm_num [chunkSize]
    have hzero : ((min (0 * 1048576) n : Nat) : Int) = 0 := by simp
    rw [hzero] at hres
    refine ⟨res, ?_, ?_, ?_⟩
    · simp only [uploadFile, hopen, hstat, hmd5, hcs, hn]
      exact hres
    · intro hacc
      rw [hall hacc, List.nil_append]
      unfold chunkRequests
      rw [List.range_eq_range']
    · intro i hi hprev hrej
      obtain ⟨he, hp⟩ := hfirst i hi hprev hrej
      refine ⟨he, ?_⟩
      rw [hp, List.nil_append]
      unfold chunkRequests chunkSent
      rw [Nat.zero_add]
      by_cases hs : chunkSentAt lib (conf.ServerUrl ++ "/LogServer/log/upload") file n
          (uploadBaseRequest lib version conf fileDir n md5Str) (1048576 : Nat)
          ((i * 1048576 : Nat) : Int) = true
      · rw [if_pos hs, if_pos hs, List.range_succ, List.map_append, List.range_eq_range']
        rfl
      · rw [if_neg hs, if_neg hs, List.append_nil, List.range_eq_range']

theorem chunkRequests_getElem? (lib : UploadLib) (version : String) (conf : SDBatchConfig)
    (fileDir : String) (file : osFile) (size : Int) (md5Str : String) (m i : Nat)
    (r : LogFileUploadReq)
    (h : (chunkRequests lib version conf fileDir file size md5Str m)[i]? = some r) :
    i < m ∧
      r = chunkRequest lib file size (uploadBaseRequest lib version conf fileDir size md5Str)
        1048576 i := by
  unfold chunkRequests at h
  rw [List.getElem?_map] at h
  by_cases hi : i < m
  · rw [List.getElem?_range hi] at h
    exact ⟨hi, (Option.some.inj h).symm⟩
  · rw [List.getElem?_eq_none (by rw [List.length_range]; omega)] at h
    cases h

theorem chunkRequests_length (lib : UploadLib) (version : String) (conf : SDBatchConfig)
    (fileDir : String) (file : osFile) (size : Int) (md5Str : String) (m : Nat) :
    (chunkRequests lib version conf fileDir file size md5Str m).length = m := by
  unfold chunkRequests
  rw [List.length_map, List.length_range]

theorem chunkRequests_contents (lib : UploadLib) (version : String) (conf : SDBatchConfig)
    (fileDir : String) (file : osFile) (content : Bytes) (md5Str : String)
    (hread : ∀ off len : Nat, 0 < len → off + len ≤ content.length →
      (lib.fileReadAt file (len : Int) (off : Int)).1 = (content.drop off).take len) :
    ((chunkRequests lib version conf fileDir file content.length md5Str
        (chunkCount content.length)).map (fun r => r.Content)).flatten = content := by
  have h := chunk_contents_flatten 1048576 content (chunkCount content.length) 0
    (chunkCount_bounds content.length).1
  rw [Nat.zero_mul, List.drop_zero] at h
  unfold chunkRequests
  rw [List.map_map, List.range_eq_range']
  have hmap : (List.range' 0 (chunkCount content.length)).map
      ((fun r : LogFileUploadReq => r.Content) ∘
        chunkRequest lib file content.length
          (uploadBaseRequest lib version conf fileDir content.length md5Str) 1048576)
      = (List.range' 0 (chunkCount content.length)).map (fun i =>
          (content.drop (i * 1048576)).take
            (min ((i + 1) * 1048576) content.length - i * 1048576)) := by
    apply List.map_congr_left
    intro i hi
    have hlt : i < chunkCount content.length := by
      have := List.mem_range'_1.mp hi
      omega
    have hstart : i * 1048576 < content.length := by
      unfold chunkCount at hlt
      omega
    exact chunkRequest_content lib file content _ 1048576 i (by omega) hstart hread
  rw [hmap]
  exact h

/-- C8: for a file of n bytes that opens, whose size `Stat` gives as n and whose
bytes `io.Copy` and `ReadAt` read as they are, and whose chunks are all
accepted, uploadFile returns success having sent ceil(n / 1048576) requests in
order; the first starts at 0, each starts where the previous one ended, the
last ends at n, every chunk is at most 1 MiB long and every chunk but the last
exactly 1 MiB, every request carries total = n, the MD5 of the file and as
content exactly the file bytes in [start, end), and the contents concatenated
in order are the file. -/
theorem uploadFile_chunks_cover_file (lib : UploadLib) (version : String)
    (conf : SDBatchConfig) (fileDir : String) (file : osFile) (content : Bytes)
    (hopen : lib.osOpen fileDir = .ok file)
    (hstat : lib.fileStat file = .ok (content.length : Int))
    (hcopy : lib.ioCopy file = .ok content)
    (hread : ∀ off len : Nat, 0 < len → off + len ≤ content.length →
      (lib.fileReadAt file (len : Int) (off : Int)).1 = (content.drop off).take len)
    (hacc : ∀ i < chunkCount content.length,
      chunkAccepted (chunkAnswer lib version conf fileDir file (content.length : Int)
        (lib.md5Hex content) i) = true) :
    ∃ posted, uploadFile lib version conf fileDir = some ⟨none, posted⟩ ∧
      posted.length = (content.length + 1048575) / 1048576 ∧
      (∀ i r, posted[i]? = some r →
        (i = 0 → r.Start = 0) ∧
        (∀ next, posted[i + 1]? = some next → next.Start = r.End) ∧
        (i + 1 = posted.length → r.End = (content.length : Int)) ∧
        r.End - r.Start ≤ 1048576 ∧
        (i + 1 < posted.length → r.End - r.Start = 1048576) ∧
        r.Total = (content.length : Int) ∧
        0 ≤ r.Start ∧ r.Start ≤ r.End ∧
        r.Content = (content.drop r.Start.toNat).take (r.End - r.Start).toNat ∧
        (r.Content.length : Int) = r.End - r.Start ∧
        r.Md5 = lib.md5Hex content) ∧
      (posted.map (fun r => r.Content)).flatten = content := by
  have hmd5 : fileMD5 lib file = .ok (lib.md5Hex content) := by
    simp only [fileMD5, hcopy]
  obtain ⟨res, hres, hall, _⟩ := uploadFile_spec lib version conf fileDir file
    (content.length : Int) (lib.md5Hex content) hopen hstat hmd5
  have hn : ((content.length : Nat) : Int).toNat = content.length := Int.toNat_ofNat _
  rw [hn] at hall
  have hposted := hall hacc
  rw [hposted] at hres
  refine ⟨_, hres, ?_, ?_, chunkRequests_contents lib version conf fileDir file content _ hread⟩
  · rw [chunkRequests_length]
    rfl
  · intro i r hr
    rw [chunkRequests_length]
    obtain ⟨hi, rfl⟩ := chunkRequests_getElem? lib version conf fileDir file _ _ _ i r hr
    have hm : chunkCount content.length = (content.length + 1048575) / 1048576 := rfl
    have hstart : i * 1048576 < content.length := by omega
    obtain ⟨hS, hE, hT, hM, _⟩ := chunkRequest_fields lib file content.length
      (uploadBaseRequest lib version conf fileDir (content.length : Int) (lib.md5Hex content))
      1048576 i hstart
    have hC := chunkRequest_content lib file content
      (uploadBaseRequest lib version conf fileDir (content.length : Int) (lib.md5Hex content))
      1048576 i (by omega) hstart hread
    have hlenC : ((chunkRequest lib file (content.length : Int)
        (uploadBaseRequest lib version conf fileDir (content.length : Int) (lib.md5Hex content))
        1048576 i).Content.length : Int)
        = ((min ((i + 1) * 1048576) content.length : Nat) : Int) - ((i * 1048576 : Nat) : Int) := by
      rw [hC, List.length_take, List.length_drop]
      omega
    refine ⟨?_, ?_, ?_, ?_, ?_, ?_, ?_, ?_, ?_, ?_, ?_⟩
    · intro h0
      rw [hS, h0]
      rfl
    · intro next hnext
      obtain ⟨hi1, rfl⟩ := chunkRequests_getElem? lib version conf fileDir file _ _ _ (i + 1)
        next hnext
      have hstart1 : (i + 1) * 1048576 < content.length := by omega
      rw [(chunkRequest_fields lib file content.length
        (uploadBaseRequest lib version conf fileDir (content.length : Int) (lib.md5Hex content))
        1048576 (i + 1) hstart1).1, hE]
      omega
    · intro hlast
      rw [hE]
      omega
    · rw [hS, hE]
      omega
    · intro hnext
      rw [hS, hE]
      omega
    · rw [hT]
      rfl
    · rw [hS]
      omega
    · rw [hS, hE]
      omega
    · rw [hC, hS, hE]
      congr 1
      · omega
    · rw [hlenC, hS, hE]
    · rw [hM]
      rfl

theorem sampleFile_length : sampleFile.length = 2097154 := by
  have h : sampleFile = List.replicate 2097152 97 ++ [98, 99] := rfl
  have h2 : ([98, 99] : Bytes).length = 2 := rfl
  rw [h, List.length_append, List.length_replicate, h2]

theorem uploadFile_chunks_cover_file_witness :
    sampleFile.length = 2097154 ∧
    chunkCount sampleFile.length = 3 ∧
    (sampleUploadLib sampleFile (fun _ => 200)).osOpen samplePath = .ok ⟨samplePath⟩ ∧
    (sampleUploadLib sampleFile (fun _ => 200)).fileStat ⟨samplePath⟩
      = .ok (sampleFile.length : Int) ∧
    (sampleUploadLib sampleFile (fun _ => 200)).ioCopy ⟨samplePath⟩ = .ok sampleFile ∧
    (∀ off len : Nat, 0 < len → off + len ≤ sampleFile.length →
      ((sampleUploadLib sampleFile (fun _ => 200)).fileReadAt ⟨samplePath⟩ (len : Int)
        (off : Int)).1 = (sampleFile.drop off).take len) ∧
    (∀ i < chunkCount sampleFile.length,
      chunkAccepted (chunkAnswer (sampleUploadLib sampleFile (fun _ => 200)) "v1"
        (sampleConfig 3 true) samplePath ⟨samplePath⟩ (sampleFile.length : Int)
        ((sampleUploadLib sampleFile (fun _ => 200)).md5Hex sampleFile) i) = true) ∧
    (uploadFile (sampleUploadLib sampleFile (fun _ => 200)) "v1" (sampleConfig 3 true)
        samplePath).map (fun res => (res.err, res.posted.map (fun r => (r.Start, r.End, r.Total))))
      = some (none, [(0, 1048576, 2097154), (1048576, 2097152, 2097154),
          (2097152, 2097154, 2097154)]) ∧
    ∃ posted, uploadFile (sampleUploadLib sampleFile (fun _ => 200)) "v1" (sampleConfig 3 true)
        samplePath = some ⟨none, posted⟩ ∧
      posted.length = (sampleFile.length + 1048575) / 1048576 ∧
      (∀ i r, posted[i]? = some r →
        (i = 0 → r.Start = 0) ∧
        (∀ next, posted[i + 1]? = some next → next.Start = r.End) ∧
        (i + 1 = posted.length → r.End = (sampleFile.length : Int)) ∧
        r.End - r.Start ≤ 1048576 ∧
        (i + 1 < posted.length → r.End - r.Start = 1048576) ∧
        r.Total = (sampleFile.length : Int) ∧
        0 ≤ r.Start ∧ r.Start ≤ r.End ∧
        r.Content = (sampleFile.drop r.Start.toNat).take (r.End - r.Start).toNat ∧
        (r.Content.length : Int) = r.End - r.Start ∧
        r.Md5 = (sampleUploadLib sampleFile (fun _ => 200)).md5Hex sampleFile) ∧
      (posted.map (fun r => r.Content)).flatten = sampleFile :=
  ⟨sampleFile_length, by rw [sampleFile_length]; rfl, rfl, by rw [sampleFile_length]; rfl, rfl,
    fun _ _ _ _ => rfl, fun _ _ => rfl, rfl,
    uploadFile_chunks_cover_file (sampleUploadLib sampleFile (fun _ => 200)) "v1"
      (sampleConfig 3 true) samplePath ⟨samplePath⟩ sampleFile rfl
      (by rw [sampleFile_length]; rfl) rfl (fun _ _ _ _ => rfl) (fun _ _ => rfl)⟩

/-- C9: for every file and every behaviour of the reads, of the encoding and of
the server, uploadFile returns.  When the file does not open, or its size or
its MD5 cannot be got, it returns an error and sends nothing.  Otherwise it
returns success if and only if it sent every chunk of the file and every chunk
was answered with status 200 or 206; at the first chunk that is not (another
status, a transport error, or a chunk that could not be read, marshalled or
made into a request) it returns an error, having sent the chunks before it
and, when it got as far as `client.Do`, that chunk, and no later chunk. -/
theorem uploadFile_succeeds_iff_all_accepted (lib : UploadLib) (version : String)
    (conf : SDBatchConfig) (fileDir : String) :
    ∃ res, uploadFile lib version conf fileDir = some res ∧
      ((¬ ∃ file size md5Str, lib.osOpen fileDir = .ok file ∧ lib.fileStat file = .ok size ∧
          fileMD5 lib file = .ok md5Str) →
        res.err ≠ none ∧ res.posted = []) ∧
      (∀ file size md5Str, lib.osOpen fileDir = .ok file → lib.fileStat file = .ok size →
        fileMD5 lib file = .ok md5Str →
        (res.err = none ↔
          (res.posted = chunkRequests lib version conf fileDir file size md5Str
              (chunkCount size.toNat) ∧
            ∀ i < chunkCount size.toNat,
              chunkAccepted (chunkAnswer lib version conf fileDir file size md5Str i) = true)) ∧
        (∀ i < chunkCount size.toNat,
          (∀ j < i,
            chunkAccepted (chunkAnswer lib version conf fileDir file size md5Str j) = true) →
          chunkAccepted (chunkAnswer lib version conf fileDir file size md5Str i) = false →
          res.err ≠ none ∧
            res.posted = chunkRequests lib version conf fileDir file size md5Str
              (if chunkSent lib version conf fileDir file size md5Str i = true
               then i + 1 else i) ∧
            res.posted.length ≤ i + 1)) := by
  cases hopen : lib.osOpen fileDir with
  | error e =>
    refine ⟨⟨some ("uploadFile open file error: " ++ e), []⟩, ?_, ?_, ?_⟩
    · simp only [uploadFile, hopen]
    · intro _
      exact ⟨by simp, rfl⟩
    · intro file size md5Str h
      cases h
  | ok file =>
    cases hstat : lib.fileStat file with
    | error e =>
      refine ⟨⟨some ("无法获取文件信息: " ++ e), []⟩, ?_, ?_, ?_⟩
      · simp only [uploadFile, hopen, hstat]
      · intro _
        exact ⟨by simp, rfl⟩
      · intro file1 size md5Str h1 h2
        cases h1
        rw [hstat] at h2
        cases h2
    | ok size =>
      cases hmd5 : fileMD5 lib file with
      | error e =>
        refine ⟨⟨some e, []⟩, ?_, ?_, ?_⟩
        · simp only [uploadFile, hopen, hstat, hmd5]
        · intro _
          exact ⟨by simp, rfl⟩
        · intro file1 size1 md5Str h1 _ h3
          cases h1
          rw [hmd5] at h3
          cases h3
      | ok md5Str =>
        obtain ⟨res, hres, hall, hfirst⟩ := uploadFile_spec lib version conf fileDir file size
          md5Str hopen hstat hmd5
        refine ⟨res, hres, ?_, ?_⟩
        · intro hno
          exact absurd ⟨file, size, md5Str, rfl, hstat, hmd5⟩ hno
        · intro file1 size1 md5Str1 h1 h2 h3
          cases h1
          rw [hstat] at h2
          cases h2
          rw [hmd5] at h3
          cases h3
          refine ⟨⟨?_, ?_⟩, ?_⟩
          · intro hok
            by_cases hacc : ∀ i < chunkCount size.toNat,
                chunkAccepted (chunkAnswer lib version conf fileDir file size md5Str i) = true
            · refine ⟨?_, hacc⟩
              rw [hall hacc]
            · exfalso
              have hex : ∃ i, i < chunkCount size.toNat ∧
                  chunkAccepted (chunkAnswer lib version conf fileDir file size md5Str i)
                    = false := by
                by_contra hne
                apply hacc
                intro i hi
                cases hc : chunkAccepted
                    (chunkAnswer lib version conf fileDir file size md5Str i) with
                | true => rfl
                | false => exact absurd ⟨i, hi, hc⟩ hne
              have hmin : ∀ {j : Nat}, j < Nat.find hex → ¬ (j < chunkCount size.toNat ∧
                  chunkAccepted (chunkAnswer lib version conf fileDir file size md5Str j)
                    = false) :=
                fun hj => Nat.find_min hex hj
              obtain ⟨hlt, hrej⟩ := Nat.find_spec hex
              have hprev : ∀ j < Nat.find hex,
                  chunkAccepted (chunkAnswer lib version conf fileDir file size md5Str j)
                    = true := by
                intro j hj
                cases hc : chunkAccepted
                    (chunkAnswer lib version conf fileDir file size md5Str j) with
                | true => rfl
                | false => exact absurd ⟨lt_trans hj hlt, hc⟩ (hmin hj)
              exact (hfirst _ hlt hprev hrej).1 hok
          · rintro ⟨_, hacc⟩
            rw [hall hacc]
          · intro i hi hprev hrej
            obtain ⟨he, hp⟩ := hfirst i hi hprev hrej
            refine ⟨he, hp, ?_⟩
            rw [hp, chunkRequests_length]
            split_ifs <;> omega

theorem uploadFile_succeeds_iff_all_accepted_witness :
    chunkCount (2097154 : Int).toNat = 3 ∧
    chunkAccepted (chunkAnswer (sampleUploadLib sampleFile secondRejected) "v1"
      (sampleConfig 3 true) samplePath ⟨samplePath⟩ 2097154
      "5289df737df57326fcdd22597afb1fac" 0) = true ∧
    chunkAccepted (chunkAnswer (sampleUploadLib sampleFile secondRejected) "v1"
      (sampleConfig 3 true) samplePath ⟨samplePath⟩ 2097154
      "5289df737df57326fcdd22597afb1fac" 1) = false ∧
    (uploadFile (sampleUploadLib sampleFile secondRejected) "v1" (sampleConfig 3 true)
        samplePath).map (fun res => (res.err, res.posted.map (fun r => (r.Start, r.End))))
      = some (some "uploadFile failed:", [(0, 1048576), (1048576, 2097152)]) ∧
    ∃ res, uploadFile (sampleUploadLib sampleFile secondRejected) "v1" (sampleConfig 3 true)
        samplePath = some res ∧
      ((¬ ∃ file size md5Str,
          (sampleUploadLib sampleFile secondRejected).osOpen samplePath = .ok file ∧
          (sampleUploadLib sampleFile secondRejected).fileStat file = .ok size ∧
          fileMD5 (sampleUploadLib sampleFile secondRejected) file = .ok md5Str) →
        res.err ≠ none ∧ res.posted = []) ∧
      (∀ file size md5Str,
        (sampleUploadLib sampleFile secondRejected).osOpen samplePath = .ok file →
        (sampleUploadLib sampleFile secondRejected).fileStat file = .ok size →
        fileMD5 (sampleUploadLib sampleFile secondRejected) file = .ok md5Str →
        (res.err = none ↔
          (res.posted = chunkRequests (sampleUploadLib sampleFile secondRejected) "v1"
              (sampleConfig 3 true) samplePath file size md5Str (chunkCount size.toNat) ∧
            ∀ i < chunkCount size.toNat,
              chunkAccepted (chunkAnswer (sampleUploadLib sampleFile secondRejected) "v1"
                (sampleConfig 3 true) samplePath file size md5Str i) = true)) ∧
        (∀ i < chunkCount size.toNat,
          (∀ j < i,
            chunkAccepted (chunkAnswer (sampleUploadLib sampleFile secondRejected) "v1"
              (sampleConfig 3 true) samplePath file size md5Str j) = true) →
          chunkAccepted (chunkAnswer (sampleUploadLib sampleFile secondRejected) "v1"
            (sampleConfig 3 true) samplePath file size md5Str i) = false →
          res.err ≠ none ∧
            res.posted = chunkRequests (sampleUploadLib sampleFile secondRejected) "v1"
              (sampleConfig 3 true) samplePath file size md5Str
              (if chunkSent (sampleUploadLib sampleFile secondRejected) "v1"
                  (sampleConfig 3 true) samplePath file size md5Str i = true
               then i + 1 else i) ∧
            res.posted.length ≤ i + 1)) :=
  ⟨rfl, rfl, rfl, rfl,
    uploadFile_succeeds_iff_all_accepted (sampleUploadLib sampleFile secondRejected) "v1"
      (sampleConfig 3 true) samplePath⟩

/-- A read that fails: the first chunk is read and accepted, `ReadAt` fails on
the second, and uploadFile returns the read error having sent one request. -/
theorem uploadFile_read_error_stops :
    (uploadFile unreadableLib "v1" (sampleConfig 3 true) samplePath).map
        (fun res => (res.err, res.posted.map (fun r => (r.Start, r.End))))
      = some (some "uploadFile read file error: input/output error", [(0, 1048576)]) := by
  rfl

/-! ## processPath -/

/-- Every effect of the scan loop that was not there before is an upload or a
remove of an entry that is a file and whose name is not the base name of the
printer's file. -/
theorem scanLoop_actions (lib : ScanLib) (fileDir : String) (logPrinter : Option printer) :
    ∀ (files : List DirEntry) (st : ScanState) (a : FsAction),
      a ∈ (scanLoop lib fileDir logPrinter files st).actions →
      a ∈ st.actions ∨
        ∃ p e, logPrinter = some p ∧ e ∈ files ∧ e.Name ≠ lib.base p.conf.filename ∧
          e.IsDir = false ∧
          ∃ err, a = .upload (lib.join fileDir e.Name) err ∨
            a = .remove (lib.join fileDir e.Name) err := by
  intro files
  induction files with
  | nil =>
    intro st a h
    exact Or.inl h
  | cons file files ih =>
    intro st a h
    cases logPrinter with
    | none => exact Or.inl h
    | some p =>
      have lift : ∀ st1 : ScanState,
          (∀ x ∈ st1.actions, x ∈ st.actions ∨
            (file.Name ≠ lib.base p.conf.filename ∧ file.IsDir = false ∧
              ∃ err, x = .upload (lib.join fileDir file.Name) err ∨
                x = .remove (lib.join fileDir file.Name) err)) →
          a ∈ (scanLoop lib fileDir (some p) files st1).actions →
          a ∈ st.actions ∨
            ∃ q e, some p = some q ∧ e ∈ file :: files ∧ e.Name ≠ lib.base q.conf.filename ∧
              e.IsDir = false ∧
              ∃ err, a = .upload (lib.join fileDir e.Name) err ∨
                a = .remove (lib.join fileDir e.Name) err := by
        intro st1 hst1 ha
        rcases ih st1 a ha with h1 | ⟨q, e, hq, he, hne, hdir, herr⟩
        · rcases hst1 a h1 with h2 | ⟨hne, hdir, herr⟩
          · exact Or.inl h2
          · exact Or.inr ⟨p, file, rfl, List.mem_cons_self _ _, hne, hdir, herr⟩
        · exact Or.inr ⟨q, e, hq, List.mem_cons_of_mem _ he, hne, hdir, herr⟩
      unfold scanLoop at h
      simp only at h
      split at h
      · exact lift { st with dir := st.dir ++ [file] } (fun x hx => Or.inl hx) h
      · rename_i hname
        split at h
        · rename_i hfile
          have hdir : file.IsDir = false := by simpa using hfile
          split at h
          · rename_i err hup
            simp only [List.mem_append, List.mem_singleton] at h
            rcases h with h | h
            · exact Or.inl h
            · exact Or.inr ⟨p, file, rfl, List.mem_cons_self _ _, hname, hdir, _, Or.inl h⟩
          · split at h
            · rename_i err hrm
              simp only [List.mem_append, List.mem_singleton] at h
              rcases h with (h | h) | h
              · exact Or.inl h
              · exact Or.inr ⟨p, file, rfl, List.mem_cons_self _ _, hname, hdir, _, Or.inl h⟩
              · exact Or.inr ⟨p, file, rfl, List.mem_cons_self _ _, hname, hdir, _, Or.inr h⟩
            · refine lift _ ?_ h
              intro x hx
              simp only [List.mem_append, List.mem_singleton] at hx
              rcases hx with (hx | hx) | hx
              · exact Or.inl hx
              · exact Or.inr ⟨hname, hdir, _, Or.inl hx⟩
              · exact Or.inr ⟨hname, hdir, _, Or.inr hx⟩
        · exact lift { st with dir := st.dir ++ [file] } (fun x hx => Or.inl hx) h

/-- An entry named like the printer's file stays in the directory through the
scan loop. -/
theorem scanLoop_keeps_target (lib : ScanLib) (fileDir : String) (p : printer) :
    ∀ (files : List DirEntry) (st : ScanState) (e : DirEntry),
      e.Name = lib.base p.conf.filename → (e ∈ st.dir ∨ e ∈ files) →
      e ∈ (scanLoop lib fileDir (some p) files st).dir := by
  intro files
  induction files with
  | nil =>
    intro st e _ h
    rcases h with h | h
    · exact h
    · cases h
  | cons file files ih =>
    intro st e hname h
    have hmem : e ∈ st.dir ++ file :: files := by
      rcases h with h | h
      · exact List.mem_append_left _ h
      · exact List.mem_append_right _ h
    have hkeep : e ∈ st.dir ++ [file] ∨ e ∈ files := by
      rcases h with h | h
      · exact Or.inl (List.mem_append_left _ h)
      · rcases List.mem_cons.mp h with h | h
        · exact Or.inl (List.mem_append_right _ (by simp [h]))
        · exact Or.inr h
    unfold scanLoop
    simp only
    split
    · exact ih _ e hname hkeep
    · rename_i hne
      have hdrop : e ∈ st.dir ∨ e ∈ files := by
        rcases h with h | h
        · exact Or.inl h
        · rcases List.mem_cons.mp h with h | h
          · exact absurd (h ▸ hname) hne
          · exact Or.inr h
      split
      · split
        · exact hmem
        · split
          · exact hmem
          · exact ih _ e hname hdrop
      · exact ih _ e hname hkeep

/-- C10: whatever the directory lists and however the uploads and removes turn
out, every upload and every remove of processPath is on an entry that is a
file and whose name differs from the base name of the printer's file (the
active write target); so, names joining to different paths, the path of the
active target is never uploaded and never removed, and an entry with that name
is still in the directory after the scan. -/
theorem processPath_never_touches_active_target {D : Type} (lib : ScanLib)
    (c : SDBatchConsumer D) :
    (∀ a ∈ (processPath lib c).actions,
      ∃ p files e, c.logPrinter = some p ∧ lib.readDir c.conf.TempDir = .ok files ∧
        e ∈ files ∧ e.Name ≠ lib.base p.conf.filename ∧ e.IsDir = false ∧
        ∃ err, a = .upload (lib.join c.conf.TempDir e.Name) err ∨
          a = .remove (lib.join c.conf.TempDir e.Name) err) ∧
    (∀ p, c.logPrinter = some p →
      (∀ n1 n2, lib.join c.conf.TempDir n1 = lib.join c.conf.TempDir n2 → n1 = n2) →
      ∀ err,
        FsAction.upload (lib.join c.conf.TempDir (lib.base p.conf.filename)) err
            ∉ (processPath lib c).actions ∧
        FsAction.remove (lib.join c.conf.TempDir (lib.base p.conf.filename)) err
            ∉ (processPath lib c).actions) ∧
    (∀ p files e, c.logPrinter = some p → lib.stat c.conf.TempDir = .ok true →
      lib.readDir c.conf.TempDir = .ok files → e ∈ files →
      e.Name = lib.base p.conf.filename → e ∈ (processPath lib c).dir) := by
  have hfirst : ∀ a ∈ (processPath lib c).actions,
      ∃ p files e, c.logPrinter = some p ∧ lib.readDir c.conf.TempDir = .ok files ∧
        e ∈ files ∧ e.Name ≠ lib.base p.conf.filename ∧ e.IsDir = false ∧
        ∃ err, a = .upload (lib.join c.conf.TempDir e.Name) err ∨
          a = .remove (lib.join c.conf.TempDir e.Name) err := by
    intro a ha
    unfold processPath at ha
    simp only at ha
    split at ha
    · cases ha
    · split at ha
      · split at ha
        · cases ha
        · rename_i files hfiles
          rcases scanLoop_actions lib c.conf.TempDir c.logPrinter files ⟨[], [], false⟩ a ha
            with h | ⟨p, e, hp, he, hne, hdir, herr⟩
          · cases h
          · exact ⟨p, files, e, hp, hfiles, he, hne, hdir, herr⟩
      · cases ha
  refine ⟨hfirst, ?_, ?_⟩
  · intro p hp hinj err
    constructor
    · intro hmem
      obtain ⟨q, files, e, hq, _, _, hne, _, err1, h | h⟩ := hfirst _ hmem
      · rw [hp] at hq
        cases hq
        injection h with hpath _
        exact hne (hinj _ _ hpath).symm
      · cases h
    · intro hmem
      obtain ⟨q, files, e, hq, _, _, hne, _, err1, h | h⟩ := hfirst _ hmem
      · cases h
      · rw [hp] at hq
        cases hq
        injection h with hpath _
        exact hne (hinj _ _ hpath).symm
  · intro p files e hp hstat hfiles he hname
    unfold processPath
    simp only [hstat, hfiles, hp, if_true]
    exact scanLoop_keeps_target lib c.conf.TempDir p files ⟨[], [], false⟩ e hname (Or.inr he)

theorem processPath_never_touches_active_target_witness :
    (processPath sampleScanLib (sampleConsumer [] 3 true)).actions
      = [.upload "/tmp/spool/app1-logback-2024.log.gz" none,
         .remove "/tmp/spool/app1-logback-2024.log.gz" none] ∧
    (processPath sampleScanLib (sampleConsumer [] 3 true)).dir
      = [⟨"app1-logback.log", false⟩, ⟨"old", true⟩] ∧
    ((∀ a ∈ (processPath sampleScanLib (sampleConsumer [] 3 true)).actions,
      ∃ p files e, (sampleConsumer [] 3 true).logPrinter = some p ∧
        sampleScanLib.readDir (sampleConsumer [] 3 true).conf.TempDir = .ok files ∧
        e ∈ files ∧ e.Name ≠ sampleScanLib.base p.conf.filename ∧ e.IsDir = false ∧
        ∃ err, a = .upload (sampleScanLib.join (sampleConsumer [] 3 true).conf.TempDir e.Name) err ∨
          a = .remove (sampleScanLib.join (sampleConsumer [] 3 true).conf.TempDir e.Name) err) ∧
    (∀ p, (sampleConsumer [] 3 true).logPrinter = some p →
      (∀ n1 n2, sampleScanLib.join (sampleConsumer [] 3 true).conf.TempDir n1
        = sampleScanLib.join (sampleConsumer [] 3 true).conf.TempDir n2 → n1 = n2) →
      ∀ err,
        FsAction.upload (sampleScanLib.join (sampleConsumer [] 3 true).conf.TempDir
            (sampleScanLib.base p.conf.filename)) err
            ∉ (processPath sampleScanLib (sampleConsumer [] 3 true)).actions ∧
        FsAction.remove (sampleScanLib.join (sampleConsumer [] 3 true).conf.TempDir
            (sampleScanLib.base p.conf.filename)) err
            ∉ (processPath sampleScanLib (sampleConsumer [] 3 true)).actions) ∧
    (∀ p files e, (sampleConsumer [] 3 true).logPrinter = some p →
      sampleScanLib.stat (sampleConsumer [] 3 true).conf.TempDir = .ok true →
      sampleScanLib.readDir (sampleConsumer [] 3 true).conf.TempDir = .ok files → e ∈ files →
      e.Name = sampleScanLib.base p.conf.filename →
      e ∈ (processPath sampleScanLib (sampleConsumer [] 3 true)).dir)) :=
  ⟨by decide, by decide,
    processPath_never_touches_active_target sampleScanLib (sampleConsumer [] 3 true)⟩

/-! ## SafeList -/

theorem popFrontN_all {α : Type} (l : List α) :
    popFrontN l.length (⟨l⟩ : SafeList α) = (l.map some, ⟨[]⟩) := by
  induction l with
  | nil => rfl
  | cons x xs ih =>
    simp only [List.length_cons, popFrontN, SafeList.PopFront, ih, List.map_cons]

/-- C15: for a SafeList holding x1..xn from front to back and any item y, after
PushBack(y) the next n+1 calls of PopFront return x1, ..., xn, y in that
order, each with found = true, and leave the list empty. -/
theorem SafeList_pushBack_then_popFront_fifo {α : Type} (sl : SafeList α) (y : α) :
    popFrontN (sl.list.length + 1) (sl.PushBack y)
      = ((sl.list ++ [y]).map some, ⟨[]⟩) := by
  have h := popFrontN_all (sl.list ++ [y])
  rw [List.length_append, List.length_singleton] at h
  exact h

/-- C16: PopFront on an empty SafeList returns (nil, false) and leaves the list
empty with Len() = 0; on a non-empty list it returns the front item with
found = true and leaves a list whose Len() is smaller by exactly one. -/
theorem SafeList_popFront_len {α : Type} (sl : SafeList α) :
    (sl.Len = 0 →
      sl.PopFront = (none, sl) ∧ (sl.PopFront).2.list = [] ∧ (sl.PopFront).2.Len = 0) ∧
    (sl.Len ≠ 0 →
      ∃ front rest, sl.list = front :: rest ∧ sl.PopFront = (some front, ⟨rest⟩) ∧
        (sl.PopFront).2.Len = sl.Len - 1) := by
  cases sl with
  | mk l =>
    cases l with
    | nil =>
      refine ⟨fun _ => ⟨rfl, rfl, rfl⟩, fun h => absurd rfl h⟩
    | cons x xs =>
      refine ⟨fun h => ?_, fun _ => ⟨x, xs, rfl, rfl, ?_⟩⟩
      · simp only [SafeList.Len, List.length_cons] at h
        omega
      · simp only [SafeList.Len, SafeList.PopFront, List.length_cons]
        omega

theorem SafeList_popFront_len_witness :
    ((NewSafeList : SafeList Nat).Len = 0 ∧
      (NewSafeList : SafeList Nat).PopFront = (none, NewSafeList) ∧
      ((NewSafeList : SafeList Nat).PopFront).2.list = [] ∧
      ((NewSafeList : SafeList Nat).PopFront).2.Len = 0) ∧
    ((⟨[4, 5]⟩ : SafeList Nat).Len ≠ 0 ∧
      ∃ front rest, (⟨[4, 5]⟩ : SafeList Nat).list = front :: rest ∧
        (⟨[4, 5]⟩ : SafeList Nat).PopFront = (some front, ⟨rest⟩) ∧
        ((⟨[4, 5]⟩ : SafeList Nat).PopFront).2.Len = (⟨[4, 5]⟩ : SafeList Nat).Len - 1) :=
  ⟨⟨rfl, (SafeList_popFront_len (NewSafeList : SafeList Nat)).1 rfl⟩,
    ⟨by decide, (SafeList_popFront_len (⟨[4, 5]⟩ : SafeList Nat)).2 (by decide)⟩⟩

/-! ## The flush loop -/

theorem writeFile_counters {D : Type} (c : SDBatchConsumer D) (data : Bytes) :
    (writeFile c data).watchFlushForce = c.watchFlushForce ∧
    (writeFile c data).watchFlush = c.watchFlush := by
  unfold writeFile
  cases c.logPrinter <;> exact ⟨rfl, rfl⟩

theorem sendLoop_counters {D : Type} (tx : Transmitter) (params : Bytes) (size : Int) :
    ∀ (is : List Nat) (c : SDBatchConsumer D),
      (sendLoop tx params size is c).2.watchFlushForce = c.watchFlushForce ∧
      (sendLoop tx params size is c).2.watchFlush = c.watchFlush := by
  intro is
  induction is with
  | nil => intro c; exact ⟨rfl, rfl⟩
  | cons i is ih =>
    intro c
    unfold sendLoop
    simp only [callSend]
    cases tx c.sends params size with
    | none => exact ⟨rfl, rfl⟩
    | some err =>
      by_cases h2 : i = 2
      · simp only [h2, if_true]
        exact writeFile_counters _ params
      · simp only [h2, if_false]
        exact ih _

/-- The retry loop over i = 0, 1, 2 always leaves through one of its `return`
statements: it never runs to its end. -/
theorem sendLoop_three_returns {D : Type} (tx : Transmitter) (params : Bytes) (size : Int)
    (c : SDBatchConsumer D) :
    ∃ ret c1, sendLoop tx params size (List.range 3) c = (some ret, c1) := by
  have hr : List.range 3 = [0, 1, 2] := by decide
  rw [hr]
  simp only [sendLoop, callSend]
  cases tx c.sends params size with
  | none => exact ⟨_, _, rfl⟩
  | some e1 =>
    have h0 : ¬ ((0 : Nat) = 2) := by decide
    simp only [h0, if_false]
    cases tx (c.sends ++ [(params, size)]) params size with
    | none => exact ⟨_, _, rfl⟩
    | some e2 =>
      have h1 : ¬ ((1 : Nat) = 2) := by decide
      simp only [h1, if_false]
      cases tx (c.sends ++ [(params, size)] ++ [(params, size)]) params size with
      | none => exact ⟨_, _, rfl⟩
      | some e3 => exact ⟨_, _, rfl⟩

/-- One call of innerFlush returns without using its trailing recursive call,
and leaves both flush counters as they were. -/
theorem innerFlush_returns {D : Type} (jsonMarshal : D → Except GoError Bytes)
    (parseTime : Bytes → Bytes) (tx : Transmitter) (force : Bool) (fuel : Nat)
    (c : SDBatchConsumer D) :
    ∃ err c1, innerFlush jsonMarshal parseTime tx force (fuel + 1) c = some (err, c1) ∧
      c1.watchFlushForce = c.watchFlushForce ∧ c1.watchFlush = c.watchFlush := by
  unfold innerFlush
  split
  · exact ⟨_, _, rfl, rfl, rfl⟩
  · split
    · exact ⟨_, _, rfl, rfl, rfl⟩
    · split
      · rename_i err c1 hpack
        have hc : c1 = (pack jsonMarshal c).2 := by rw [hpack]
        exact ⟨_, _, rfl, by rw [hc]; rfl, by rw [hc]; rfl⟩
      · rename_i b size c1 hpack
        have hc : c1 = (pack jsonMarshal c).2 := by rw [hpack]
        obtain ⟨ret, c3, hloop⟩ := sendLoop_three_returns tx (parseTime b) size
          { c1 with countSend := c1.countSend + size }
        have hcnt := sendLoop_counters tx (parseTime b) size (List.range 3)
          { c1 with countSend := c1.countSend + size }
        rw [hloop] at hcnt
        simp only [hloop]
        refine ⟨_, _, rfl, ?_, ?_⟩
        · rw [hcnt.1, hc]; rfl
        · rw [hcnt.2, hc]; rfl

/-- C20: in an iteration of the flush loop that takes the default case, with
forced counter f and soft counter s (both never negative) read at its start:
the iteration calls innerFlush(true) iff f > 0, calls innerFlush(false) iff
f = 0 and s > 0, and idles iff both are 0; the goroutine does not return, and
both counters are 0 when the iteration ends. -/
theorem flushLoopIter_default_dispatch {D : Type} (jsonMarshal : D → Except GoError Bytes)
    (parseTime : Bytes → Bytes) (tx : Transmitter) (fuel : Nat) (c : SDBatchConsumer D)
    (hf : 0 ≤ c.watchFlushForce) (hs : 0 ≤ c.watchFlush) :
    ∃ step, flushLoopIter jsonMarshal parseTime tx (fuel + 1) .default c = some step ∧
      step.returned = false ∧
      (step.action = .forcedFlush ↔ c.watchFlushForce > 0) ∧
      (step.action = .softFlush ↔ c.watchFlushForce = 0 ∧ c.watchFlush > 0) ∧
      (step.action = .idle ↔ c.watchFlushForce = 0 ∧ c.watchFlush = 0) ∧
      (step.action = .forcedFlush →
        ∃ err, innerFlush jsonMarshal parseTime tx true (fuel + 1)
          { c with watchFlushForce := 0, watchFlush := 0 } = some (err, step.c)) ∧
      (step.action = .softFlush →
        ∃ err, innerFlush jsonMarshal parseTime tx false (fuel + 1)
          { c with watchFlushForce := 0, watchFlush := 0 } = some (err, step.c)) ∧
      (step.action = .idle → step.c = { c with watchFlushForce := 0, watchFlush := 0 }) ∧
      step.c.watchFlushForce = 0 ∧ step.c.watchFlush = 0 := by
  by_cases hforce : c.watchFlushForce > 0
  · obtain ⟨err, c1, hflush, h1, h2⟩ := innerFlush_returns jsonMarshal parseTime tx true fuel
      { c with watchFlushForce := 0, watchFlush := 0 }
    refine ⟨⟨false, .forcedFlush, c1⟩, ?_, rfl, ?_, ?_, ?_, ?_, ?_, ?_, h1, h2⟩
    · simp only [flushLoopIter, hforce, if_true, hflush]
    · exact ⟨fun _ => hforce, fun _ => rfl⟩
    · exact ⟨fun h => (by cases h), fun h => by omega⟩
    · exact ⟨fun h => (by cases h), fun h => by omega⟩
    · exact fun _ => ⟨err, hflush⟩
    · exact fun h => by cases h
    · exact fun h => by cases h
  · by_cases hsoft : c.watchFlush > 0
    · obtain ⟨err, c1, hflush, h1, h2⟩ := innerFlush_returns jsonMarshal parseTime tx false fuel
        { c with watchFlushForce := 0, watchFlush := 0 }
      refine ⟨⟨false, .softFlush, c1⟩, ?_, rfl, ?_, ?_, ?_, ?_, ?_, ?_, h1, h2⟩
      · simp only [flushLoopIter, hforce, hsoft, if_true, if_false, hflush]
      · exact ⟨fun h => (by cases h), fun h => absurd h hforce⟩
      · exact ⟨fun _ => ⟨by omega, hsoft⟩, fun _ => rfl⟩
      · exact ⟨fun h => (by cases h), fun h => by omega⟩
      · exact fun h => by cases h
      · exact fun _ => ⟨err, hflush⟩
      · exact fun h => by cases h
    · refine ⟨⟨false, .idle, { c with watchFlushForce := 0, watchFlush := 0 }⟩,
        ?_, rfl, ?_, ?_, ?_, ?_, ?_, ?_, rfl, rfl⟩
      · simp only [flushLoopIter, hforce, hsoft, if_false]
      · exact ⟨fun h => (by cases h), fun h => absurd h hforce⟩
      · exact ⟨fun h => (by cases h), fun h => absurd h.2 hsoft⟩
      · exact ⟨fun _ => ⟨by omega, by omega⟩, fun _ => rfl⟩
      · exact fun h => by cases h
      · exact fun h => by cases h
      · exact fun _ => rfl

theorem flushLoopIter_default_dispatch_witness :
    (0 ≤ (Flush (sampleConsumer [1, 2] 3 false)).2.watchFlushForce) ∧
    (0 ≤ (Flush (sampleConsumer [1, 2] 3 false)).2.watchFlush) ∧
    ∃ step, flushLoopIter sampleMarshal id succeedingTransmitter 1 .default
        (Flush (sampleConsumer [1, 2] 3 false)).2 = some step ∧
      step.returned = false ∧
      (step.action = .forcedFlush ↔ (Flush (sampleConsumer [1, 2] 3 false)).2.watchFlushForce > 0) ∧
      (step.action = .softFlush ↔
        (Flush (sampleConsumer [1, 2] 3 false)).2.watchFlushForce = 0 ∧
          (Flush (sampleConsumer [1, 2] 3 false)).2.watchFlush > 0) ∧
      (step.action = .idle ↔
        (Flush (sampleConsumer [1, 2] 3 false)).2.watchFlushForce = 0 ∧
          (Flush (sampleConsumer [1, 2] 3 false)).2.watchFlush = 0) ∧
      (step.action = .forcedFlush →
        ∃ err, innerFlush sampleMarshal id succeedingTransmitter true 1
          { (Flush (sampleConsumer [1, 2] 3 false)).2 with watchFlushForce := 0, watchFlush := 0 }
            = some (err, step.c)) ∧
      (step.action = .softFlush →
        ∃ err, innerFlush sampleMarshal id succeedingTransmitter false 1
          { (Flush (sampleConsumer [1, 2] 3 false)).2 with watchFlushForce := 0, watchFlush := 0 }
            = some (err, step.c)) ∧
      (step.action = .idle →
        step.c = { (Flush (sampleConsumer [1, 2] 3 false)).2 with
          watchFlushForce := 0, watchFlush := 0 }) ∧
      step.c.watchFlushForce = 0 ∧ step.c.watchFlush = 0 :=
  ⟨by decide, by decide,
    flushLoopIter_default_dispatch sampleMarshal id succeedingTransmitter 0
      (Flush (sampleConsumer [1, 2] 3 false)).2 (by decide) (by decide)⟩

/-- C13 at a failing input: constructed with a spool directory and interval 0,
the consumer makes its main ticker with 30 seconds while the directory watcher
makes its own with `c.conf.Interval`, which is still 0, a duration of zero
(one that `time.NewTicker` refuses); with interval 5 both are 5 seconds. -/
theorem NewBatchConsumer_watcher_uses_configured_interval :
    ∃ c c5 : SDBatchConsumer Nat,
      NewBatchConsumer (fun dir => .ok dir) { sampleConfig 3 true with Interval := 0 } = .ok c ∧
      c.conf.Interval = 0 ∧ c.ticker = 30 * Second ∧ c.dirTicker = some 0 ∧
      NewBatchConsumer (fun dir => .ok dir) { sampleConfig 3 true with Interval := 5 } = .ok c5 ∧
      c5.ticker = 5 * Second ∧ c5.dirTicker = some (5 * Second) := by
  refine ⟨_, _, rfl, ?_, ?_, ?_, rfl, ?_, ?_⟩ <;> rfl

theorem scanLoop_skip (lib : ScanLib) (fileDir : String) (p : printer) (file : DirEntry)
    (files : List DirEntry) (st : ScanState)
    (h : file.Name = lib.base p.conf.filename ∨ file.IsDir = true) :
    scanLoop lib fileDir (some p) (file :: files) st
      = scanLoop lib fileDir (some p) files { st with dir := st.dir ++ [file] } := by
  conv => lhs; unfold scanLoop
  by_cases hname : file.Name = lib.base p.conf.filename
  · simp only [hname, if_true]
  · rcases h with h | h
    · exact absurd h hname
    · simp [hname, h]

theorem scanLoop_upload_failed (lib : ScanLib) (fileDir : String) (p : printer)
    (file : DirEntry) (files : List DirEntry) (st : ScanState) (err : GoError)
    (hname : file.Name ≠ lib.base p.conf.filename) (hfile : file.IsDir = false)
    (hup : lib.upload st.actions (lib.join fileDir file.Name) = some err) :
    scanLoop lib fileDir (some p) (file :: files) st
      = { st with actions := st.actions ++ [.upload (lib.join fileDir file.Name) (some err)],
                  dir := st.dir ++ file :: files } := by
  conv => lhs; unfold scanLoop
  simp [hname, hfile, hup]

theorem scanLoop_remove_failed (lib : ScanLib) (fileDir : String) (p : printer)
    (file : DirEntry) (files : List DirEntry) (st : ScanState) (err : GoError)
    (hname : file.Name ≠ lib.base p.conf.filename) (hfile : file.IsDir = false)
    (hup : lib.upload st.actions (lib.join fileDir file.Name) = none)
    (hrm : lib.remove (st.actions ++ [.upload (lib.join fileDir file.Name) none])
      (lib.join fileDir file.Name) = some err) :
    scanLoop lib fileDir (some p) (file :: files) st
      = { st with actions := st.actions ++ [.upload (lib.join fileDir file.Name) none,
                    .remove (lib.join fileDir file.Name) (some err)],
                  dir := st.dir ++ file :: files } := by
  conv => lhs; unfold scanLoop
  simp [hname, hfile, hup, hrm]

theorem scanLoop_uploaded_removed (lib : ScanLib) (fileDir : String) (p : printer)
    (file : DirEntry) (files : List DirEntry) (st : ScanState)
    (hname : file.Name ≠ lib.base p.conf.filename) (hfile : file.IsDir = false)
    (hup : lib.upload st.actions (lib.join fileDir file.Name) = none)
    (hrm : lib.remove (st.actions ++ [.upload (lib.join fileDir file.Name) none])
      (lib.join fileDir file.Name) = none) :
    scanLoop lib fileDir (some p) (file :: files) st
      = scanLoop lib fileDir (some p) files
          { st with actions := st.actions ++ [.upload (lib.join fileDir file.Name) none,
                      .remove (lib.join fileDir file.Name) none] } := by
  conv => lhs; unfold scanLoop
  simp [hname, hfile, hup, hrm]

/-- The four ways the scan loop can treat an entry. -/
theorem scanLoop_cases (lib : ScanLib) (fileDir : String) (p : printer) (file : DirEntry)
    (st : ScanState) :
    (file.Name = lib.base p.conf.filename ∨ file.IsDir = true) ∨
    (file.Name ≠ lib.base p.conf.filename ∧ file.IsDir = false ∧
      ((∃ err, lib.upload st.actions (lib.join fileDir file.Name) = some err) ∨
       (lib.upload st.actions (lib.join fileDir file.Name) = none ∧
         ∃ err, lib.remove (st.actions ++ [.upload (lib.join fileDir file.Name) none])
           (lib.join fileDir file.Name) = some err) ∨
       (lib.upload st.actions (lib.join fileDir file.Name) = none ∧
         lib.remove (st.actions ++ [.upload (lib.join fileDir file.Name) none])
           (lib.join fileDir file.Name) = none))) := by
  by_cases hname : file.Name = lib.base p.conf.filename
  · exact Or.inl (Or.inl hname)
  · cases hdir : file.IsDir with
    | true => exact Or.inl (Or.inr rfl)
    | false =>
      refine Or.inr ⟨hname, rfl, ?_⟩
      cases hup : lib.upload st.actions (lib.join fileDir file.Name) with
      | some err => exact Or.inl ⟨err, rfl⟩
      | none =>
        cases hrm : lib.remove (st.actions ++ [.upload (lib.join fileDir file.Name) none])
            (lib.join fileDir file.Name) with
        | some err => exact Or.inr (Or.inl ⟨rfl, err, rfl⟩)
        | none => exact Or.inr (Or.inr ⟨rfl, rfl⟩)

/-- The effects of the scan loop extend those before it by a list of the
shape `ScanTrace`. -/
theorem scanLoop_trace (lib : ScanLib) (fileDir : String) (logPrinter : Option printer) :
    ∀ (files : List DirEntry) (st : ScanState),
      ∃ l, (scanLoop lib fileDir logPrinter files st).actions = st.actions ++ l ∧
        ScanTrace l := by
  intro files
  induction files with
  | nil =>
    intro st
    exact ⟨[], by simp [scanLoop], .done⟩
  | cons file files ih =>
    intro st
    cases logPrinter with
    | none => exact ⟨[], by simp [scanLoop], .done⟩
    | some p =>
      rcases scanLoop_cases lib fileDir p file st with
        hskip | ⟨hname, hfile, ⟨err, hup⟩ | ⟨hup, err, hrm⟩ | ⟨hup, hrm⟩⟩
      · rw [scanLoop_skip lib fileDir p file files st hskip]
        exact ih _
      · rw [scanLoop_upload_failed lib fileDir p file files st err hname hfile hup]
        exact ⟨_, rfl, .uploadFailed _ _⟩
      · rw [scanLoop_remove_failed lib fileDir p file files st err hname hfile hup hrm]
        exact ⟨_, rfl, .removeFailed _ _⟩
      · rw [scanLoop_uploaded_removed lib fileDir p file files st hname hfile hup hrm]
        obtain ⟨l, hl, htr⟩ := ih
          { st with actions := st.actions ++ [.upload (lib.join fileDir file.Name) none,
              .remove (lib.join fileDir file.Name) none] }
        refine ⟨.upload (lib.join fileDir file.Name) none ::
          .remove (lib.join fileDir file.Name) none :: l, ?_, .step _ l htr⟩
        rw [hl]
        simp

theorem ScanTrace_remove_after_upload (l : List FsAction) (h : ScanTrace l) :
    ∀ i path err, l[i]? = some (.remove path err) →
      ∃ j, i = j + 1 ∧ l[j]? = some (.upload path none) := by
  induction h with
  | done =>
    intro i path err hi
    simp at hi
  | uploadFailed p e =>
    intro i path err hi
    rcases i with _ | k <;> simp at hi
  | removeFailed p e =>
    intro i path err hi
    rcases i with _ | _ | k
    · simp at hi
    · simp only [List.getElem?_cons_succ, List.getElem?_cons_zero, Option.some.injEq,
        FsAction.remove.injEq] at hi
      exact ⟨0, rfl, by simp [hi.1]⟩
    · simp at hi
  | step p rest _ ih =>
    intro i path err hi
    rcases i with _ | _ | k
    · simp at hi
    · simp only [List.getElem?_cons_succ, List.getElem?_cons_zero, Option.some.injEq,
        FsAction.remove.injEq] at hi
      exact ⟨0, rfl, by simp [hi.1]⟩
    · simp only [List.getElem?_cons_succ] at hi
      obtain ⟨j, hj, hjl⟩ := ih k path err hi
      exact ⟨j + 2, by omega, by simpa using hjl⟩

theorem ScanTrace_failed_last (l : List FsAction) (h : ScanTrace l) :
    ∀ i a, l[i]? = some a → a.failed = true → i + 1 = l.length := by
  induction h with
  | done =>
    intro i a hi
    simp at hi
  | uploadFailed p e =>
    intro i a hi _
    rcases i with _ | k
    · rfl
    · simp at hi
  | removeFailed p e =>
    intro i a hi hf
    rcases i with _ | _ | k
    · simp only [List.getElem?_cons_zero, Option.some.injEq] at hi
      rw [← hi] at hf
      simp [FsAction.failed] at hf
    · rfl
    · simp at hi
  | step p rest _ ih =>
    intro i a hi hf
    rcases i with _ | _ | k
    · simp only [List.getElem?_cons_zero, Option.some.injEq] at hi
      rw [← hi] at hf
      simp [FsAction.failed] at hf
    · simp only [List.getElem?_cons_succ, List.getElem?_cons_zero, Option.some.injEq] at hi
      rw [← hi] at hf
      simp [FsAction.failed] at hf
    · simp only [List.getElem?_cons_succ] at hi
      have := ih k a hi hf
      simp only [List.length_cons]
      omega

/-- When every upload and remove made for the entries `pre` succeeds, the scan
of `pre ++ rest` is the scan of `rest` continued from the scan of `pre`. -/
theorem scanLoop_append_of_success (lib : ScanLib) (fileDir : String) (p : printer) :
    ∀ (pre : List DirEntry) (st : ScanState) (rest : List DirEntry),
      (∀ l, (scanLoop lib fileDir (some p) pre st).actions = st.actions ++ l →
        ∀ a ∈ l, a.failed = false) →
      scanLoop lib fileDir (some p) (pre ++ rest) st
        = scanLoop lib fileDir (some p) rest (scanLoop lib fileDir (some p) pre st) := by
  intro pre
  induction pre with
  | nil =>
    intro st rest _
    rfl
  | cons file files ih =>
    intro st rest hok
    rw [List.cons_append]
    rcases scanLoop_cases lib fileDir p file st with
      hskip | ⟨hname, hfile, ⟨err, hup⟩ | ⟨hup, err, hrm⟩ | ⟨hup, hrm⟩⟩
    · rw [scanLoop_skip lib fileDir p file _ st hskip,
        scanLoop_skip lib fileDir p file files st hskip]
      rw [scanLoop_skip lib fileDir p file files st hskip] at hok
      exact ih _ rest hok
    · rw [scanLoop_upload_failed lib fileDir p file files st err hname hfile hup] at hok
      have := hok _ rfl _ (List.mem_singleton.mpr rfl)
      simp [FsAction.failed] at this
    · rw [scanLoop_remove_failed lib fileDir p file files st err hname hfile hup hrm] at hok
      have := hok _ rfl (.remove (lib.join fileDir file.Name) (some err)) (by simp)
      simp [FsAction.failed] at this
    · rw [scanLoop_uploaded_removed lib fileDir p file _ st hname hfile hup hrm,
        scanLoop_uploaded_removed lib fileDir p file files st hname hfile hup hrm]
      rw [scanLoop_uploaded_removed lib fileDir p file files st hname hfile hup hrm] at hok
      refine ih _ rest ?_
      intro l hl a ha
      refine hok ([.upload (lib.join fileDir file.Name) none,
        .remove (lib.join fileDir file.Name) none] ++ l) ?_ a (List.mem_append_right _ ha)
      rw [hl]
      simp

/-- C11: whatever the directory lists and however the uploads turn out,
processPath removes a file only directly after the upload of that same file
succeeded, and a failed upload is the last thing a scan does; when the upload
of an entry fails after every upload and remove for the entries before it
succeeded, the scan has done what it did for those earlier entries and the one
failed upload, and that entry and every later entry of the listing are still
in the directory. -/
theorem processPath_removes_after_upload_and_stops {D : Type} (lib : ScanLib)
    (c : SDBatchConsumer D) :
    (∀ i path err, (processPath lib c).actions[i]? = some (.remove path err) →
      ∃ j, i = j + 1 ∧ (processPath lib c).actions[j]? = some (.upload path none)) ∧
    (∀ i path err, (processPath lib c).actions[i]? = some (.upload path (some err)) →
      i + 1 = (processPath lib c).actions.length) ∧
    (∀ p files pre f post err, c.logPrinter = some p →
      lib.stat c.conf.TempDir = .ok true → lib.readDir c.conf.TempDir = .ok files →
      files = pre ++ f :: post →
      (∀ a ∈ (scanLoop lib c.conf.TempDir (some p) pre ⟨[], [], false⟩).actions,
        a.failed = false) →
      f.Name ≠ lib.base p.conf.filename → f.IsDir = false →
      lib.upload (scanLoop lib c.conf.TempDir (some p) pre ⟨[], [], false⟩).actions
        (lib.join c.conf.TempDir f.Name) = some err →
      (processPath lib c).actions
        = (scanLoop lib c.conf.TempDir (some p) pre ⟨[], [], false⟩).actions
            ++ [.upload (lib.join c.conf.TempDir f.Name) (some err)] ∧
      (processPath lib c).dir
        = (scanLoop lib c.conf.TempDir (some p) pre ⟨[], [], false⟩).dir ++ f :: post ∧
      (∀ a ∈ (scanLoop lib c.conf.TempDir (some p) pre ⟨[], [], false⟩).actions,
        ∃ e ∈ pre, ∃ r, a = .upload (lib.join c.conf.TempDir e.Name) r ∨
          a = .remove (lib.join c.conf.TempDir e.Name) r)) := by
  have htrace : ScanTrace (processPath lib c).actions := by
    unfold processPath
    simp only
    split
    · exact .done
    · split
      · split
        · exact .done
        · rename_i files _
          obtain ⟨l, hl, htr⟩ := scanLoop_trace lib c.conf.TempDir c.logPrinter files
            ⟨[], [], false⟩
          rw [hl]
          exact htr
      · exact .done
  refine ⟨ScanTrace_remove_after_upload _ htrace, ?_, ?_⟩
  · intro i path err hi
    exact ScanTrace_failed_last _ htrace i _ hi rfl
  · intro p files pre f post err hp hstat hread hfiles hpre hname hfile hup
    have hscan : processPath lib c
        = scanLoop lib c.conf.TempDir (some p) files ⟨[], [], false⟩ := by
      unfold processPath
      simp only [hstat, hread, hp, if_true]
    have happ := scanLoop_append_of_success lib c.conf.TempDir p pre ⟨[], [], false⟩
      (f :: post) (by
        intro l hl a ha
        rw [List.nil_append] at hl
        exact hpre a (hl ▸ ha))
    rw [hscan, hfiles, happ,
      scanLoop_upload_failed lib c.conf.TempDir p f post _ err hname hfile hup]
    refine ⟨rfl, rfl, ?_⟩
    intro a ha
    rcases scanLoop_actions lib c.conf.TempDir (some p) pre ⟨[], [], false⟩ a ha with
      h | ⟨_, e, _, he, _, _, r, hr⟩
    · cases h
    · exact ⟨e, he, r, hr⟩

theorem processPath_removes_after_upload_and_stops_witness :
    (sampleConsumer [] 3 true).logPrinter = some samplePrinter ∧
    (∀ a ∈ (scanLoop failingScanLib (sampleConsumer [] 3 true).conf.TempDir (some samplePrinter)
        [⟨"app1-logback-1.log.gz", false⟩] ⟨[], [], false⟩).actions, a.failed = false) ∧
    (processPath failingScanLib (sampleConsumer [] 3 true)).actions
      = (scanLoop failingScanLib (sampleConsumer [] 3 true).conf.TempDir (some samplePrinter)
          [⟨"app1-logback-1.log.gz", false⟩] ⟨[], [], false⟩).actions
          ++ [.upload (failingScanLib.join (sampleConsumer [] 3 true).conf.TempDir
                (DirEntry.mk "app1-logback-2.log.gz" false).Name) (some "uploadFile failed:")] ∧
    (processPath failingScanLib (sampleConsumer [] 3 true)).dir
      = (scanLoop failingScanLib (sampleConsumer [] 3 true).conf.TempDir (some samplePrinter)
          [⟨"app1-logback-1.log.gz", false⟩] ⟨[], [], false⟩).dir
          ++ ⟨"app1-logback-2.log.gz", false⟩ :: [⟨"app1-logback-3.log.gz", false⟩] ∧
    (∀ a ∈ (scanLoop failingScanLib (sampleConsumer [] 3 true).conf.TempDir (some samplePrinter)
        [⟨"app1-logback-1.log.gz", false⟩] ⟨[], [], false⟩).actions,
      ∃ e ∈ [DirEntry.mk "app1-logback-1.log.gz" false], ∃ r,
        a = .upload (failingScanLib.join (sampleConsumer [] 3 true).conf.TempDir e.Name) r ∨
          a = .remove (failingScanLib.join (sampleConsumer [] 3 true).conf.TempDir e.Name) r) :=
  ⟨rfl, by decide,
    (processPath_removes_after_upload_and_stops failingScanLib (sampleConsumer [] 3 true)).2.2
      samplePrinter _ [⟨"app1-logback-1.log.gz", false⟩] ⟨"app1-logback-2.log.gz", false⟩
      [⟨"app1-logback-3.log.gz", false⟩] "uploadFile failed:" rfl rfl rfl rfl (by decide)
      (by decide) rfl rfl⟩

/-- After a scan in which every upload and remove succeeded, the entries left
in the directory are those the scan passes over: the one named like the
printer's file, and sub-directories. -/
theorem scanLoop_dir_of_success (lib : ScanLib) (fileDir : String) (p : printer) :
    ∀ (files : List DirEntry) (st : ScanState),
      (∀ l, (scanLoop lib fileDir (some p) files st).actions = st.actions ++ l →
        ∀ a ∈ l, a.failed = false) →
      ∀ e ∈ (scanLoop lib fileDir (some p) files st).dir,
        e ∈ st.dir ∨ e.Name = lib.base p.conf.filename ∨ e.IsDir = true := by
  intro files
  induction files with
  | nil =>
    intro st _ e he
    exact Or.inl he
  | cons file files ih =>
    intro st hok e he
    rcases scanLoop_cases lib fileDir p file st with
      hskip | ⟨hname, hfile, ⟨err, hup⟩ | ⟨hup, err, hrm⟩ | ⟨hup, hrm⟩⟩
    · rw [scanLoop_skip lib fileDir p file files st hskip] at hok he
      rcases ih _ hok e he with h | h
      · rcases List.mem_append.mp h with h | h
        · exact Or.inl h
        · rw [List.mem_singleton.mp h]
          exact Or.inr hskip
      · exact Or.inr h
    · rw [scanLoop_upload_failed lib fileDir p file files st err hname hfile hup] at hok
      have := hok _ rfl _ (List.mem_singleton.mpr rfl)
      simp [FsAction.failed] at this
    · rw [scanLoop_remove_failed lib fileDir p file files st err hname hfile hup hrm] at hok
      have := hok _ rfl (.remove (lib.join fileDir file.Name) (some err)) (by simp)
      simp [FsAction.failed] at this
    · rw [scanLoop_uploaded_removed lib fileDir p file files st hname hfile hup hrm] at hok he
      refine ih { st with actions := st.actions ++ [.upload (lib.join fileDir file.Name) none,
        .remove (lib.join fileDir file.Name) none] } ?_ e he
      intro l hl a ha
      refine hok ([.upload (lib.join fileDir file.Name) none,
        .remove (lib.join fileDir file.Name) none] ++ l) ?_ a (List.mem_append_right _ ha)
      rw [hl]
      simp

/-- A scan of entries that are all passed over has no effect and keeps them. -/
theorem scanLoop_all_skipped (lib : ScanLib) (fileDir : String) (p : printer) :
    ∀ (files : List DirEntry) (st : ScanState),
      (∀ e ∈ files, e.Name = lib.base p.conf.filename ∨ e.IsDir = true) →
      scanLoop lib fileDir (some p) files st = { st with dir := st.dir ++ files } := by
  intro files
  induction files with
  | nil =>
    intro st _
    simp [scanLoop]
  | cons file files ih =>
    intro st h
    rw [scanLoop_skip lib fileDir p file files st (h file (List.mem_cons_self _ _)),
      ih _ (fun e he => h e (List.mem_cons_of_mem _ he))]
    simp

/-- C12: after a processPath scan of a directory in which every upload and
every remove succeeded, a scan of the directory it left, whatever its uploads
and removes would come to, performs no upload and no remove and leaves the
directory unchanged. -/
theorem processPath_second_scan_noop {D : Type} (lib lib2 : ScanLib) (c : SDBatchConsumer D)
    (files : List DirEntry)
    (hstat : lib.stat c.conf.TempDir = .ok true)
    (hread : lib.readDir c.conf.TempDir = .ok files)
    (hok : ∀ a ∈ (processPath lib c).actions, a.failed = false)
    (hstat2 : lib2.stat c.conf.TempDir = .ok true)
    (hread2 : lib2.readDir c.conf.TempDir = .ok (processPath lib c).dir)
    (hbase : lib2.base = lib.base) :
    (processPath lib2 c).actions = [] ∧
    (processPath lib2 c).dir = (processPath lib c).dir := by
  have h1 : processPath lib c = scanLoop lib c.conf.TempDir c.logPrinter files ⟨[], [], false⟩ := by
    unfold processPath
    simp only [hstat, hread, if_true]
  have h2 : processPath lib2 c
      = scanLoop lib2 c.conf.TempDir c.logPrinter (processPath lib c).dir ⟨[], [], false⟩ := by
    conv => lhs; unfold processPath
    simp only [hstat2, hread2, if_true]
  cases hp : c.logPrinter with
  | none =>
    rw [h2, h1, hp]
    cases files with
    | nil => exact ⟨rfl, rfl⟩
    | cons f fs => exact ⟨rfl, rfl⟩
  | some p =>
    rw [hp] at h1 h2
    have hskipped : ∀ e ∈ (processPath lib c).dir,
        e.Name = lib2.base p.conf.filename ∨ e.IsDir = true := by
      intro e he
      rw [h1] at he
      rw [hbase]
      rcases scanLoop_dir_of_success lib c.conf.TempDir p files ⟨[], [], false⟩ (by
          intro l hl a ha
          rw [List.nil_append] at hl
          rw [h1] at hok
          exact hok a (hl ▸ ha)) e he with h | h
      · cases h
      · exact h
    rw [h2, scanLoop_all_skipped lib2 c.conf.TempDir p _ _ hskipped]
    exact ⟨rfl, by simp⟩

theorem processPath_second_scan_noop_witness :
    sampleScanLib.stat (sampleConsumer [] 3 true).conf.TempDir = .ok true ∧
    sampleScanLib.readDir (sampleConsumer [] 3 true).conf.TempDir = .ok
      [⟨"app1-logback-2024.log.gz", false⟩, ⟨"app1-logback.log", false⟩, ⟨"old", true⟩] ∧
    (∀ a ∈ (processPath sampleScanLib (sampleConsumer [] 3 true)).actions, a.failed = false) ∧
    (processPath sampleScanLib (sampleConsumer [] 3 true)).actions
      = [.upload "/tmp/spool/app1-logback-2024.log.gz" none,
         .remove "/tmp/spool/app1-logback-2024.log.gz" none] ∧
    (processPath
        { sampleScanLib with
          readDir := fun _ => .ok (processPath sampleScanLib (sampleConsumer [] 3 true)).dir }
        (sampleConsumer [] 3 true)).actions = [] ∧
    (processPath
        { sampleScanLib with
          readDir := fun _ => .ok (processPath sampleScanLib (sampleConsumer [] 3 true)).dir }
        (sampleConsumer [] 3 true)).dir
      = (processPath sampleScanLib (sampleConsumer [] 3 true)).dir :=
  ⟨rfl, rfl, by decide, by decide,
    processPath_second_scan_noop sampleScanLib
      { sampleScanLib with
        readDir := fun _ => .ok (processPath sampleScanLib (sampleConsumer [] 3 true)).dir }
      (sampleConsumer [] 3 true) _ rfl rfl (by decide) rfl rfl rfl⟩

/-! ## The log-file consumer -/

/-- C17, as the code has it: once Close has returned on a running log-file
consumer, Add returns the error "add event failed, SDK has been closed" and
enqueues nothing, a further Close returns the error "SDK has been closed", and
Flush returns nil, there being no file left to sync; none of them panics, and
each leaves the consumer as it is, so the same holds after any number of them. -/
theorem SDLogConsumer_after_close (lib lib2 : LogFileLib)
    (jsonMarshal : Data → Except GoError Bytes) (c c1 : SDLogConsumer)
    (err : Option GoError) (hrun : c.sdkClose = false)
    (hclose : SDLogConsumer.Close lib c = .returned (err, c1)) :
    c1.sdkClose = true ∧ c1.currentFile = none ∧ c1.ch = [] ∧
    (∀ d, SDLogConsumer.Add jsonMarshal c1 d
      = .returned (some "add event failed, SDK has been closed", c1)) ∧
    SDLogConsumer.Close lib2 c1
      = .returned (some "[ShimmerData][error]: SDK has been closed", c1) ∧
    SDLogConsumer.Flush lib2 c1 = .returned (none, c1) := by
  unfold SDLogConsumer.Close at hclose
  simp only [hrun, Bool.false_eq_true, if_false] at hclose
  split at hclose
  · cases hclose
  · split at hclose
    · injection hclose with h
      injection h with _ hc
      subst hc
      refine ⟨rfl, rfl, rfl, fun d => ?_, ?_, ?_⟩ <;>
        simp [SDLogConsumer.Add, SDLogConsumer.Close, SDLogConsumer.Flush]
    · rename_i hfile
      injection hclose with h
      injection h with _ hc
      subst hc
      refine ⟨rfl, hfile, rfl, fun d => ?_, ?_, ?_⟩
      · simp [SDLogConsumer.Add]
      · simp [SDLogConsumer.Close]
      · simp only [SDLogConsumer.Flush]
        rw [hfile]

theorem SDLogConsumer_after_close_witness :
    sampleLogConsumer.sdkClose = false ∧
    SDLogConsumer.Close sampleLogFileLib sampleLogConsumer
      = .returned (none, { sampleLogConsumer with
          ch := [], chClosed := true, currentFile := none, sdkClose := true }) ∧
    ({ sampleLogConsumer with
        ch := [], chClosed := true, currentFile := none, sdkClose := true }
        : SDLogConsumer).sdkClose = true ∧
    ({ sampleLogConsumer with
        ch := [], chClosed := true, currentFile := none, sdkClose := true }
        : SDLogConsumer).currentFile = none ∧
    ({ sampleLogConsumer with
        ch := [], chClosed := true, currentFile := none, sdkClose := true }
        : SDLogConsumer).ch = [] ∧
    (∀ d, SDLogConsumer.Add (fun _ => .ok [123, 125])
        { sampleLogConsumer with
          ch := [], chClosed := true, currentFile := none, sdkClose := true } d
      = .returned (some "add event failed, SDK has been closed",
          { sampleLogConsumer with
            ch := [], chClosed := true, currentFile := none, sdkClose := true })) ∧
    SDLogConsumer.Close sampleLogFileLib
        { sampleLogConsumer with
          ch := [], chClosed := true, currentFile := none, sdkClose := true }
      = .returned (some "[ShimmerData][error]: SDK has been closed",
          { sampleLogConsumer with
            ch := [], chClosed := true, currentFile := none, sdkClose := true }) ∧
    SDLogConsumer.Flush sampleLogFileLib
        { sampleLogConsumer with
          ch := [], chClosed := true, currentFile := none, sdkClose := true }
      = .returned (none,
          { sampleLogConsumer with
            ch := [], chClosed := true, currentFile := none, sdkClose := true }) :=
  ⟨rfl, rfl,
    SDLogConsumer_after_close sampleLogFileLib sampleLogFileLib (fun _ => .ok [123, 125])
      sampleLogConsumer _ none rfl rfl⟩

/-- C17 as stated fails: after Close has returned on a running log-file
consumer, Flush returns nil and not a closed error. -/
theorem SDLogConsumer_flush_after_close_returns_nil :
    ∃ c1, SDLogConsumer.Close sampleLogFileLib sampleLogConsumer = .returned (none, c1) ∧
      c1.sdkClose = true ∧
      SDLogConsumer.Flush sampleLogFileLib c1 = .returned (none, c1) :=
  ⟨_, rfl, rfl, rfl⟩

/-! ## The event facade -/

theorem matchUpTo_isEmpty (cls : UInt8 → Bool) :
    ∀ (n : Nat) (s : Bytes),
      (matchUpTo cls n s).isEmpty = true ↔ s.length ≤ n ∧ ∀ x ∈ s, cls x = true := by
  intro n
  induction n with
  | zero =>
    intro s
    cases s with
    | nil => simp [matchUpTo]
    | cons b t => simp [matchUpTo]
  | succ n ih =>
    intro s
    cases s with
    | nil => simp [matchUpTo]
    | cons b t =>
      by_cases hb : cls b = true
      · simp only [matchUpTo, hb, if_true, ih t, List.length_cons, List.mem_cons,
          forall_eq_or_imp, true_and]
        constructor
        · rintro ⟨h1, h2⟩
          exact ⟨by omega, h2⟩
        · rintro ⟨h1, h2⟩
          exact ⟨by omega, h2⟩
      · simp only [matchUpTo, hb, if_false, List.isEmpty_cons, List.mem_cons,
          forall_eq_or_imp, false_and, and_false]
        simp

theorem isKeyStart_iff (b : UInt8) :
    isKeyStart b = true ↔ (65 ≤ b ∧ b ≤ 90) ∨ (97 ≤ b ∧ b ≤ 122) ∨ b = 35 := by
  simp only [isKeyStart, Bool.or_eq_true, Bool.and_eq_true, decide_eq_true_eq, beq_iff_eq]
  tauto

theorem isKeyRest_iff (b : UInt8) :
    isKeyRest b = true ↔
      (65 ≤ b ∧ b ≤ 90) ∨ (97 ≤ b ∧ b ≤ 122) ∨ (48 ≤ b ∧ b ≤ 57) ∨ b = 95 := by
  simp only [isKeyRest, Bool.or_eq_true, Bool.and_eq_true, decide_eq_true_eq, beq_iff_eq]
  tauto

/-- C19: for every byte string s, checkPattern(s) is true if and only if s has
between 1 and 50 bytes, its first byte is an ASCII letter or '#' (35), and
every other byte is an ASCII letter, a digit or an underscore (95); and an
event whose name is not empty and fails the check is rejected by
formatProperties with the error "invalid event name: " and the name. -/
theorem checkPattern_iff_and_event_name_rejected (s : Bytes) (stringent : Bool) (d : Data) :
    (checkPattern s = true ↔
      (1 ≤ s.length ∧ s.length ≤ 50 ∧
       (∀ b, s.head? = some b → (65 ≤ b ∧ b ≤ 90) ∨ (97 ≤ b ∧ b ≤ 122) ∨ b = 35) ∧
       (∀ x ∈ s.tail,
         (65 ≤ x ∧ x ≤ 90) ∨ (97 ≤ x ∧ x ≤ 122) ∨ (48 ≤ x ∧ x ≤ 57) ∨ x = 95))) ∧
    (d.EventName ≠ "" → checkPattern (stringBytes d.EventName) = false →
      formatProperties stringent d = (some ("invalid event name: " ++ d.EventName), d)) := by
  constructor
  · cases s with
    | nil => simp [checkPattern]
    | cons b t =>
      simp only [checkPattern, Bool.and_eq_true, matchUpTo_isEmpty, isKeyStart_iff,
        isKeyRest_iff, List.length_cons, List.head?_cons, Option.some.injEq, List.tail_cons]
      constructor
      · rintro ⟨hb, hlen, hall⟩
        exact ⟨by omega, by omega, fun b' hb' => hb' ▸ hb, hall⟩
      · rintro ⟨_, hlen, hb, hall⟩
        exact ⟨hb b rfl, by omega, hall⟩
  · intro hname hcheck
    simp [formatProperties, hname, hcheck]

theorem checkPattern_iff_and_event_name_rejected_witness :
    ({ sampleData with EventName := "1st login" } : Data).EventName ≠ "" ∧
    checkPattern (stringBytes ({ sampleData with EventName := "1st login" } : Data).EventName)
      = false ∧
    formatProperties false { sampleData with EventName := "1st login" }
      = (some ("invalid event name: " ++
          ({ sampleData with EventName := "1st login" } : Data).EventName),
         { sampleData with EventName := "1st login" }) :=
  ⟨by decide, by decide,
    (checkPattern_iff_and_event_name_rejected [] false
      { sampleData with EventName := "1st login" }).2 (by decide) (by decide)⟩

/-- C18 at a failing input: `Track("acc1", "dist1", "login", {"#lib": "Java"})`
hands the consumer an event whose property "#lib" is "Java": the custom
properties are merged after the preset ones and replace them. -/
theorem track_custom_property_replaces_preset :
    (sampleAnalytics.Track sampleFacadeLib "acc1" "dist1" "login"
        [("#lib", .string "Java")]).err = none ∧
    (sampleAnalytics.Track sampleFacadeLib "acc1" "dist1" "login"
        [("#lib", .string "Java")]).handed.map (fun d => d.Properties)
      = some [("#lib", .string "Java"), ("#lib_version", .string "v1.0.0")] ∧
    (sampleAnalytics.Track sampleFacadeLib "acc1" "dist1" "login"
        [("#lib", .string "Java")]).handed.map (fun d => d.Properties.get "#lib")
      = some (some (.string "Java")) ∧
    (sampleAnalytics.Track sampleFacadeLib "acc1" "dist1" "login"
        []).handed.map (fun d => d.Properties.get "#lib")
      = some (some (.string "Golang")) := by
  refine ⟨?_, ?_, ?_, ?_⟩ <;> rfl

/-! ## parseTime -/

theorem countDigits_le (s : Bytes) : countDigits s ≤ s.length := by
  induction s with
  | nil => simp [countDigits]
  | cons b t ih =>
    simp only [countDigits, List.length_cons]
    split <;> omega

theorem matchToks_le (ts : List Tok) :
    ∀ (s : Bytes) (n : Nat), matchToks ts s = some n → minMatchLen ts ≤ n ∧ n ≤ s.length := by
  induction ts with
  | nil =>
    intro s n h
    simp only [matchToks, Option.some.injEq] at h
    subst h
    exact ⟨Nat.le_refl _, Nat.zero_le _⟩
  | cons t ts ih =>
    intro s n h
    cases t with
    | digits =>
      simp only [matchToks, Option.map_eq_some'] at h
      obtain ⟨m, hm, rfl⟩ := h
      have := ih _ m hm
      have hc := countDigits_le s
      simp only [List.length_drop] at this
      simp only [minMatchLen]
      omega
    | lit c =>
      cases s with
      | nil => simp [matchToks] at h
      | cons b s =>
        simp only [matchToks] at h
        split at h
        · simp only [Option.map_eq_some'] at h
          obtain ⟨m, hm, rfl⟩ := h
          have := ih _ m hm
          simp only [minMatchLen, List.length_cons]
          omega
        · cases h
    | digit =>
      cases s with
      | nil => simp [matchToks] at h
      | cons b s =>
        simp only [matchToks] at h
        split at h
        · simp only [Option.map_eq_some'] at h
          obtain ⟨m, hm, rfl⟩ := h
          have := ih _ m hm
          simp only [minMatchLen, List.length_cons]
          omega
        · cases h
    | sign =>
      cases s with
      | nil => simp [matchToks] at h
      | cons b s =>
        simp only [matchToks] at h
        split at h
        · simp only [Option.map_eq_some'] at h
          obtain ⟨m, hm, rfl⟩ := h
          have := ih _ m hm
          simp only [minMatchLen, List.length_cons]
          omega
        · cases h

theorem timeMatchLen_bounds (s : Bytes) (n : Nat) (h : timeMatchLen s = some n) :
    26 ≤ n ∧ n ≤ s.length := by
  unfold timeMatchLen at h
  split at h
  · rename_i m hm
    injection h with h
    subst h
    have := matchToks_le _ s m hm
    have hmin : minMatchLen (timePrefix ++ zoneZ) = 26 := by decide
    omega
  · have := matchToks_le _ s n h
    have hmin : minMatchLen (timePrefix ++ zoneOffset) = 31 := by decide
    omega

theorem replaceAllTime_nil (k : Nat) : replaceAllTime k [] = [] := by
  cases k <;> simp [replaceAllTime]

theorem replaceAllTime_skip : ∀ (k : Nat) (s : Bytes),
    replaceAllTime k s = replaceAllTime 0 (s.drop k) := by
  intro k
  induction k with
  | zero => intro s; rfl
  | succ k ih =>
    intro s
    cases s with
    | nil => simp [replaceAllTime_nil]
    | cons b s =>
      simp only [replaceAllTime, List.drop_succ_cons]
      exact ih s

theorem replaceAllTime_match (b : UInt8) (s : Bytes) (n : Nat)
    (h : timeMatchLen (b :: s) = some n) :
    replaceAllTime 0 (b :: s)
      = timeReplacement (b :: s) ++ replaceAllTime 0 ((b :: s).drop n) := by
  have hn := (timeMatchLen_bounds _ n h).1
  obtain ⟨m, rfl⟩ : ∃ m, n = m + 1 := ⟨n - 1, by omega⟩
  simp only [replaceAllTime, h, Nat.add_sub_cancel, List.drop_succ_cons]
  rw [replaceAllTime_skip]

theorem replaceAllTime_nomatch (b : UInt8) (s : Bytes) (h : timeMatchLen (b :: s) = none) :
    replaceAllTime 0 (b :: s) = b :: replaceAllTime 0 s := by
  simp only [replaceAllTime, h]

theorem timeReplacement_length_le (s : Bytes) : (timeReplacement s).length ≤ 25 := by
  simp only [timeReplacement, List.length_append, List.length_take, List.length_drop,
    List.length_singleton]
  omega

/-- A round of replacement never makes the input longer, and makes it shorter
when the pattern matches somewhere. -/
theorem replaceAllTime_length : ∀ (m : Nat) (s : Bytes), s.length ≤ m →
    (replaceAllTime 0 s).length ≤ s.length ∧
    (hasTimeMatch s = true → (replaceAllTime 0 s).length < s.length) := by
  intro m
  induction m with
  | zero =>
    intro s hs
    have : s = [] := List.length_eq_zero.mp (by omega)
    subst this
    simp [replaceAllTime_nil, hasTimeMatch]
  | succ m ih =>
    intro s hs
    cases s with
    | nil => simp [replaceAllTime_nil, hasTimeMatch]
    | cons b s =>
      cases h : timeMatchLen (b :: s) with
      | none =>
        have := ih s (by simp only [List.length_cons] at hs; omega)
        rw [replaceAllTime_nomatch b s h]
        simp only [hasTimeMatch, h, Option.isSome_none, Bool.false_or, List.length_cons]
        exact ⟨by omega, fun hm => by have := this.2 hm; omega⟩
      | some n =>
        have hb := timeMatchLen_bounds _ n h
        have := (ih ((b :: s).drop n) (by
          rw [List.length_drop]
          simp only [List.length_cons] at hs ⊢
          omega)).1
        have hr := timeReplacement_length_le (b :: s)
        rw [replaceAllTime_match b s n h, List.length_append]
        rw [List.length_drop] at this
        exact ⟨by omega, fun _ => by omega⟩

theorem hasTimeMatch_length_pos (s : Bytes) (h : hasTimeMatch s = true) : 0 < s.length := by
  cases s with
  | nil => simp [hasTimeMatch] at h
  | cons b s => simp

/-- With at least as many rounds as the input has bytes the loop of parseTime
ends because nothing matches any more, and more rounds change nothing. -/
theorem parseTimeLoop_enough : ∀ (rounds : Nat) (s : Bytes), s.length ≤ rounds →
    hasTimeMatch (parseTimeLoop rounds s) = false ∧
    ∀ more, s.length ≤ more → parseTimeLoop more s = parseTimeLoop rounds s := by
  intro rounds
  induction rounds with
  | zero =>
    intro s hs
    have : s = [] := List.length_eq_zero.mp (by omega)
    subst this
    refine ⟨rfl, fun more _ => ?_⟩
    cases more <;> simp [parseTimeLoop, hasTimeMatch]
  | succ rounds ih =>
    intro s hs
    by_cases hm : hasTimeMatch s = true
    · have hlen := (replaceAllTime_length s.length s (Nat.le_refl _)).2 hm
      have hih := ih (replaceAllTime 0 s) (by omega)
      simp only [parseTimeLoop, hm, if_true]
      refine ⟨hih.1, fun more hmore => ?_⟩
      have hpos := hasTimeMatch_length_pos s hm
      obtain ⟨k, rfl⟩ : ∃ k, more = k + 1 := ⟨more - 1, by omega⟩
      simp only [parseTimeLoop, hm, if_true]
      exact hih.2 k (by omega)
    · have hm' : hasTimeMatch s = false := by simpa using hm
      have hstep : parseTimeLoop (rounds + 1) s = s := by
        simp only [parseTimeLoop, hm', Bool.false_eq_true, if_false]
      rw [hstep]
      refine ⟨hm', fun more _ => ?_⟩
      cases more <;> simp [parseTimeLoop, hm']

/-- The loop of parseTime ends by its own condition: nothing matches in what
parseTime returns. -/
theorem parseTime_no_match (s : Bytes) : hasTimeMatch (parseTime s) = false :=
  (parseTimeLoop_enough s.length s (Nat.le_refl _)).1

/-- The function parseTime on one JSON string: an RFC 3339 time stamp with
nanoseconds becomes date, blank, time and milliseconds. -/
theorem parseTime_rewrites_time_stamp :
    parseTime (stringBytes "\"2024-01-02T03:04:05.123456789Z\"")
      = stringBytes "\"2024-01-02 03:04:05.123\"" := by
  decide

/-! ## A flush whose packing fails, and the bounds of one flush -/

/-- The loop of pack when an item fails to serialize while the batch is not
yet full: the items before it and the item itself have been popped, the error
is returned, and the items behind stay queued. -/
theorem packLoop_error {D : Type} (jsonMarshal : D → Except GoError Bytes) (enc : D → Bytes)
    (batchSize : Int) (x : D) (post : List D) (err : GoError)
    (hx : jsonMarshal x = .error err) :
    ∀ (pre : List D) (b : Bytes) (size : Int),
      size + (pre.length : Int) < batchSize →
      (∀ d ∈ pre, jsonMarshal d = .ok (enc d)) →
      packLoop jsonMarshal batchSize b size (pre ++ x :: post) = (.error err, post) := by
  intro pre
  induction pre with
  | nil =>
    intro b size hlt _
    have hs : size < batchSize := by simpa using hlt
    rw [List.nil_append]
    unfold packLoop
    simp only [hs, if_true, hx]
  | cons d ds ih =>
    intro b size hlt hser
    have hs : size < batchSize := by
      simp only [List.length_cons] at hlt
      omega
    have hd : jsonMarshal d = .ok (enc d) := hser d (List.mem_cons_self _ _)
    rw [List.cons_append]
    unfold packLoop
    simp only [hs, if_true, hd]
    refine ih _ _ ?_ (fun y hy => hser y (List.mem_cons_of_mem _ hy))
    simp only [List.length_cons] at hlt
    push_cast at hlt
    omega

/-- C22: when the j-th item popped by pack, with j at most the batch size b
(so b >= 1), fails to serialize after the j-1 before it serialized, pack returns that
error and no buffer, innerFlush (when it is not skipped) returns the same
error without a send attempt and without handing anything to the printer,
and the queue is left with exactly the items behind the j-th, in their order:
the first j items are gone. -/
theorem pack_error_loses_popped_items {D : Type} (jsonMarshal : D → Except GoError Bytes)
    (enc : D → Bytes) (rewrite : Bytes → Bytes) (tx : Transmitter) (force : Bool) (fuel : Nat)
    (c : SDBatchConsumer D) (pre : List D) (x : D) (post : List D) (err : GoError)
    (hq : c.buffer.list = pre ++ x :: post)
    (hj : (pre.length : Int) + 1 ≤ c.conf.BatchSize)
    (hpre : ∀ d ∈ pre, jsonMarshal d = .ok (enc d))
    (hx : jsonMarshal x = .error err)
    (hgo : force = true ∨ c.conf.BatchSize ≤ (c.buffer.list.length : Int)) :
    pack jsonMarshal c = (.error err, { c with buffer := ⟨post⟩ }) ∧
    innerFlush jsonMarshal rewrite tx force (fuel + 1) c
      = some (some err, { c with buffer := ⟨post⟩ }) ∧
    ({ c with buffer := ⟨post⟩ } : SDBatchConsumer D).sends = c.sends ∧
    ({ c with buffer := ⟨post⟩ } : SDBatchConsumer D).logPrinter = c.logPrinter ∧
    ({ c with buffer := ⟨post⟩ } : SDBatchConsumer D).buffer.list
      = c.buffer.list.drop (pre.length + 1) := by
  have hpack : pack jsonMarshal c = (.error err, { c with buffer := ⟨post⟩ }) := by
    unfold pack
    rw [hq, packLoop_error jsonMarshal enc c.conf.BatchSize x post err hx pre [] 0
      (by omega) hpre]
  refine ⟨hpack, ?_, rfl, rfl, ?_⟩
  · have hlen : ¬ ((c.buffer.list.length : Int) = 0) := by
      rw [hq]
      simp only [List.length_append, List.length_cons]
      omega
    have hskip : ((decide ((c.buffer.list.length : Int) < c.conf.BatchSize)) && !force)
        = false := by
      rcases hgo with h | h
      · simp [h]
      · have : ¬ ((c.buffer.list.length : Int) < c.conf.BatchSize) := by omega
        simp [this]
    unfold innerFlush
    simp only [SafeList.Len, hlen, if_false, hskip, Bool.false_eq_true, hpack]
  · rw [hq]
    simp

theorem pack_error_loses_popped_items_witness :
    (sampleConsumer [1, 2, 200, 4, 5] 3 true).buffer.list = [1, 2] ++ 200 :: [4, 5] ∧
    ((([1, 2] : List Nat).length : Int) + 1
      ≤ (sampleConsumer [1, 2, 200, 4, 5] 3 true).conf.BatchSize) ∧
    (∀ d ∈ ([1, 2] : List Nat), pickyMarshal d = .ok [d.toUInt8]) ∧
    pickyMarshal 200 = .error "json: unsupported value: NaN" ∧
    pack pickyMarshal (sampleConsumer [1, 2, 200, 4, 5] 3 true)
      = (.error "json: unsupported value: NaN",
         { sampleConsumer [1, 2, 200, 4, 5] 3 true with buffer := ⟨[4, 5]⟩ }) ∧
    innerFlush pickyMarshal id succeedingTransmitter true 1
        (sampleConsumer [1, 2, 200, 4, 5] 3 true)
      = some (some "json: unsupported value: NaN",
          { sampleConsumer [1, 2, 200, 4, 5] 3 true with buffer := ⟨[4, 5]⟩ }) ∧
    ({ sampleConsumer [1, 2, 200, 4, 5] 3 true with buffer := ⟨[4, 5]⟩ }
      : SDBatchConsumer Nat).sends = (sampleConsumer [1, 2, 200, 4, 5] 3 true).sends ∧
    ({ sampleConsumer [1, 2, 200, 4, 5] 3 true with buffer := ⟨[4, 5]⟩ }
      : SDBatchConsumer Nat).logPrinter = (sampleConsumer [1, 2, 200, 4, 5] 3 true).logPrinter ∧
    ({ sampleConsumer [1, 2, 200, 4, 5] 3 true with buffer := ⟨[4, 5]⟩ }
      : SDBatchConsumer Nat).buffer.list
      = (sampleConsumer [1, 2, 200, 4, 5] 3 true).buffer.list.drop
          (([1, 2] : List Nat).length + 1) :=
  ⟨rfl, by decide, by decide, rfl,
    pack_error_loses_popped_items pickyMarshal (fun d => [d.toUInt8]) id succeedingTransmitter
      true 0 (sampleConsumer [1, 2, 200, 4, 5] 3 true) [1, 2] 200 [4, 5]
      "json: unsupported value: NaN" rfl (by decide) (by decide) rfl (Or.inl rfl)⟩

/-- The retry loop over i = 0, 1, 2 by the outcomes of its attempts: it returns
nil at the first attempt that succeeds, and after three failed attempts it
calls writeFile and returns the third error. -/
theorem sendLoop_three_cases {D : Type} (tx : Transmitter) (params : Bytes) (size : Int)
    (c : SDBatchConsumer D) :
    (tx c.sends params size = none ∧
      sendLoop tx params size (List.range 3) c
        = (some none, { c with sends := c.sends ++ [(params, size)] })) ∨
    (tx c.sends params size ≠ none ∧
      tx (c.sends ++ [(params, size)]) params size = none ∧
      sendLoop tx params size (List.range 3) c
        = (some none, { c with sends := c.sends ++ [(params, size), (params, size)] })) ∨
    (tx c.sends params size ≠ none ∧
      tx (c.sends ++ [(params, size)]) params size ≠ none ∧
      tx (c.sends ++ [(params, size), (params, size)]) params size = none ∧
      sendLoop tx params size (List.range 3) c
        = (some none,
           { c with sends := c.sends ++ [(params, size), (params, size), (params, size)] })) ∨
    (tx c.sends params size ≠ none ∧
      tx (c.sends ++ [(params, size)]) params size ≠ none ∧
      ∃ err, tx (c.sends ++ [(params, size), (params, size)]) params size = some err ∧
        sendLoop tx params size (List.range 3) c
          = (some (some err),
             writeFile { c with sends := c.sends ++
               [(params, size), (params, size), (params, size)] } params)) := by
  have hr : List.range 3 = [0, 1, 2] := by decide
  rw [hr]
  cases h1 : tx c.sends params size with
  | none =>
    left
    exact ⟨rfl, by simp [sendLoop, callSend, h1]⟩
  | some e1 =>
    right
    cases h2 : tx (c.sends ++ [(params, size)]) params size with
    | none =>
      left
      exact ⟨by simp, rfl, by simp [sendLoop, callSend, h1, h2]⟩
    | some e2 =>
      right
      cases h3 : tx (c.sends ++ [(params, size), (params, size)]) params size with
      | none =>
        left
        exact ⟨by simp, by simp, rfl, by simp [sendLoop, callSend, h1, h2, h3]⟩
      | some e3 =>
        right
        exact ⟨by simp, by simp, e3, rfl, by simp [sendLoop, callSend, h1, h2, h3]⟩

/-- The bound on the depth of the trailing `return c.innerFlush(force)` plays
no part: with any bound of at least one call innerFlush gives what it gives
with a bound of exactly one call, under which the trailing call cannot run. -/
theorem innerFlush_depth_irrelevant {D : Type} (jsonMarshal : D → Except GoError Bytes)
    (rewrite : Bytes → Bytes) (tx : Transmitter) (force : Bool) (fuel : Nat)
    (c : SDBatchConsumer D) :
    innerFlush jsonMarshal rewrite tx force (fuel + 1) c
      = innerFlush jsonMarshal rewrite tx force 1 c := by
  conv => lhs; unfold innerFlush
  conv => rhs; unfold innerFlush
  split
  · rfl
  · split
    · rfl
    · split
      · rfl
      · rename_i b size c1 _
        obtain ⟨ret, c3, hloop⟩ := sendLoop_three_returns tx (rewrite b) size
          { c1 with countSend := c1.countSend + size }
        simp only [hloop]

/-- C21, as the code has it: for every queue, force flag and transmitter, one
call of innerFlush returns, and returns the same with the trailing recursive
call cut off (that call is unreachable); it makes k <= 3 send attempts, all
with the same bytes; an attempt that succeeds is the last one, and fewer than 3
attempts are made only because the last one succeeded; writeFile is called
exactly when 3 attempts were made and all 3 failed, so that the printer, when a
spool directory gave the consumer one, is then handed the bytes once, and in
every other case, and always for a consumer without a printer, nothing is
written. -/
theorem innerFlush_one_call_bounds {D : Type} (jsonMarshal : D → Except GoError Bytes)
    (rewrite : Bytes → Bytes) (tx : Transmitter) (force : Bool) (fuel : Nat)
    (c : SDBatchConsumer D) :
    ∃ err c1 data size k,
      innerFlush jsonMarshal rewrite tx force (fuel + 1) c = some (err, c1) ∧
      innerFlush jsonMarshal rewrite tx force 1 c = some (err, c1) ∧
      k ≤ 3 ∧
      c1.sends = c.sends ++ List.replicate k (data, size) ∧
      (∀ i, i < k → tx (c.sends ++ List.replicate i (data, size)) data size = none →
        i + 1 = k) ∧
      (0 < k → k < 3 →
        tx (c.sends ++ List.replicate (k - 1) (data, size)) data size = none) ∧
      ((k = 3 ∧ ∀ i < 3, tx (c.sends ++ List.replicate i (data, size)) data size ≠ none) →
        c1.logPrinter = c.logPrinter.map (fun p => { p with written := p.written ++ [data] })) ∧
      (¬ (k = 3 ∧ ∀ i < 3, tx (c.sends ++ List.replicate i (data, size)) data size ≠ none) →
        c1.logPrinter = c.logPrinter) := by
  have hdepth := innerFlush_depth_irrelevant jsonMarshal rewrite tx force fuel c
  have hnone : ∀ (err : Option GoError) (c1 : SDBatchConsumer D),
      innerFlush jsonMarshal rewrite tx force (fuel + 1) c = some (err, c1) →
      c1.sends = c.sends → c1.logPrinter = c.logPrinter →
      ∃ err c1 data size k,
        innerFlush jsonMarshal rewrite tx force (fuel + 1) c = some (err, c1) ∧
        innerFlush jsonMarshal rewrite tx force 1 c = some (err, c1) ∧
        k ≤ 3 ∧
        c1.sends = c.sends ++ List.replicate k (data, size) ∧
        (∀ i, i < k → tx (c.sends ++ List.replicate i (data, size)) data size = none →
          i + 1 = k) ∧
        (0 < k → k < 3 →
          tx (c.sends ++ List.replicate (k - 1) (data, size)) data size = none) ∧
        ((k = 3 ∧ ∀ i < 3, tx (c.sends ++ List.replicate i (data, size)) data size ≠ none) →
          c1.logPrinter
            = c.logPrinter.map (fun p => { p with written := p.written ++ [data] })) ∧
        (¬ (k = 3 ∧ ∀ i < 3, tx (c.sends ++ List.replicate i (data, size)) data size ≠ none) →
          c1.logPrinter = c.logPrinter) := by
    intro err c1 hres hsends hprinter
    refine ⟨err, c1, [], 0, 0, hres, hdepth ▸ hres, by omega, by simp [hsends], ?_, ?_, ?_, ?_⟩
    · intro i hi
      omega
    · intro hk
      omega
    · rintro ⟨hk, _⟩
      omega
    · intro _
      exact hprinter
  by_cases h1 : c.buffer.Len = 0
  · exact hnone none c (by unfold innerFlush; simp [h1]) rfl rfl
  · by_cases h2 : (decide (c.buffer.Len < c.conf.BatchSize) && !force) = true
    · exact hnone none c (by unfold innerFlush; simp only [h1, if_false, h2, if_true]) rfl rfl
    · cases hpack : pack jsonMarshal c with
      | mk r c1 =>
        have hc1 : c1 = (pack jsonMarshal c).2 := by rw [hpack]
        cases r with
        | error e =>
          exact hnone (some e) c1
            (by unfold innerFlush; simp only [h1, if_false, h2, Bool.false_eq_true, hpack])
            (by rw [hc1]; rfl) (by rw [hc1]; rfl)
        | ok bs =>
          obtain ⟨b, size⟩ := bs
          have hflush : innerFlush jsonMarshal rewrite tx force (fuel + 1) c
              = match sendLoop tx (rewrite b) size (List.range 3)
                  { c1 with countSend := c1.countSend + size } with
                | (some ret, c3) => some (ret, c3)
                | (none, c3) => innerFlush jsonMarshal rewrite tx force fuel c3 := by
            conv => lhs; unfold innerFlush
            simp only [h1, if_false, h2, Bool.false_eq_true, hpack]
          obtain ⟨c2, hc2⟩ : ∃ c2 : SDBatchConsumer D,
              c2 = { c1 with countSend := c1.countSend + size } := ⟨_, rfl⟩
          have hs : c2.sends = c.sends := by rw [hc2, hc1]; rfl
          have hprinter : c2.logPrinter = c.logPrinter := by rw [hc2, hc1]; rfl
          rw [← hc2] at hflush
          rcases sendLoop_three_cases tx (rewrite b) size c2 with
            ⟨a1, hloop⟩ | ⟨a1, a2, hloop⟩ | ⟨a1, a2, a3, hloop⟩ | ⟨a1, a2, e3, a3, hloop⟩
          all_goals rw [hloop] at hflush
          all_goals rw [hs] at a1
          · refine ⟨none, _, rewrite b, size, 1, hflush, hdepth ▸ hflush, by omega,
              ?_, ?_, ?_, ?_, ?_⟩
            · show c2.sends ++ _ = _
              rw [hs]
              rfl
            · intro i hi _
              omega
            · intro _ _
              simpa using a1
            · rintro ⟨hk, _⟩
              omega
            · intro _
              exact hprinter
          · rw [hs] at a2
            refine ⟨none, _, rewrite b, size, 2, hflush, hdepth ▸ hflush, by omega,
              ?_, ?_, ?_, ?_, ?_⟩
            · show c2.sends ++ _ = _
              rw [hs]
              rfl
            · intro i hi hi0
              have : i = 0 ∨ i = 1 := by omega
              rcases this with rfl | rfl
              · simp only [List.replicate, List.append_nil] at hi0
                exact absurd hi0 a1
              · rfl
            · intro _ _
              simpa [List.replicate] using a2
            · rintro ⟨hk, _⟩
              omega
            · intro _
              exact hprinter
          · rw [hs] at a2 a3
            refine ⟨none, _, rewrite b, size, 3, hflush, hdepth ▸ hflush, by omega,
              ?_, ?_, ?_, ?_, ?_⟩
            · show c2.sends ++ _ = _
              rw [hs]
              rfl
            · intro i hi hi0
              have : i = 0 ∨ i = 1 ∨ i = 2 := by omega
              rcases this with rfl | rfl | rfl
              · simp only [List.replicate, List.append_nil] at hi0
                exact absurd hi0 a1
              · simp only [List.replicate] at hi0
                exact absurd hi0 a2
              · rfl
            · intro _ hk
              omega
            · rintro ⟨_, hall⟩
              have := hall 2 (by omega)
              simp only [List.replicate] at this
              exact absurd a3 this
            · intro _
              exact hprinter
          · rw [hs] at a2 a3
            refine ⟨some e3, _, rewrite b, size, 3, hflush, hdepth ▸ hflush, by omega, ?_,
              ?_, ?_, ?_, ?_⟩
            · cases hp : c2.logPrinter with
              | none =>
                simp only [writeFile, hp]
                rw [hs]
                rfl
              | some p =>
                simp only [writeFile, hp]
                rw [hs]
                rfl
            · intro i hi hi0
              have : i = 0 ∨ i = 1 ∨ i = 2 := by omega
              rcases this with rfl | rfl | rfl
              · simp only [List.replicate, List.append_nil] at hi0
                exact absurd hi0 a1
              · simp only [List.replicate] at hi0
                exact absurd hi0 a2
              · rfl
            · intro _ hk
              omega
            · intro _
              rw [← hprinter]
              cases hp : c2.logPrinter with
              | none => simp only [writeFile, hp, Option.map_none']
              | some p =>
                simp only [writeFile, hp, Option.map_some']
                rfl
            · intro hnot
              exfalso
              apply hnot
              refine ⟨rfl, fun i hi => ?_⟩
              have : i = 0 ∨ i = 1 ∨ i = 2 := by omega
              rcases this with rfl | rfl | rfl
              · simpa [List.replicate] using a1
              · simpa [List.replicate] using a2
              · simp [List.replicate, a3]

theorem innerFlush_one_call_bounds_witness :
    ∃ err c1 data size k,
      innerFlush sampleMarshal id failingTransmitter true (4 + 1)
        (sampleConsumer [1, 2, 3] 3 true) = some (err, c1) ∧
      innerFlush sampleMarshal id failingTransmitter true 1
        (sampleConsumer [1, 2, 3] 3 true) = some (err, c1) ∧
      k ≤ 3 ∧
      c1.sends = (sampleConsumer [1, 2, 3] 3 true).sends ++ List.replicate k (data, size) ∧
      (∀ i, i < k →
        failingTransmitter ((sampleConsumer [1, 2, 3] 3 true).sends ++
          List.replicate i (data, size)) data size = none → i + 1 = k) ∧
      (0 < k → k < 3 →
        failingTransmitter ((sampleConsumer [1, 2, 3] 3 true).sends ++
          List.replicate (k - 1) (data, size)) data size = none) ∧
      ((k = 3 ∧ ∀ i < 3, failingTransmitter ((sampleConsumer [1, 2, 3] 3 true).sends ++
          List.replicate i (data, size)) data size ≠ none) →
        c1.logPrinter = (sampleConsumer [1, 2, 3] 3 true).logPrinter.map
          (fun p => { p with written := p.written ++ [data] })) ∧
      (¬ (k = 3 ∧ ∀ i < 3, failingTransmitter ((sampleConsumer [1, 2, 3] 3 true).sends ++
          List.replicate i (data, size)) data size ≠ none) →
        c1.logPrinter = (sampleConsumer [1, 2, 3] 3 true).logPrinter) :=
  innerFlush_one_call_bounds sampleMarshal id failingTransmitter true 4
    (sampleConsumer [1, 2, 3] 3 true)

/-- C21 as stated fails: a consumer made without a spool directory has no
printer; with three queued events and a transmitter that fails on every
attempt, a forced innerFlush makes three attempts, all of which fail, and
writes nothing: the batch has left the queue and the consumer still has no
printer. -/
theorem innerFlush_all_failed_without_spool_writes_nothing :
    (sampleConsumer [1, 2, 3] 3 false).conf.TempDir = "" ∧
    (sampleConsumer [1, 2, 3] 3 false).logPrinter.isNone = true ∧
    (∀ hist data n, failingTransmitter hist data n ≠ none) ∧
    (innerFlush sampleMarshal id failingTransmitter true 1
        (sampleConsumer [1, 2, 3] 3 false)).map
        (fun r => (r.1, r.2.sends, r.2.logPrinter.map (fun p => p.written), r.2.buffer.list))
      = some (some "connection refused",
          [([1, 10, 2, 10, 3, 10], 3), ([1, 10, 2, 10, 3, 10], 3), ([1, 10, 2, 10, 3, 10], 3)],
          none, []) := by
  refine ⟨rfl, rfl, fun _ _ _ => by simp [failingTransmitter], ?_⟩
  rfl

end Shimmerdata
